import Mathlib

/-!
# Cache simulator (`Project 1/cachesim.c`): embedding and verified properties

The C program keeps its whole simulation state in globals: two arrays of
`MetaData` rows (`iCache`, `dCache`) and a collection of `int` counters.
The embedding below passes that state explicitly.

Conventions of the embedding

* `int` counters and fields are natural numbers (no wrap-around is modelled;
  every counter only grows by small steps from 0).
* A `MetaData** cache` argument is always one of the two global arrays, so it
  is represented by a selector `CachePtr`.
* `cache[r][i]` reads use a default (all-zero) line when `r` or `i` is outside
  the allocated array and writes outside the array are dropped; inside the
  allocated array they are ordinary reads and writes.
* `rand()` is an external generator: the value it would return during one call
  of `handle_access` (which calls it at most once) is an explicit argument.
* `(int) ceil(log2(n))` is the least `k` with `n ≤ 2 ^ k` (`ceilLog2`), its
  value for `n ≥ 1`.
* Configuration fields are natural numbers. Division by an associativity of 0
  and `rand() % 0` do not arise in the program for the caches it simulates
  (the data cache is used only when its associativity is positive, the
  replacement functions only when the associativity is not 1); the embedding
  gives them Lean's values (`n / 0 = 0`, `n % 0 = n`).
* `tagBit = 32 - wordBit - rowBit - 2` is a truncated subtraction; it is the C
  value whenever `wordBit + rowBit ≤ 30`.
* Loops that only search (`isOpen`, the scans of `cacheAccess`, `dWrite`,
  `lruReplace`) are `List.find?` / `List.foldl` over the index range; the
  state is not modified before such a loop returns.
-/

namespace CacheSim

/-! ## Declarations of `cachesim.h` -/

/-- Modelled from the spec: the replacement-policy enumeration of `cachesim.h`
(the header is not part of the sources); the spec lists the two policies
`{LRU, Random}` and the code uses `Replacement_LRU`, `Replacement_RANDOM`. -/
inductive Replacement where
  | LRU
  | RANDOM
deriving DecidableEq, Repr

/-- Modelled from the spec: the write-scheme enumeration of `cachesim.h`,
`{WriteBack, WriteThrough}`; the code uses `Write_WRITE_BACK` and
`Write_WRITE_THROUGH`. -/
inductive WriteScheme where
  | WRITE_BACK
  | WRITE_THROUGH
deriving DecidableEq, Repr

/-- Modelled from the spec: the allocation-scheme enumeration of `cachesim.h`,
`{Allocate, NoAllocate}`; the code uses `Allocate_ALLOCATE` and
`Allocate_NO_ALLOCATE`. -/
inductive AllocateScheme where
  | ALLOCATE
  | NO_ALLOCATE
deriving DecidableEq, Repr

/-- Modelled from the spec: the access kinds of `cachesim.h`
(`Access_I_FETCH`, `Access_D_READ`, `Access_D_WRITE`). -/
inductive AccessType where
  | I_FETCH
  | D_READ
  | D_WRITE
deriving DecidableEq, Repr

/-- Modelled from the spec: the `CacheInfo` record of `cachesim.h`, with the
fields the code reads (`num_blocks`, `words_per_block`, `associativity`,
`replacement`, `write_scheme`, `allocate_scheme`). -/
structure CacheInfo where
  num_blocks : Nat
  words_per_block : Nat
  associativity : Nat
  replacement : Replacement
  write_scheme : WriteScheme
  allocate_scheme : AllocateScheme
deriving DecidableEq, Repr

/-- Modelled from the spec: the `MetaData` record of `cachesim.h`, one cache
line: `tag`, `valid`, `dirty` and the recency counter `LRU`. -/
structure MetaData where
  tag : Nat
  valid : Nat
  dirty : Nat
  LRU : Nat
deriving DecidableEq, Repr

instance : Inhabited MetaData := ⟨⟨0, 0, 0, 0⟩⟩

/-- The two static configuration records `icache_info` and `dcache_info[0]`
(levels 2 and 3 of `dcache_info` are never read by the simulation). -/
structure Config where
  icache_info : CacheInfo
  dcache_info0 : CacheInfo
deriving DecidableEq, Repr

/-! ## Program state -/

/-- A cache array: rows (sets) of lines. -/
abbrev Cache := List (List MetaData)

/-- The `int` globals of `cachesim.c`. -/
structure Globals where
  dallocate : Nat
  numWrites : Nat
  numWordsWritten : Nat
  readMisses : Nat
  readHits : Nat
  numReads : Nat
  compul : Nat
  conflict : Nat
  capacity : Nat
  readMissesD : Nat
  readHitsD : Nat
  numReadsD : Nat
  compulD : Nat
  conflictD : Nat
  capacityD : Nat
  compulW : Nat
  conflictW : Nat
  capacityW : Nat
  wHits : Nat
  wMisses : Nat
  numWordsRead : Nat
deriving DecidableEq, Repr

/-- The whole mutable state: both cache arrays and the counters. -/
structure State where
  iCache : Cache
  dCache : Cache
  g : Globals
deriving DecidableEq, Repr

/-- Which global array a `MetaData** cache` argument points to. -/
inductive CachePtr where
  | I
  | D
deriving DecidableEq, Repr

/-- Dereference a cache pointer. -/
def State.cache (s : State) : CachePtr → Cache
  | .I => s.iCache
  | .D => s.dCache

/-- Store through a cache pointer. -/
def State.setCache (s : State) (p : CachePtr) (c : Cache) : State :=
  match p with
  | .I => { s with iCache := c }
  | .D => { s with dCache := c }

/-- The read `cache[row][i]`. -/
def State.line (s : State) (p : CachePtr) (row i : Nat) : MetaData :=
  ((s.cache p).getD row []).getD i default

/-- The write `cache[row][i] = m`. -/
def State.setLine (s : State) (p : CachePtr) (row i : Nat) (m : MetaData) : State :=
  s.setCache p ((s.cache p).set row (((s.cache p).getD row []).set i m))

/-! ## Address decoding (the locals of `cacheAccess` and `dWrite`) -/

/-- Search for the least `k` with `n ≤ 2 ^ k`, starting at `k`. -/
def ceilLog2From (n : Nat) : Nat → Nat → Nat
  | 0, k => k
  | fuel + 1, k => if n ≤ 2 ^ k then k else ceilLog2From n fuel (k + 1)

/-- The value of `(int) ceil(log2(n))` for `n ≥ 1`. -/
def ceilLog2 (n : Nat) : Nat := ceilLog2From n n 0

def wordBit (ci : CacheInfo) : Nat := ceilLog2 ci.words_per_block

def rowBit (ci : CacheInfo) : Nat := ceilLog2 (ci.num_blocks / ci.associativity)

def tagBit (ci : CacheInfo) : Nat := 32 - wordBit ci - rowBit ci - 2

def rowShift (ci : CacheInfo) : Nat := wordBit ci + 2

def tagShift (ci : CacheInfo) : Nat := wordBit ci + rowBit ci + 2

def rowMask (ci : CacheInfo) : Nat := (1 <<< rowBit ci) - 1

def tagMask (ci : CacheInfo) : Nat := (1 <<< tagBit ci) - 1

/-- The local `rowIndex = (address >> rowShift) & rowMask`. -/
def rowIndexOf (ci : CacheInfo) (address : Nat) : Nat :=
  (address >>> rowShift ci) &&& rowMask ci

/-- The local `tag = (address >> tagShift) & tagMask`. -/
def tagOf (ci : CacheInfo) (address : Nat) : Nat :=
  (address >>> tagShift ci) &&& tagMask ci

/-! ## Set-up -/

/-- The zero-initialised globals at program start. -/
def Globals.zero : Globals :=
  ⟨0, 0, 0, 0, 0, 0, 0, 0, 0, 0, 0, 0, 0, 0, 0, 0, 0, 0, 0, 0, 0⟩

/-- The result of the `calloc` calls: `numRows` rows of `associativity` zeroed lines. -/
def callocCache (numRows associativity : Nat) : Cache :=
  List.replicate numRows (List.replicate associativity ⟨0, 0, 0, 0⟩)

/-- Source function `setUpVariables(a, cache_info)`: resets the listed counters and clears
every line of `a`. -/
def setUpVariables (a : CachePtr) (cache_info : CacheInfo) (s : State) : State :=
  let s := { s with
    g.readMisses := 0, g.readHits := 0, g.numReads := 0, g.compul := 0,
    g.conflict := 0, g.capacity := 0, g.compulW := 0, g.conflictW := 0,
    g.capacityW := 0, g.numWrites := 0, g.numWordsWritten := 0, g.wHits := 0,
    g.wMisses := 0, g.numWordsRead := 0 }
  let numBlocks := cache_info.num_blocks
  let associativity := cache_info.associativity
  (List.range (numBlocks / associativity)).foldl
    (fun s j => (List.range associativity).foldl
      (fun s i => s.setLine a j i ⟨0, 0, 0, 0⟩) s) s

/-- Source function `setup_caches()`, run on the zero-initialised program state. -/
def setup_caches (cfg : Config) : State :=
  let s : State := ⟨[], [], Globals.zero⟩
  let numBlocks := cfg.icache_info.num_blocks
  let associativity := cfg.icache_info.associativity
  let numRows := numBlocks / associativity
  let s := { s with iCache := callocCache numRows associativity }
  let s := setUpVariables .I cfg.icache_info s
  let s := { s with g.dallocate := 0 }
  if cfg.dcache_info0.associativity > 0 then
    let s := { s with g.dallocate := 1 }
    let numBlocks := cfg.dcache_info0.num_blocks
    let associativity := cfg.dcache_info0.associativity
    let numRows := numBlocks / associativity
    let s := { s with dCache := callocCache numRows associativity }
    setUpVariables .D cfg.dcache_info0 s
  else s

/-! ## Replacement and recency -/

/-- Source function `fixLRU(rowIndex, indexToKeep, cache, cache_info)`: age every way of the
row, then reset the kept way. -/
def fixLRU (rowIndex indexToKeep : Nat) (cache : CachePtr) (cache_info : CacheInfo)
    (s : State) : State :=
  let s := (List.range cache_info.associativity).foldl
    (fun s i => s.setLine cache rowIndex i
      { s.line cache rowIndex i with LRU := (s.line cache rowIndex i).LRU + 1 }) s
  s.setLine cache rowIndex indexToKeep { s.line cache rowIndex indexToKeep with LRU := 0 }

/-- Source function `ranReplace(rowIndex, cache, cache_info, tag)`, with `rand` the value
returned by `rand()`. Returns `newAssoIndex` and the new state. -/
def ranReplace (rowIndex : Nat) (cache : CachePtr) (cache_info : CacheInfo) (tag : Nat)
    (rand : Nat) (s : State) : Nat × State :=
  let newAssoIndex := rand % (cache_info.associativity - 1)
  let s := if (s.line cache rowIndex newAssoIndex).dirty = 1 then
      { s with g.numWordsWritten := s.g.numWordsWritten + cache_info.words_per_block }
    else s
  let s := s.setLine cache rowIndex newAssoIndex
    { s.line cache rowIndex newAssoIndex with tag := tag, valid := 1, dirty := 0 }
  (newAssoIndex, fixLRU rowIndex newAssoIndex cache cache_info s)

/-- The search loop shared by `lruReplace` and `lruReplaceD`: the pair
`(oldest, lruIndex)` after scanning ways `0 .. associativity - 1`. -/
def lruScan (rowIndex : Nat) (cache : CachePtr) (cache_info : CacheInfo) (s : State) :
    Nat × Nat :=
  (List.range cache_info.associativity).foldl
    (fun (acc : Nat × Nat) i =>
      if (s.line cache rowIndex i).LRU > acc.1 then ((s.line cache rowIndex i).LRU, i)
      else acc) (0, 0)

/-- Source function `lruReplace(rowIndex, cache, cache_info, tag)`. Returns `lruIndex` and the
new state. -/
def lruReplace (rowIndex : Nat) (cache : CachePtr) (cache_info : CacheInfo) (tag : Nat)
    (s : State) : Nat × State :=
  let lruIndex := (lruScan rowIndex cache cache_info s).2
  let s := if (s.line cache rowIndex lruIndex).dirty = 1 then
      { s with g.numWordsWritten := s.g.numWordsWritten + cache_info.words_per_block }
    else s
  let s := s.setLine cache rowIndex lruIndex
    { s.line cache rowIndex lruIndex with tag := tag, valid := 1, dirty := 0 }
  (lruIndex, fixLRU rowIndex lruIndex cache cache_info s)

/-! ## Data-cache write helpers -/

/-- Source function `isOpen(rowIndex)`: the first invalid way of the row of `dCache`, `none`
for the C result `-1`. -/
def isOpen (cfg : Config) (rowIndex : Nat) (s : State) : Option Nat :=
  (List.range cfg.dcache_info0.associativity).find?
    (fun i => decide ((s.line .D rowIndex i).valid = 0))

/-- The tail `if (associativity == 1) conflictW++; else capacityW++;`. -/
def countWriteMiss (cfg : Config) (s : State) : State :=
  if cfg.dcache_info0.associativity = 1 then { s with g.conflictW := s.g.conflictW + 1 }
  else { s with g.capacityW := s.g.capacityW + 1 }

/-- Source function `fillOpenSpace(rowIndex, openSpace, numWordBlock, tag)`. -/
def fillOpenSpace (cfg : Config) (rowIndex openSpace numWordBlock tag : Nat)
    (s : State) : State :=
  match cfg.dcache_info0.write_scheme with
  | .WRITE_THROUGH =>
    match cfg.dcache_info0.allocate_scheme with
    | .NO_ALLOCATE =>
      let s := { s with g.numWordsWritten := s.g.numWordsWritten + 1 }
      countWriteMiss cfg s
    | .ALLOCATE =>
      let s := if numWordBlock > 1 then
          { s with g.numWordsRead := s.g.numWordsRead + numWordBlock }
        else s
      let s := s.setLine .D rowIndex openSpace
        { s.line .D rowIndex openSpace with tag := tag, valid := 1, dirty := 0 }
      let s := { s with g.numWordsWritten := s.g.numWordsWritten + 1 }
      let s := { s with g.compulW := s.g.compulW + 1 }
      fixLRU rowIndex openSpace .D cfg.dcache_info0 s
  | .WRITE_BACK =>
    let s := s.setLine .D rowIndex openSpace
      { s.line .D rowIndex openSpace with tag := tag, valid := 1, dirty := 1 }
    let s := { s with g.compulW := s.g.compulW + 1 }
    let s := { s with g.numWordsRead := s.g.numWordsRead + numWordBlock }
    fixLRU rowIndex openSpace .D cfg.dcache_info0 s

/-- Source function `performWrite(rowIndex, assoIndex)`. -/
def performWrite (cfg : Config) (rowIndex assoIndex : Nat) (s : State) : State :=
  match cfg.dcache_info0.write_scheme with
  | .WRITE_THROUGH => { s with g.numWordsWritten := s.g.numWordsWritten + 1 }
  | .WRITE_BACK =>
    s.setLine .D rowIndex assoIndex { s.line .D rowIndex assoIndex with dirty := 1 }

/-- Source function `writeMem(rowIndex, index, cache, cache_info, tag)`. -/
def writeMem (cfg : Config) (rowIndex index : Nat) (cache : CachePtr)
    (cache_info : CacheInfo) (tag : Nat) (s : State) : State :=
  match cache_info.write_scheme with
  | .WRITE_BACK =>
    let s := if (s.line cache rowIndex index).dirty = 1 then
        let s := { s with
          g.numWordsWritten := s.g.numWordsWritten + cache_info.words_per_block }
        s.setLine cache rowIndex index { s.line cache rowIndex index with dirty := 0 }
      else s
    let s := if (s.line cache rowIndex index).dirty = 0 then
        let s := s.setLine cache rowIndex index
          { s.line cache rowIndex index with tag := tag, valid := 1, dirty := 1 }
        fixLRU rowIndex index cache cache_info s
      else s
    let s := { s with g.numWordsRead := s.g.numWordsRead + cache_info.words_per_block }
    countWriteMiss cfg s
  | .WRITE_THROUGH =>
    match cache_info.allocate_scheme with
    | .NO_ALLOCATE =>
      let s := { s with g.numWordsWritten := s.g.numWordsWritten + 1 }
      countWriteMiss cfg s
    | .ALLOCATE =>
      let s := if cache_info.words_per_block > 1 then
          { s with g.numWordsRead := s.g.numWordsRead + cache_info.words_per_block }
        else s
      let s := s.setLine cache rowIndex index
        { s.line cache rowIndex index with tag := tag, valid := 1, dirty := 0 }
      let s := fixLRU rowIndex index cache cache_info s
      let s := { s with g.numWordsWritten := s.g.numWordsWritten + 1 }
      countWriteMiss cfg s

/-- Source function `ranReplaceD(rowIndex, cache, cache_info, tag)`, with `rand` the value
returned by `rand()`. -/
def ranReplaceD (cfg : Config) (rowIndex : Nat) (cache : CachePtr) (cache_info : CacheInfo)
    (tag : Nat) (rand : Nat) (s : State) : Nat × State :=
  let newAssoIndex := rand % (cache_info.associativity - 1)
  (newAssoIndex, writeMem cfg rowIndex newAssoIndex cache cache_info tag s)

/-- Source function `lruReplaceD(rowIndex, cache, cache_info, tag)`. -/
def lruReplaceD (cfg : Config) (rowIndex : Nat) (cache : CachePtr) (cache_info : CacheInfo)
    (tag : Nat) (s : State) : Nat × State :=
  let lruIndex := (lruScan rowIndex cache cache_info s).2
  (lruIndex, writeMem cfg rowIndex lruIndex cache cache_info tag s)

/-! ## The two engines -/

/-- The statement `numReads++` or `numReadsD++`, selected by `whichCounts`. -/
def countRead (whichCounts : Nat) (s : State) : State :=
  if whichCounts ≠ 0 then { s with g.numReads := s.g.numReads + 1 }
  else { s with g.numReadsD := s.g.numReadsD + 1 }

/-- The statement `readHits++` or `readHitsD++`, selected by `whichCounts`. -/
def countHit (whichCounts : Nat) (s : State) : State :=
  if whichCounts ≠ 0 then { s with g.readHits := s.g.readHits + 1 }
  else { s with g.readHitsD := s.g.readHitsD + 1 }

/-- The statement `compul++` or `compulD++`, selected by `whichCounts`. -/
def countCompul (whichCounts : Nat) (s : State) : State :=
  if whichCounts ≠ 0 then { s with g.compul := s.g.compul + 1 }
  else { s with g.compulD := s.g.compulD + 1 }

/-- The statement `conflict++` or `conflictD++`, selected by `whichCounts`. -/
def countConflict (whichCounts : Nat) (s : State) : State :=
  if whichCounts ≠ 0 then { s with g.conflict := s.g.conflict + 1 }
  else { s with g.conflictD := s.g.conflictD + 1 }

/-- The statement `capacity++` or `capacityD++`, selected by `whichCounts`. -/
def countCapacity (whichCounts : Nat) (s : State) : State :=
  if whichCounts ≠ 0 then { s with g.capacity := s.g.capacity + 1 }
  else { s with g.capacityD := s.g.capacityD + 1 }

/-- The way at which the scan `for (i = 0; i < associativity; i++)` of
`cacheAccess` returns: the first way that is valid with the wanted tag, or
invalid. `none` when the loop runs to its end. -/
def scanRead (rowIndex tag : Nat) (cache : CachePtr) (cache_info : CacheInfo) (s : State) :
    Option Nat :=
  (List.range cache_info.associativity).find? (fun i =>
    decide ((s.line cache rowIndex i).valid = 1 ∧ (s.line cache rowIndex i).tag = tag)
      || decide ((s.line cache rowIndex i).valid ≠ 1 ∧ (s.line cache rowIndex i).valid = 0))

/-- Source function `cacheAccess(address, cache, cache_info, whichCounts)`, with `rand` the
value `rand()` returns if it is called. -/
def cacheAccess (address : Nat) (cache : CachePtr) (cache_info : CacheInfo)
    (whichCounts : Nat) (rand : Nat) (s : State) : State :=
  let rowIndex := rowIndexOf cache_info address
  let assoIndex := 0
  let tag := tagOf cache_info address
  let s := countRead whichCounts s
  if (s.line cache rowIndex assoIndex).valid = 0 then
    let s := countCompul whichCounts s
    let s := s.setLine cache rowIndex assoIndex
      { s.line cache rowIndex assoIndex with tag := tag, valid := 1 }
    fixLRU rowIndex assoIndex cache cache_info s
  else if (s.line cache rowIndex assoIndex).tag = tag then
    let s := countHit whichCounts s
    fixLRU rowIndex assoIndex cache cache_info s
  else if cache_info.associativity = 1 then
    let s := countConflict whichCounts s
    s.setLine cache rowIndex 0 { s.line cache rowIndex 0 with tag := tag, valid := 1 }
  else
    match scanRead rowIndex tag cache cache_info s with
    | some i =>
      if (s.line cache rowIndex i).valid = 1 then
        let s := fixLRU rowIndex i cache cache_info s
        countHit whichCounts s
      else
        let s := countCompul whichCounts s
        let s := s.setLine cache rowIndex i
          { s.line cache rowIndex i with tag := tag, valid := 1 }
        fixLRU rowIndex i cache cache_info s
    | none =>
      let s := countCapacity whichCounts s
      match cache_info.replacement with
      | .RANDOM => (ranReplace rowIndex cache cache_info tag rand s).2
      | .LRU => (lruReplace rowIndex cache cache_info tag s).2

/-- The statement `numWrites++`. -/
def countWrite (s : State) : State := { s with g.numWrites := s.g.numWrites + 1 }

/-- The statement `wHits++`. -/
def countWHit (s : State) : State := { s with g.wHits := s.g.wHits + 1 }

/-- The way at which the scan `for (i = 1; i < associativity; i++)` of
`dWrite` finds a valid line with the wanted tag. -/
def scanWrite (cfg : Config) (rowIndex tag : Nat) (s : State) : Option Nat :=
  (List.range' 1 (cfg.dcache_info0.associativity - 1)).find? (fun i =>
    decide ((s.line .D rowIndex i).valid = 1 ∧ (s.line .D rowIndex i).tag = tag))

/-- Source function `dWrite(address)`, with `rand` the value `rand()` returns if it is called. -/
def dWrite (cfg : Config) (address : Nat) (rand : Nat) (s : State) : State :=
  let numWordBlock := cfg.dcache_info0.words_per_block
  let rowIndex := rowIndexOf cfg.dcache_info0 address
  let assoIndex := 0
  let tag := tagOf cfg.dcache_info0 address
  let s := countWrite s
  if (s.line .D rowIndex assoIndex).valid = 1 then
    if (s.line .D rowIndex assoIndex).tag = tag then
      let s := countWHit s
      let s := performWrite cfg rowIndex assoIndex s
      fixLRU rowIndex assoIndex .D cfg.dcache_info0 s
    else if cfg.dcache_info0.associativity = 1 then
      writeMem cfg rowIndex assoIndex .D cfg.dcache_info0 tag s
    else
      match scanWrite cfg rowIndex tag s with
      | some i =>
        let s := countWHit s
        let s := performWrite cfg rowIndex i s
        fixLRU rowIndex i .D cfg.dcache_info0 s
      | none =>
        match isOpen cfg rowIndex s with
        | some index => fillOpenSpace cfg rowIndex index numWordBlock tag s
        | none =>
          match cfg.dcache_info0.replacement with
          | .RANDOM => (ranReplaceD cfg rowIndex .D cfg.dcache_info0 tag rand s).2
          | .LRU => (lruReplaceD cfg rowIndex .D cfg.dcache_info0 tag s).2
  else
    fillOpenSpace cfg rowIndex assoIndex numWordBlock tag s

/-- Source function `handle_access(type, address)`. -/
def handle_access (cfg : Config) (type : AccessType) (address : Nat) (rand : Nat)
    (s : State) : State :=
  match type with
  | .I_FETCH => cacheAccess address .I cfg.icache_info 1 rand s
  | .D_READ =>
    if s.g.dallocate ≠ 0 then cacheAccess address .D cfg.dcache_info0 0 rand s else s
  | .D_WRITE =>
    if s.g.dallocate ≠ 0 then dWrite cfg address rand s else s

/-! ## Runs -/

/-- One trace record together with the value of the random generator
available to it. -/
structure Access where
  type : AccessType
  address : Nat
  rand : Nat
deriving DecidableEq, Repr

/-- Replay of a list of accesses from state `s`. -/
def run (cfg : Config) (s : State) (trace : List Access) : State :=
  trace.foldl (fun s a => handle_access cfg a.type a.address a.rand s) s

/-- The state after `setup_caches` followed by the accesses of `trace`. -/
def simulate (cfg : Config) (trace : List Access) : State :=
  run cfg (setup_caches cfg) trace

/-! ## Predicates used in the statements -/

/-- In-bounds predicate for `cache[row][i]`. -/
def State.inb (s : State) (p : CachePtr) (row i : Nat) : Prop :=
  row < (s.cache p).length ∧ i < ((s.cache p).getD row []).length

instance (s : State) (p : CachePtr) (row i : Nat) : Decidable (s.inb p row i) := by
  unfold State.inb; infer_instance

/-- The three counter balances. -/
def Balanced (g : Globals) : Prop :=
  g.numReads = g.readHits + g.compul + g.conflict + g.capacity ∧
  g.numReadsD = g.readHitsD + g.compulD + g.conflictD + g.capacityD ∧
  g.numWrites = g.wHits + g.compulW + g.conflictW + g.capacityW

/-- The effect of one read on the counters: the access counter and exactly one
of the four class counters of the selected family (`whichCounts`) grow by one;
a capacity miss needs associativity other than 1, a conflict miss
associativity 1; only a capacity miss (a replacement) can add write traffic. -/
def ReadEffect (ci : CacheInfo) (w : Nat) (g g' : Globals) : Prop :=
  ∃ hit compul conflict capacity ww : Nat,
    hit + compul + conflict + capacity = 1 ∧
    (ci.associativity = 1 → capacity = 0) ∧
    (ci.associativity ≠ 1 → conflict = 0) ∧
    (capacity = 0 → ww = 0) ∧
    g' =
      if w ≠ 0 then
        { g with
          numReads := g.numReads + 1, readHits := g.readHits + hit,
          compul := g.compul + compul, conflict := g.conflict + conflict,
          capacity := g.capacity + capacity,
          numWordsWritten := g.numWordsWritten + ww }
      else
        { g with
          numReadsD := g.numReadsD + 1, readHitsD := g.readHitsD + hit,
          compulD := g.compulD + compul, conflictD := g.conflictD + conflict,
          capacityD := g.capacityD + capacity,
          numWordsWritten := g.numWordsWritten + ww }

/-- The effect of one data write on the counters: `numWrites` and exactly one
of `wHits`, `compulW`, `conflictW`, `capacityW` grow by one; word traffic may
grow. -/
def WriteEffect (ci : CacheInfo) (g g' : Globals) : Prop :=
  ∃ hit compul conflict capacity ww wr : Nat,
    hit + compul + conflict + capacity = 1 ∧
    (ci.associativity = 1 → capacity = 0) ∧
    (ci.associativity ≠ 1 → conflict = 0) ∧
    g' =
      { g with
        numWrites := g.numWrites + 1, wHits := g.wHits + hit,
        compulW := g.compulW + compul, conflictW := g.conflictW + conflict,
        capacityW := g.capacityW + capacity,
        numWordsWritten := g.numWordsWritten + ww,
        numWordsRead := g.numWordsRead + wr }

/-- The configuration record that belongs to a cache array. -/
def Config.info (cfg : Config) : CachePtr → CacheInfo
  | .I => cfg.icache_info
  | .D => cfg.dcache_info0

/-- What the class counters satisfy in every state of a run: the balances, no
capacity miss for associativity 1, no conflict miss for any other
associativity. -/
def CounterInv (cfg : Config) (g : Globals) : Prop :=
  Balanced g ∧
  (cfg.icache_info.associativity = 1 → g.capacity = 0) ∧
  (cfg.dcache_info0.associativity = 1 → g.capacityD = 0 ∧ g.capacityW = 0) ∧
  (cfg.icache_info.associativity ≠ 1 → g.conflict = 0) ∧
  (cfg.dcache_info0.associativity ≠ 1 → g.conflictD = 0 ∧ g.conflictW = 0)

/-- Both caches with 2 blocks of 1 word, 2-way associative, LRU. -/
def cfgLRU2 : Config :=
  { icache_info := ⟨2, 1, 2, .LRU, .WRITE_BACK, .ALLOCATE⟩,
    dcache_info0 := ⟨2, 1, 2, .LRU, .WRITE_BACK, .ALLOCATE⟩ }

/-- The reads A, B, A, C at addresses `0x4, 0x8, 0x4, 0xC`. -/
def readsABAC (t : AccessType) (r1 r2 r3 r4 : Nat) : List Access :=
  [⟨t, 0x4, r1⟩, ⟨t, 0x8, r2⟩, ⟨t, 0x4, r3⟩, ⟨t, 0xC, r4⟩]

/-- The five counters of the instruction-read family. -/
def Globals.readsI (g : Globals) : List Nat :=
  [g.numReads, g.readHits, g.compul, g.conflict, g.capacity]

/-- The five counters of the data-read family. -/
def Globals.readsD (g : Globals) : List Nat :=
  [g.numReadsD, g.readHitsD, g.compulD, g.conflictD, g.capacityD]

/-- Tag and valid flag of a line. -/
def MetaData.tv (m : MetaData) : Nat × Nat := (m.tag, m.valid)

/-- The allocated array of cache `p` has `num_blocks / associativity` rows of
`associativity` lines. -/
def Shaped (ci : CacheInfo) (p : CachePtr) (s : State) : Prop :=
  ∀ r i, s.inb p r i ↔ r < ci.num_blocks / ci.associativity ∧ i < ci.associativity

/-- Shape of the array, valid flags are 0 or 1, and the valid ways of every
row come first. -/
def WellFormed (ci : CacheInfo) (p : CachePtr) (s : State) : Prop :=
  Shaped ci p s ∧
  (∀ r i, (s.line p r i).valid ≤ 1) ∧
  (∀ r i j, i ≤ j → (s.line p r j).valid = 1 → (s.line p r i).valid = 1)

/-- Some way of row `r` of cache `p` is valid and holds tag `t`. -/
def Present (ci : CacheInfo) (p : CachePtr) (r t : Nat) (s : State) : Prop :=
  ∃ i, i < ci.associativity ∧ (s.line p r i).valid = 1 ∧ (s.line p r i).tag = t

/-- Nothing outside row `r` of cache `p` differs between `s` and `s'`, and the
arrays keep their shape. -/
def FrameOutside (p : CachePtr) (r : Nat) (s s' : State) : Prop :=
  (∀ q r' i', s'.inb q r' i' ↔ s.inb q r' i') ∧
  (∀ q r' i', (q ≠ p ∨ r' ≠ r) → s'.line q r' i' = s.line q r' i')

/-- Row `r` of cache `p` in `s'` has tag `t` valid in some way `k` whose
predecessors were all valid, and the tags and valid flags of the other ways
are those of `s`. -/
def InstallsAt (ci : CacheInfo) (p : CachePtr) (r t : Nat) (s s' : State) : Prop :=
  ∃ k, k < ci.associativity ∧ (∀ i, i < k → (s.line p r i).valid = 1) ∧
    ∀ i', (s'.line p r i').tv = if i' = k then (t, 1) else (s.line p r i').tv

/-- Row `r` of cache `p` has the same tags and valid flags in `s` and `s'`. -/
def KeepsTV (p : CachePtr) (r : Nat) (s s' : State) : Prop :=
  ∀ i', (s'.line p r i').tv = (s.line p r i').tv

/-- A step that leaves every tag and valid flag as it was. -/
def Keeps (p : CachePtr) (r : Nat) (s s' : State) : Prop :=
  FrameOutside p r s s' ∧ KeepsTV p r s s'

/-- A step after which tag `t` is valid in row `r` of cache `p`, nothing else
having changed its tag or valid flag. -/
def Installs (ci : CacheInfo) (p : CachePtr) (r t : Nat) (s s' : State) : Prop :=
  FrameOutside p r s s' ∧ InstallsAt ci p r t s s'

/-- A usable geometry: at least one way, and a power-of-two word count and
row count. -/
def CacheInfo.Valid (ci : CacheInfo) : Prop :=
  1 ≤ ci.associativity ∧ (∃ k, ci.words_per_block = 2 ^ k) ∧
  (∃ k, ci.num_blocks / ci.associativity = 2 ^ k)

/-- A valid configuration: a valid instruction cache, and a level-1 data
cache that is absent (associativity 0) or valid. -/
def Config.Valid (cfg : Config) : Prop :=
  cfg.icache_info.Valid ∧ (cfg.dcache_info0.associativity = 0 ∨ cfg.dcache_info0.Valid)

/-- What holds of the arrays in every state of a run. -/
def StateInv (cfg : Config) (s : State) : Prop :=
  WellFormed cfg.icache_info .I s ∧ WellFormed cfg.dcache_info0 .D s ∧
  s.g.dallocate = (if cfg.dcache_info0.associativity > 0 then 1 else 0)

/-- The cache array an access kind works on. -/
def AccessType.ptr : AccessType → CachePtr
  | .I_FETCH => .I
  | .D_READ => .D
  | .D_WRITE => .D

/-- The access kind that reads cache `p` through `cacheAccess`. -/
def readType : CachePtr → AccessType
  | .I => .I_FETCH
  | .D => .D_READ

/-- The read-hit counter of cache `p`. -/
def Globals.readHitsOf (g : Globals) : CachePtr → Nat
  | .I => g.readHits
  | .D => g.readHitsD

/-- The nine miss counters. -/
def Globals.missCounters (g : Globals) : List Nat :=
  [g.compul, g.conflict, g.capacity, g.compulD, g.conflictD, g.capacityD,
   g.compulW, g.conflictW, g.capacityW]

/-! ## Concrete configurations and traces used in examples -/

/-- Both caches with 8 blocks of 2 words, 2-way associative (4 rows), random
replacement; the data cache is write-back, write-allocate. -/
def cfgFourRows : Config :=
  { icache_info := ⟨8, 2, 2, .RANDOM, .WRITE_BACK, .ALLOCATE⟩,
    dcache_info0 := ⟨8, 2, 2, .RANDOM, .WRITE_BACK, .ALLOCATE⟩ }

/-- Both caches with a single block of one word: associativity 1 equals the
block count. The data cache is write-back, write-allocate. -/
def cfgOneBlock : Config :=
  { icache_info := ⟨1, 1, 1, .LRU, .WRITE_BACK, .ALLOCATE⟩,
    dcache_info0 := ⟨1, 1, 1, .LRU, .WRITE_BACK, .ALLOCATE⟩ }

/-- Two reads of different blocks on each cache, then a write of the first
block. -/
def traceTwoBlocks : List Access :=
  [⟨.I_FETCH, 0x0, 0⟩, ⟨.I_FETCH, 0x4, 0⟩, ⟨.D_READ, 0x0, 0⟩, ⟨.D_READ, 0x4, 0⟩,
   ⟨.D_WRITE, 0x0, 0⟩]

/-- A data read of `0x20` is followed by accesses to other rows, to the other
cache, and to the same block. -/
def traceMid : List Access :=
  [⟨.D_READ, 0x08, 3⟩, ⟨.D_WRITE, 0x20, 5⟩, ⟨.I_FETCH, 0x40, 1⟩, ⟨.D_WRITE, 0x10, 2⟩,
   ⟨.D_READ, 0x24, 9⟩]

/-- A direct-mapped write-back, write-allocate data cache: one block of four
words. -/
def cfgDirectWB : Config :=
  { icache_info := ⟨1, 4, 1, .LRU, .WRITE_BACK, .ALLOCATE⟩,
    dcache_info0 := ⟨1, 4, 1, .LRU, .WRITE_BACK, .ALLOCATE⟩ }

/-- A 2-way write-back, write-allocate data cache with one set of two blocks
of four words, LRU. -/
def cfgTwoWayWB : Config :=
  { icache_info := ⟨2, 4, 2, .LRU, .WRITE_BACK, .ALLOCATE⟩,
    dcache_info0 := ⟨2, 4, 2, .LRU, .WRITE_BACK, .ALLOCATE⟩ }

/-- A direct-mapped write-back, no-allocate data cache: one block of four
words. -/
def cfgDirectWBNA : Config :=
  { icache_info := ⟨1, 4, 1, .LRU, .WRITE_BACK, .ALLOCATE⟩,
    dcache_info0 := ⟨1, 4, 1, .LRU, .WRITE_BACK, .NO_ALLOCATE⟩ }

/-- A 2-way write-through, no-allocate data cache with one set of two blocks
of one word, LRU. -/
def cfgWTNA : Config :=
  { icache_info := ⟨2, 1, 2, .LRU, .WRITE_BACK, .ALLOCATE⟩,
    dcache_info0 := ⟨2, 1, 2, .LRU, .WRITE_THROUGH, .NO_ALLOCATE⟩ }

/-- The reads A, B, A, C of the data cache followed by a write of B. -/
def traceFullyAssoc : List Access :=
  [⟨.D_READ, 0x4, 0⟩, ⟨.D_READ, 0x8, 0⟩, ⟨.D_READ, 0x4, 0⟩, ⟨.D_READ, 0xC, 0⟩,
   ⟨.D_WRITE, 0x8, 0⟩]

/-! ## Reporting and argument parsing -/

/-- Source function `print_statistics()`. The text it prints is not modelled;
the result is the final state together with the six divisions
`(double)x / (double)y` it performs, in program order, each as the pair
`(x, y)` of the integer values that are converted and divided. -/
def print_statistics (s : State) : State × List (Nat × Nat) :=
  let s := { s with g.readMisses := s.g.compul + s.g.conflict + s.g.capacity }
  let s := { s with g.wMisses := s.g.compulW + s.g.conflictW + s.g.capacityW }
  let readDataMisses := s.g.compulD + s.g.conflictD + s.g.capacityD
  let d1 := (s.g.readMisses, s.g.numReads)
  let s := { s with g.readMisses := s.g.readMisses - s.g.compul }
  let d2 := (s.g.readMisses, s.g.numReads)
  let s := if s.g.numReadsD = 0 then { s with g.numReadsD := 1 } else s
  let d3 := (readDataMisses, s.g.numReadsD)
  let readDataMisses := readDataMisses - s.g.compulD
  let d4 := (readDataMisses, s.g.numReadsD)
  let s := if s.g.numWrites = 0 then { s with g.numWrites := 1 } else s
  let d5 := (s.g.wMisses, s.g.numWrites)
  let s := { s with g.wMisses := s.g.wMisses - s.g.compulW }
  let d6 := (s.g.wMisses, s.g.numWrites)
  (s, [d1, d2, d3, d4, d5, d6])

/-- The denominators of the six divisions of `print_statistics`. -/
def denominators (s : State) : List Nat := (print_statistics s).2.map Prod.snd

/-- What `sscanf(arg, "%d:%d:%d:%c", ...)` delivers for an `-I` parameter: the
number of converted fields and the values stored (non-negative numbers). -/
structure ScanI where
  converted : Nat
  num_blocks : Nat
  words_per_block : Nat
  associativity : Nat
  replace_scheme : Char
deriving DecidableEq, Repr

/-- What `sscanf(arg, "%d:%d:%d:%d:%c:%c:%c", ...)` delivers for a `-D`
parameter. -/
structure ScanD where
  converted : Nat
  level : Nat
  num_blocks : Nat
  words_per_block : Nat
  associativity : Nat
  replace_scheme : Char
  write_scheme : Char
  alloc_scheme : Char
deriving DecidableEq, Repr

deriving instance DecidableEq for Except

/-- The variables `parse_arguments` fills: `icache_info`, the three entries of
`dcache_info`, `have_inst` and the three entries of `have_data`. -/
structure ParseState where
  icache_info : CacheInfo
  dcache_info : List CacheInfo
  have_inst : Bool
  have_data : List Bool
deriving DecidableEq, Repr

/-- The body of the `-I` branch of `parse_arguments` after the test for a
missing parameter; `Except.error` stands for `bad_params`. -/
def parseI (scan : ScanI) (st : ParseState) : Except String ParseState :=
  if st.have_inst then .error "Duplicate I-cache parameters."
  else
    let st := { st with have_inst := true }
    let st := { st with icache_info := { st.icache_info with
      num_blocks := scan.num_blocks, words_per_block := scan.words_per_block,
      associativity := scan.associativity } }
    if scan.converted < 4 then .error "Invalid I-cache parameters."
    else if st.icache_info.associativity > 1 then
      if scan.replace_scheme = 'R' then
        .ok { st with icache_info := { st.icache_info with replacement := .RANDOM } }
      else if scan.replace_scheme = 'L' then
        .ok { st with icache_info := { st.icache_info with replacement := .LRU } }
      else .error "Invalid I-cache replacement scheme."
    else .ok st

/-- The body of the `-D` branch of `parse_arguments` after the test for a
missing parameter. -/
def parseD (zero : CacheInfo) (scan : ScanD) (st : ParseState) : Except String ParseState :=
  if scan.converted < 7 then .error "Invalid D-cache parameters."
  else if scan.level < 1 ∨ scan.level > 3 then .error "Inalid D-cache level."
  else
    let level := scan.level - 1
    if st.have_data.getD level false then .error "Duplicate D-cache level parameters."
    else
      let st := { st with have_data := st.have_data.set level true }
      let info : CacheInfo := { st.dcache_info.getD level zero with
        num_blocks := scan.num_blocks, words_per_block := scan.words_per_block,
        associativity := scan.associativity }
      let r : Except String CacheInfo :=
        if scan.associativity > 1 then
          if scan.replace_scheme = 'R' then .ok { info with replacement := .RANDOM }
          else if scan.replace_scheme = 'L' then .ok { info with replacement := .LRU }
          else .error "Invalid D-cache replacement scheme."
        else .ok info
      match r with
      | .error e => .error e
      | .ok info =>
        let w : Except String CacheInfo :=
          if scan.write_scheme = 'B' then .ok { info with write_scheme := .WRITE_BACK }
          else if scan.write_scheme = 'T' then .ok { info with write_scheme := .WRITE_THROUGH }
          else .error "Invalid D-cache write scheme."
        match w with
        | .error e => .error e
        | .ok info =>
          if scan.alloc_scheme = 'A' then
            .ok { st with dcache_info :=
              st.dcache_info.set level { info with allocate_scheme := .ALLOCATE } }
          else if scan.alloc_scheme = 'N' then
            .ok { st with dcache_info :=
              st.dcache_info.set level { info with allocate_scheme := .NO_ALLOCATE } }
          else .error "Invalid D-cache allocation scheme."

/-- The loop `for (i = 1; i < argc; i++)` of `parse_arguments` over the
arguments that remain; `scanI` and `scanD` are the two `sscanf` calls. -/
def parseLoop (scanI : String → ScanI) (scanD : String → ScanD) (zero : CacheInfo) :
    List String → ParseState → Except String ParseState
  | [], st => .ok st
  | [a], st =>
    if a = "-I" then .error "Expected parameters after -I."
    else if a = "-D" then .error "Expected parameters after -D."
    else .ok st
  | a :: b :: rest, st =>
    if a = "-I" then
      match parseI (scanI b) st with
      | .error e => .error e
      | .ok st => parseLoop scanI scanD zero rest st
    else if a = "-D" then
      match parseD zero (scanD b) st with
      | .error e => .error e
      | .ok st => parseLoop scanI scanD zero rest st
    else .error "Trace filename should be last argument."

/-- Source function `parse_arguments(argc, argv)`: `argv` with the program
name first; `fopen` tells whether the trace file can be opened; `zero` is the
zero-initialised `CacheInfo` record of the statics. The result is the filled
configuration, or the message of `bad_params`. -/
def parse_arguments (scanI : String → ScanI) (scanD : String → ScanD)
    (fopen : String → Bool) (zero : CacheInfo) (argv : List String) :
    Except String ParseState :=
  match parseLoop scanI scanD zero argv.tail ⟨zero, [zero, zero, zero], false,
      [false, false, false]⟩ with
  | .error e => .error e
  | .ok st =>
    if ¬ st.have_inst then .error "No I-cache parameters specified."
    else if st.have_data.getD 1 false ∧ ¬ st.have_data.getD 0 false then
      .error "L2 D-cache specified, but not L1."
    else if st.have_data.getD 2 false ∧ ¬ st.have_data.getD 1 false then
      .error "L3 D-cache specified, but not L2."
    else if ¬ fopen (argv.getLastD "") then .error "Could not open trace file."
    else .ok st

/-- The configuration the simulation reads after a successful parse. -/
def ParseState.config (zero : CacheInfo) (st : ParseState) : Config :=
  ⟨st.icache_info, st.dcache_info.getD 0 zero⟩

/-- The scanner result for a well-formed `-I` parameter `b:w:a:c`. -/
def scanIOf (b w a : Nat) (c : Char) : String → ScanI := fun _ => ⟨4, b, w, a, c⟩

/-- The scanner result for a well-formed `-D` parameter `1:b:w:a:c:B:A`. -/
def scanDOf (b w a : Nat) (c : Char) : String → ScanD := fun _ => ⟨7, 1, b, w, a, c, 'B', 'A'⟩

/-- No data cache is configured. -/
def cfgNoData : Config :=
  { icache_info := ⟨2, 1, 2, .LRU, .WRITE_BACK, .ALLOCATE⟩,
    dcache_info0 := ⟨0, 0, 0, .LRU, .WRITE_BACK, .ALLOCATE⟩ }

/-- The replacement policy `parse_arguments` leaves in a record: set from the
letter when the associativity is above 1, otherwise left as it was. -/
def storedReplacement (a : Nat) (c : Char) (old : Replacement) : Replacement :=
  if a > 1 then (if c = 'R' then .RANDOM else .LRU) else old

/-- No line has its dirty flag raised between `s` and `s'`: every flag is the
one of `s`, or 0. -/
def DirtyKept (s s' : State) : Prop :=
  ∀ q r i, (s'.line q r i).dirty = (s.line q r i).dirty ∨ (s'.line q r i).dirty = 0

/-- No line of cache `p` is dirty. -/
def Clean (p : CachePtr) (s : State) : Prop := ∀ r i, (s.line p r i).dirty = 0

/-- The five counters of the read family that `whichCounts` selects. -/
def Globals.readsBy (g : Globals) (whichCounts : Nat) : List Nat :=
  if whichCounts ≠ 0 then g.readsI else g.readsD

instance (ci : CacheInfo) (p : CachePtr) (r t : Nat) (s : State) :
    Decidable (Present ci p r t s) := by
  unfold Present; infer_instance

/-- Classification of a read in the words of the specification, as the
increments of access counter, hits, compulsory, conflict and capacity misses:
a hit if a valid line of the set holds the tag; otherwise compulsory if the
set has an invalid way; otherwise conflict if the associativity is 1;
otherwise capacity. -/
def specReadClass (ci : CacheInfo) (p : CachePtr) (r t : Nat) (s : State) : List Nat :=
  if Present ci p r t s then [1, 1, 0, 0, 0]
  else if ∃ i, i < ci.associativity ∧ (s.line p r i).valid = 0 then [1, 0, 1, 0, 0]
  else if ci.associativity = 1 then [1, 0, 0, 1, 0]
  else [1, 0, 0, 0, 1]

/-- The four class counters of the write family. -/
def Globals.writeCounters (g : Globals) : List Nat :=
  [g.wHits, g.compulW, g.conflictW, g.capacityW]

/-- The increments of `wHits`, `compulW`, `conflictW` and `capacityW` by a
data write of tag `t` to row `r`, read off the state of the row: a hit if a
valid line holds the tag; otherwise compulsory if the row has an invalid way
and the cache is not write-through with no-allocate; otherwise conflict for
associativity 1 and capacity for any other. -/
def writeClass (cfg : Config) (r t : Nat) (s : State) : List Nat :=
  if Present cfg.dcache_info0 .D r t s then [1, 0, 0, 0]
  else if (∃ i, i < cfg.dcache_info0.associativity ∧ (s.line .D r i).valid = 0) ∧
      ¬ (cfg.dcache_info0.write_scheme = .WRITE_THROUGH ∧
        cfg.dcache_info0.allocate_scheme = .NO_ALLOCATE) then [0, 1, 0, 0]
  else if cfg.dcache_info0.associativity = 1 then [0, 0, 1, 0]
  else [0, 0, 0, 1]

/-- A direct-mapped write-through, no-allocate data cache: one block of one
word. -/
def cfgDirectWTNA : Config :=
  { icache_info := ⟨1, 1, 1, .LRU, .WRITE_BACK, .ALLOCATE⟩,
    dcache_info0 := ⟨1, 1, 1, .LRU, .WRITE_THROUGH, .NO_ALLOCATE⟩ }

/-- A 2-way write-through, write-allocate data cache with one set of two
blocks of one word, LRU: `cfgWTNA` with the allocation scheme changed. -/
def cfgWTA : Config :=
  { icache_info := ⟨2, 1, 2, .LRU, .WRITE_BACK, .ALLOCATE⟩,
    dcache_info0 := ⟨2, 1, 2, .LRU, .WRITE_THROUGH, .ALLOCATE⟩ }

/-- No two valid ways of a row of cache `p` hold the same tag. -/
def UniqueTags (ci : CacheInfo) (p : CachePtr) (s : State) : Prop :=
  ∀ r i j, i < ci.associativity → j < ci.associativity →
    (s.line p r i).valid = 1 → (s.line p r j).valid = 1 →
    (s.line p r i).tag = (s.line p r j).tag → i = j

/-- The valid ways of every row of cache `p` have pairwise different recency
counters. -/
def DistinctLRU (ci : CacheInfo) (p : CachePtr) (s : State) : Prop :=
  ∀ r i j, i < ci.associativity → j < ci.associativity →
    (s.line p r i).valid = 1 → (s.line p r j).valid = 1 →
    (s.line p r i).LRU = (s.line p r j).LRU → i = j

/-- Row `r` of cache `p` went through `fixLRU` at some way `k`: in `s'` way
`k` has recency 0, and every other way of the row is one older than in `s`
with the valid flag it had. -/
def Ages (ci : CacheInfo) (p : CachePtr) (r : Nat) (s s' : State) : Prop :=
  ∃ k, k < ci.associativity ∧ (s'.line p r k).LRU = 0 ∧
    ∀ i, i < ci.associativity → i ≠ k →
      (s'.line p r i).LRU = (s.line p r i).LRU + 1 ∧
      (s'.line p r i).valid = (s.line p r i).valid

/-- Row `r` of cache `p` has the same recency counters and valid flags in `s`
and `s'`. -/
def SameAge (p : CachePtr) (r : Nat) (s s' : State) : Prop :=
  ∀ i, (s'.line p r i).LRU = (s.line p r i).LRU ∧
    (s'.line p r i).valid = (s.line p r i).valid

/-! ## Basic facts about reads and writes of lines -/

@[simp] theorem cache_setCache (s : State) (p q : CachePtr) (c : Cache) :
    (s.setCache p c).cache q = if q = p then c else s.cache q := by
  cases p <;> cases q <;> simp [State.setCache, State.cache]

@[simp] theorem g_setCache (s : State) (p : CachePtr) (c : Cache) :
    (s.setCache p c).g = s.g := by
  cases p <;> rfl

@[simp] theorem g_setLine (s : State) (p : CachePtr) (row i : Nat) (m : MetaData) :
    (s.setLine p row i m).g = s.g := by
  simp [State.setLine]

theorem getD_set_rows (c : Cache) (r r' : Nat) (x : List MetaData) :
    (c.set r x).getD r' [] = if r' = r ∧ r < c.length then x else c.getD r' [] := by
  simp only [List.getD_eq_getElem?_getD, List.getElem?_set]
  by_cases h : r = r'
  · subst h
    by_cases hl : r < c.length
    · simp [hl]
    · simp [hl, List.getElem?_eq_none (Nat.le_of_not_lt hl)]
  · have h' : ¬ r' = r := fun e => h e.symm
    simp [h, h']

theorem getD_set_line (l : List MetaData) (i i' : Nat) (m : MetaData) :
    (l.set i m).getD i' default = if i' = i ∧ i < l.length then m else l.getD i' default := by
  simp only [List.getD_eq_getElem?_getD, List.getElem?_set]
  by_cases h : i = i'
  · subst h
    by_cases hl : i < l.length
    · simp [hl]
    · simp [hl, List.getElem?_eq_none (Nat.le_of_not_lt hl)]
  · have h' : ¬ i' = i := fun e => h e.symm
    simp [h, h']

theorem line_setLine (s : State) (p p' : CachePtr) (row i row' i' : Nat) (m : MetaData) :
    (s.setLine p row i m).line p' row' i' =
      if p' = p ∧ row' = row ∧ i' = i ∧ s.inb p row i then m else s.line p' row' i' := by
  unfold State.setLine State.line State.inb
  by_cases hp : p' = p
  · subst hp
    simp only [cache_setCache, if_true, true_and, getD_set_rows]
    by_cases hr : row' = row
    · subst hr
      by_cases hl : row' < (s.cache p').length
      · simp only [hl, and_self, if_true, true_and, getD_set_line]
      · have : (s.cache p').getD row' [] = [] := by
          simp [List.getD_eq_getElem?_getD, List.getElem?_eq_none (Nat.le_of_not_lt hl)]
        simp [hl, this]
    · simp [hr]
  · simp [hp]

theorem inb_setLine (s : State) (p p' : CachePtr) (row i row' i' : Nat) (m : MetaData) :
    (s.setLine p row i m).inb p' row' i' ↔ s.inb p' row' i' := by
  unfold State.setLine State.inb
  by_cases hp : p' = p
  · subst hp
    simp only [cache_setCache, if_true, List.length_set, getD_set_rows]
    by_cases hr : row' = row ∧ row < (s.cache p').length
    · obtain ⟨h1, h2⟩ := hr
      subst h1
      simp [h2]
    · simp [hr]
  · simp [hp]

/-- A write that keeps `tag`, `valid` and `dirty` of the line it overwrites. -/
theorem setLine_fields (s : State) (p p' : CachePtr) (row i row' i' : Nat) (m : MetaData)
    (ht : m.tag = (s.line p row i).tag) (hv : m.valid = (s.line p row i).valid)
    (hd : m.dirty = (s.line p row i).dirty) :
    ((s.setLine p row i m).line p' row' i').tag = (s.line p' row' i').tag ∧
    ((s.setLine p row i m).line p' row' i').valid = (s.line p' row' i').valid ∧
    ((s.setLine p row i m).line p' row' i').dirty = (s.line p' row' i').dirty := by
  rw [line_setLine]
  split
  · rename_i h
    obtain ⟨h1, h2, h3, -⟩ := h
    subst h1; subst h2; subst h3
    exact ⟨ht, hv, hd⟩
  · exact ⟨rfl, rfl, rfl⟩

theorem foldl_age (p : CachePtr) (row : Nat) (f : State → Nat → Nat) (l : List Nat) :
    ∀ s : State,
      (l.foldl (fun s i => s.setLine p row i { s.line p row i with LRU := f s i }) s).g = s.g ∧
      ∀ p' row' i',
        ((l.foldl (fun s i => s.setLine p row i { s.line p row i with LRU := f s i }) s).inb
            p' row' i' ↔ s.inb p' row' i') ∧
        ((l.foldl (fun s i => s.setLine p row i { s.line p row i with LRU := f s i }) s).line
            p' row' i').tag = (s.line p' row' i').tag ∧
        ((l.foldl (fun s i => s.setLine p row i { s.line p row i with LRU := f s i }) s).line
            p' row' i').valid = (s.line p' row' i').valid ∧
        ((l.foldl (fun s i => s.setLine p row i { s.line p row i with LRU := f s i }) s).line
            p' row' i').dirty = (s.line p' row' i').dirty := by
  induction l with
  | nil => intro s; simp
  | cons a l ih =>
    intro s
    simp only [List.foldl_cons]
    obtain ⟨hg, hl⟩ := ih (s.setLine p row a { s.line p row a with LRU := f s a })
    refine ⟨by rw [hg, g_setLine], fun p' row' i' => ?_⟩
    obtain ⟨h1, h2, h3, h4⟩ := hl p' row' i'
    obtain ⟨k2, k3, k4⟩ := setLine_fields s p p' row a row' i'
      { s.line p row a with LRU := f s a } rfl rfl rfl
    exact ⟨h1.trans (inb_setLine _ _ _ _ _ _ _ _), h2.trans k2, h3.trans k3, h4.trans k4⟩

theorem fixLRU_frame (rowIndex indexToKeep : Nat) (cache : CachePtr) (ci : CacheInfo)
    (s : State) :
    (fixLRU rowIndex indexToKeep cache ci s).g = s.g ∧
    ∀ p' row' i',
      ((fixLRU rowIndex indexToKeep cache ci s).inb p' row' i' ↔ s.inb p' row' i') ∧
      ((fixLRU rowIndex indexToKeep cache ci s).line p' row' i').tag
        = (s.line p' row' i').tag ∧
      ((fixLRU rowIndex indexToKeep cache ci s).line p' row' i').valid
        = (s.line p' row' i').valid ∧
      ((fixLRU rowIndex indexToKeep cache ci s).line p' row' i').dirty
        = (s.line p' row' i').dirty := by
  unfold fixLRU
  obtain ⟨hg, hl⟩ := foldl_age cache rowIndex
    (fun s i => (s.line cache rowIndex i).LRU + 1) (List.range ci.associativity) s
  refine ⟨by simp only [g_setLine]; exact hg, fun p' row' i' => ?_⟩
  obtain ⟨h1, h2, h3, h4⟩ := hl p' row' i'
  obtain ⟨k2, k3, k4⟩ := setLine_fields _ cache p' rowIndex indexToKeep row' i'
    { State.line _ cache rowIndex indexToKeep with LRU := 0 } rfl rfl rfl
  exact ⟨(inb_setLine _ _ _ _ _ _ _ _).trans h1, k2.trans h2, k3.trans h3, k4.trans h4⟩

@[simp] theorem fixLRU_g (rowIndex indexToKeep : Nat) (cache : CachePtr) (ci : CacheInfo)
    (s : State) : (fixLRU rowIndex indexToKeep cache ci s).g = s.g :=
  (fixLRU_frame rowIndex indexToKeep cache ci s).1


theorem foldl_g {ι : Type} (f : State → ι → State) (h : ∀ s i, (f s i).g = s.g)
    (l : List ι) : ∀ s, (l.foldl f s).g = s.g := by
  induction l with
  | nil => intro s; rfl
  | cons a l ih => intro s; simp only [List.foldl_cons]; rw [ih, h]

theorem setUpVariables_g (a : CachePtr) (ci : CacheInfo) (s : State) :
    (setUpVariables a ci s).g = { s.g with
      readMisses := 0, readHits := 0, numReads := 0, compul := 0,
      conflict := 0, capacity := 0, compulW := 0, conflictW := 0,
      capacityW := 0, numWrites := 0, numWordsWritten := 0, wHits := 0,
      wMisses := 0, numWordsRead := 0 } := by
  unfold setUpVariables
  simp only []
  rw [foldl_g]
  intro s j
  rw [foldl_g]
  intro s i
  simp

theorem setup_caches_g (cfg : Config) :
    (setup_caches cfg).g =
      { Globals.zero with dallocate := if cfg.dcache_info0.associativity > 0 then 1 else 0 } := by
  unfold setup_caches
  simp only []
  split <;> simp [setUpVariables_g, Globals.zero]

@[simp] theorem ranReplace_g (rowIndex : Nat) (cache : CachePtr) (ci : CacheInfo)
    (tag rand : Nat) (s : State) :
    (ranReplace rowIndex cache ci tag rand s).2.g =
      if (s.line cache rowIndex (rand % (ci.associativity - 1))).dirty = 1 then
        { s.g with numWordsWritten := s.g.numWordsWritten + ci.words_per_block }
      else s.g := by
  unfold ranReplace
  simp only [fixLRU_g, g_setLine]
  split <;> rfl

@[simp] theorem lruReplace_g (rowIndex : Nat) (cache : CachePtr) (ci : CacheInfo)
    (tag : Nat) (s : State) :
    (lruReplace rowIndex cache ci tag s).2.g =
      if (s.line cache rowIndex (lruScan rowIndex cache ci s).2).dirty = 1 then
        { s.g with numWordsWritten := s.g.numWordsWritten + ci.words_per_block }
      else s.g := by
  unfold lruReplace
  simp only [fixLRU_g, g_setLine]
  split <;> rfl

@[simp] theorem line_mk_g (s : State) (g' : Globals) (p : CachePtr) (r i : Nat) :
    State.line ⟨s.iCache, s.dCache, g'⟩ p r i = s.line p r i := by
  cases p <;> rfl

@[simp] theorem scanWrite_mk_g (cfg : Config) (s : State) (g' : Globals) (r t : Nat) :
    scanWrite cfg r t ⟨s.iCache, s.dCache, g'⟩ = scanWrite cfg r t s := by
  simp [scanWrite]

@[simp] theorem scanRead_mk_g (ci : CacheInfo) (p : CachePtr) (s : State) (g' : Globals)
    (r t : Nat) :
    scanRead r t p ci ⟨s.iCache, s.dCache, g'⟩ = scanRead r t p ci s := by
  simp [scanRead]

@[simp] theorem isOpen_mk_g (cfg : Config) (s : State) (g' : Globals) (r : Nat) :
    isOpen cfg r ⟨s.iCache, s.dCache, g'⟩ = isOpen cfg r s := by
  simp [isOpen]

@[simp] theorem lruScan_mk_g (ci : CacheInfo) (p : CachePtr) (s : State) (g' : Globals)
    (r : Nat) :
    lruScan r p ci ⟨s.iCache, s.dCache, g'⟩ = lruScan r p ci s := by
  simp [lruScan]

theorem performWrite_g (cfg : Config) (r i : Nat) (s : State) :
    (performWrite cfg r i s).g = { s.g with
      numWordsWritten := s.g.numWordsWritten +
        (match cfg.dcache_info0.write_scheme with
          | .WRITE_THROUGH => 1
          | .WRITE_BACK => 0) } := by
  unfold performWrite
  cases cfg.dcache_info0.write_scheme <;> simp

theorem writeMem_g (cfg : Config) (r k : Nat) (p : CachePtr) (ci : CacheInfo) (t : Nat)
    (s : State) :
    (writeMem cfg r k p ci t s).g = { s.g with
      numWordsWritten := s.g.numWordsWritten +
        (match ci.write_scheme with
          | .WRITE_BACK => if (s.line p r k).dirty = 1 then ci.words_per_block else 0
          | .WRITE_THROUGH => 1),
      numWordsRead := s.g.numWordsRead +
        (match ci.write_scheme, ci.allocate_scheme with
          | .WRITE_BACK, _ => ci.words_per_block
          | .WRITE_THROUGH, .NO_ALLOCATE => 0
          | .WRITE_THROUGH, .ALLOCATE =>
            if ci.words_per_block > 1 then ci.words_per_block else 0),
      conflictW := s.g.conflictW + (if cfg.dcache_info0.associativity = 1 then 1 else 0),
      capacityW := s.g.capacityW + (if cfg.dcache_info0.associativity = 1 then 0 else 1) } := by
  unfold writeMem countWriteMiss
  cases ci.write_scheme <;> cases ci.allocate_scheme <;> simp only [] <;>
    split_ifs <;> simp

theorem fillOpenSpace_g (cfg : Config) (r k n t : Nat) (s : State) :
    (fillOpenSpace cfg r k n t s).g = { s.g with
      numWordsWritten := s.g.numWordsWritten +
        (match cfg.dcache_info0.write_scheme with
          | .WRITE_BACK => 0
          | .WRITE_THROUGH => 1),
      numWordsRead := s.g.numWordsRead +
        (match cfg.dcache_info0.write_scheme, cfg.dcache_info0.allocate_scheme with
          | .WRITE_BACK, _ => n
          | .WRITE_THROUGH, .NO_ALLOCATE => 0
          | .WRITE_THROUGH, .ALLOCATE => if n > 1 then n else 0),
      compulW := s.g.compulW +
        (match cfg.dcache_info0.write_scheme, cfg.dcache_info0.allocate_scheme with
          | .WRITE_THROUGH, .NO_ALLOCATE => 0
          | _, _ => 1),
      conflictW := s.g.conflictW +
        (match cfg.dcache_info0.write_scheme, cfg.dcache_info0.allocate_scheme with
          | .WRITE_THROUGH, .NO_ALLOCATE => if cfg.dcache_info0.associativity = 1 then 1 else 0
          | _, _ => 0),
      capacityW := s.g.capacityW +
        (match cfg.dcache_info0.write_scheme, cfg.dcache_info0.allocate_scheme with
          | .WRITE_THROUGH, .NO_ALLOCATE => if cfg.dcache_info0.associativity = 1 then 0 else 1
          | _, _ => 0) } := by
  unfold fillOpenSpace countWriteMiss
  cases cfg.dcache_info0.write_scheme <;> cases cfg.dcache_info0.allocate_scheme <;>
    simp only [] <;> (try split_ifs) <;> simp

/-! ## Control-flow case analysis of the two engines -/

theorem countRead_eq (w : Nat) (s : State) :
    countRead w s = ⟨s.iCache, s.dCache, (countRead w s).g⟩ := by
  unfold countRead; split <;> rfl

theorem countHit_eq (w : Nat) (s : State) :
    countHit w s = ⟨s.iCache, s.dCache, (countHit w s).g⟩ := by
  unfold countHit; split <;> rfl

theorem countCompul_eq (w : Nat) (s : State) :
    countCompul w s = ⟨s.iCache, s.dCache, (countCompul w s).g⟩ := by
  unfold countCompul; split <;> rfl

theorem countConflict_eq (w : Nat) (s : State) :
    countConflict w s = ⟨s.iCache, s.dCache, (countConflict w s).g⟩ := by
  unfold countConflict; split <;> rfl

theorem countCapacity_eq (w : Nat) (s : State) :
    countCapacity w s = ⟨s.iCache, s.dCache, (countCapacity w s).g⟩ := by
  unfold countCapacity; split <;> rfl

theorem countWriteMiss_eq (cfg : Config) (s : State) :
    countWriteMiss cfg s = ⟨s.iCache, s.dCache, (countWriteMiss cfg s).g⟩ := by
  unfold countWriteMiss; split <;> rfl

@[simp] theorem line_countRead (w : Nat) (s : State) (p : CachePtr) (r i : Nat) :
    (countRead w s).line p r i = s.line p r i := by
  rw [countRead_eq, line_mk_g]

@[simp] theorem line_countHit (w : Nat) (s : State) (p : CachePtr) (r i : Nat) :
    (countHit w s).line p r i = s.line p r i := by
  rw [countHit_eq, line_mk_g]

@[simp] theorem line_countCompul (w : Nat) (s : State) (p : CachePtr) (r i : Nat) :
    (countCompul w s).line p r i = s.line p r i := by
  rw [countCompul_eq, line_mk_g]

@[simp] theorem line_countConflict (w : Nat) (s : State) (p : CachePtr) (r i : Nat) :
    (countConflict w s).line p r i = s.line p r i := by
  rw [countConflict_eq, line_mk_g]

@[simp] theorem line_countCapacity (w : Nat) (s : State) (p : CachePtr) (r i : Nat) :
    (countCapacity w s).line p r i = s.line p r i := by
  rw [countCapacity_eq, line_mk_g]

@[simp] theorem line_countWriteMiss (cfg : Config) (s : State) (p : CachePtr) (r i : Nat) :
    (countWriteMiss cfg s).line p r i = s.line p r i := by
  rw [countWriteMiss_eq, line_mk_g]

@[simp] theorem scanRead_countRead (w : Nat) (s : State) (p : CachePtr) (ci : CacheInfo)
    (r t : Nat) : scanRead r t p ci (countRead w s) = scanRead r t p ci s := by
  rw [countRead_eq, scanRead_mk_g]

@[simp] theorem lruScan_countRead (w : Nat) (s : State) (p : CachePtr) (ci : CacheInfo)
    (r : Nat) : lruScan r p ci (countRead w s) = lruScan r p ci s := by
  rw [countRead_eq, lruScan_mk_g]

@[simp] theorem lruScan_countCapacity (w : Nat) (s : State) (p : CachePtr) (ci : CacheInfo)
    (r : Nat) : lruScan r p ci (countCapacity w s) = lruScan r p ci s := by
  rw [countCapacity_eq, lruScan_mk_g]

theorem scanRead_some {r t : Nat} {p : CachePtr} {ci : CacheInfo} {s : State} {i : Nat}
    (h : scanRead r t p ci s = some i) :
    i < ci.associativity ∧
    (((s.line p r i).valid = 1 ∧ (s.line p r i).tag = t) ∨ (s.line p r i).valid = 0) ∧
    ∀ j < i, (s.line p r j).valid ≠ 0 ∧
      ¬ ((s.line p r j).valid = 1 ∧ (s.line p r j).tag = t) := by
  unfold scanRead at h
  rw [List.find?_range_eq_some] at h
  obtain ⟨h1, h2, h3⟩ := h
  refine ⟨List.mem_range.mp h2, ?_, ?_⟩
  · simp only [Bool.or_eq_true, decide_eq_true_eq] at h1
    rcases h1 with h1 | h1
    · exact Or.inl h1
    · exact Or.inr h1.2
  · intro j hj
    have := h3 j hj
    simp only [Bool.not_eq_true', Bool.or_eq_false_iff, decide_eq_false_iff_not] at this
    refine ⟨fun h0 => this.2 ⟨by omega, h0⟩, this.1⟩

theorem scanRead_none {r t : Nat} {p : CachePtr} {ci : CacheInfo} {s : State}
    (h : scanRead r t p ci s = none) :
    ∀ j < ci.associativity, (s.line p r j).valid ≠ 0 ∧
      ¬ ((s.line p r j).valid = 1 ∧ (s.line p r j).tag = t) := by
  unfold scanRead at h
  rw [List.find?_eq_none] at h
  intro j hj
  have := h j (List.mem_range.mpr hj)
  simp only [Bool.or_eq_true, decide_eq_true_eq, not_or] at this
  exact ⟨fun h0 => this.2 ⟨by omega, h0⟩, this.1⟩

theorem scanWrite_some {cfg : Config} {r t : Nat} {s : State} {i : Nat}
    (h : scanWrite cfg r t s = some i) :
    1 ≤ i ∧ i < cfg.dcache_info0.associativity ∧
    (s.line .D r i).valid = 1 ∧ (s.line .D r i).tag = t := by
  unfold scanWrite at h
  have h1 := List.find?_some h
  have h2 := List.mem_of_find?_eq_some h
  rw [List.mem_range'_1] at h2
  simp only [decide_eq_true_eq] at h1
  exact ⟨h2.1, by omega, h1⟩

theorem scanWrite_none {cfg : Config} {r t : Nat} {s : State}
    (h : scanWrite cfg r t s = none) :
    ∀ j, 1 ≤ j → j < cfg.dcache_info0.associativity →
      ¬ ((s.line .D r j).valid = 1 ∧ (s.line .D r j).tag = t) := by
  unfold scanWrite at h
  rw [List.find?_eq_none] at h
  intro j h1 h2
  have := h j (List.mem_range'_1.mpr ⟨h1, by omega⟩)
  simpa using this

theorem isOpen_some {cfg : Config} {r : Nat} {s : State} {i : Nat}
    (h : isOpen cfg r s = some i) :
    i < cfg.dcache_info0.associativity ∧ (s.line .D r i).valid = 0 ∧
    ∀ j < i, (s.line .D r j).valid ≠ 0 := by
  unfold isOpen at h
  rw [List.find?_range_eq_some] at h
  obtain ⟨h1, h2, h3⟩ := h
  refine ⟨List.mem_range.mp h2, by simpa using h1, fun j hj => ?_⟩
  simpa using h3 j hj

theorem isOpen_none {cfg : Config} {r : Nat} {s : State}
    (h : isOpen cfg r s = none) :
    ∀ j < cfg.dcache_info0.associativity, (s.line .D r j).valid ≠ 0 := by
  unfold isOpen at h
  rw [List.find?_eq_none] at h
  intro j hj
  simpa using h j (List.mem_range.mpr hj)

/-- Case analysis following the control flow of `cacheAccess`. -/
theorem cacheAccess_cases (address : Nat) (p : CachePtr) (ci : CacheInfo) (w rand : Nat)
    (s : State) (P : State → Prop)
    (hCompul0 : (s.line p (rowIndexOf ci address) 0).valid = 0 →
      P (fixLRU (rowIndexOf ci address) 0 p ci
        ((countCompul w (countRead w s)).setLine p (rowIndexOf ci address) 0
          { s.line p (rowIndexOf ci address) 0 with tag := tagOf ci address, valid := 1 })))
    (hHit0 : (s.line p (rowIndexOf ci address) 0).valid ≠ 0 →
      (s.line p (rowIndexOf ci address) 0).tag = tagOf ci address →
      P (fixLRU (rowIndexOf ci address) 0 p ci (countHit w (countRead w s))))
    (hConflict : (s.line p (rowIndexOf ci address) 0).valid ≠ 0 →
      (s.line p (rowIndexOf ci address) 0).tag ≠ tagOf ci address →
      ci.associativity = 1 →
      P ((countConflict w (countRead w s)).setLine p (rowIndexOf ci address) 0
          { s.line p (rowIndexOf ci address) 0 with tag := tagOf ci address, valid := 1 }))
    (hHit : ∀ i, (s.line p (rowIndexOf ci address) 0).valid ≠ 0 →
      (s.line p (rowIndexOf ci address) 0).tag ≠ tagOf ci address →
      ci.associativity ≠ 1 →
      scanRead (rowIndexOf ci address) (tagOf ci address) p ci s = some i →
      (s.line p (rowIndexOf ci address) i).valid = 1 →
      P (countHit w (fixLRU (rowIndexOf ci address) i p ci (countRead w s))))
    (hCompul : ∀ i, (s.line p (rowIndexOf ci address) 0).valid ≠ 0 →
      (s.line p (rowIndexOf ci address) 0).tag ≠ tagOf ci address →
      ci.associativity ≠ 1 →
      scanRead (rowIndexOf ci address) (tagOf ci address) p ci s = some i →
      (s.line p (rowIndexOf ci address) i).valid ≠ 1 →
      P (fixLRU (rowIndexOf ci address) i p ci
        ((countCompul w (countRead w s)).setLine p (rowIndexOf ci address) i
          { s.line p (rowIndexOf ci address) i with tag := tagOf ci address, valid := 1 })))
    (hRandom : (s.line p (rowIndexOf ci address) 0).valid ≠ 0 →
      (s.line p (rowIndexOf ci address) 0).tag ≠ tagOf ci address →
      ci.associativity ≠ 1 →
      scanRead (rowIndexOf ci address) (tagOf ci address) p ci s = none →
      ci.replacement = .RANDOM →
      P (ranReplace (rowIndexOf ci address) p ci (tagOf ci address) rand
          (countCapacity w (countRead w s))).2)
    (hLRU : (s.line p (rowIndexOf ci address) 0).valid ≠ 0 →
      (s.line p (rowIndexOf ci address) 0).tag ≠ tagOf ci address →
      ci.associativity ≠ 1 →
      scanRead (rowIndexOf ci address) (tagOf ci address) p ci s = none →
      ci.replacement = .LRU →
      P (lruReplace (rowIndexOf ci address) p ci (tagOf ci address)
          (countCapacity w (countRead w s))).2) :
    P (cacheAccess address p ci w rand s) := by
  unfold cacheAccess
  simp only [line_countRead, line_countCompul, line_countConflict, scanRead_countRead]
  by_cases h0 : (s.line p (rowIndexOf ci address) 0).valid = 0
  · simp only [h0, if_true]
    exact hCompul0 h0
  · simp only [h0, if_false]
    by_cases ht : (s.line p (rowIndexOf ci address) 0).tag = tagOf ci address
    · simp only [ht, if_true]
      exact hHit0 h0 ht
    · simp only [ht, if_false]
      by_cases ha : ci.associativity = 1
      · simp only [ha, if_true]
        exact hConflict h0 ht ha
      · simp only [ha, if_false]
        cases hs : scanRead (rowIndexOf ci address) (tagOf ci address) p ci s with
        | some i =>
          simp only []
          by_cases hv : (s.line p (rowIndexOf ci address) i).valid = 1
          · simp only [hv, if_true]
            exact hHit i h0 ht ha hs hv
          · simp only [hv, if_false]
            exact hCompul i h0 ht ha hs hv
        | none =>
          simp only []
          cases hr : ci.replacement with
          | RANDOM => exact hRandom h0 ht ha hs hr
          | LRU => exact hLRU h0 ht ha hs hr


@[simp] theorem line_countWrite (s : State) (p : CachePtr) (r i : Nat) :
    (countWrite s).line p r i = s.line p r i := by
  unfold countWrite; rw [line_mk_g]

@[simp] theorem line_countWHit (s : State) (p : CachePtr) (r i : Nat) :
    (countWHit s).line p r i = s.line p r i := by
  unfold countWHit; rw [line_mk_g]

@[simp] theorem scanWrite_countWrite (cfg : Config) (s : State) (r t : Nat) :
    scanWrite cfg r t (countWrite s) = scanWrite cfg r t s := by
  unfold countWrite; rw [scanWrite_mk_g]

@[simp] theorem isOpen_countWrite (cfg : Config) (s : State) (r : Nat) :
    isOpen cfg r (countWrite s) = isOpen cfg r s := by
  unfold countWrite; rw [isOpen_mk_g]

@[simp] theorem lruScan_countWrite (s : State) (p : CachePtr) (ci : CacheInfo) (r : Nat) :
    lruScan r p ci (countWrite s) = lruScan r p ci s := by
  unfold countWrite; rw [lruScan_mk_g]

/-- Case analysis following the control flow of `dWrite`. -/
theorem dWrite_cases (cfg : Config) (address rand : Nat) (s : State) (P : State → Prop)
    (hHit0 : (s.line .D (rowIndexOf cfg.dcache_info0 address) 0).valid = 1 →
      (s.line .D (rowIndexOf cfg.dcache_info0 address) 0).tag = tagOf cfg.dcache_info0 address →
      P (fixLRU (rowIndexOf cfg.dcache_info0 address) 0 .D cfg.dcache_info0
          (performWrite cfg (rowIndexOf cfg.dcache_info0 address) 0
            (countWHit (countWrite s)))))
    (hDirect : (s.line .D (rowIndexOf cfg.dcache_info0 address) 0).valid = 1 →
      (s.line .D (rowIndexOf cfg.dcache_info0 address) 0).tag ≠ tagOf cfg.dcache_info0 address →
      cfg.dcache_info0.associativity = 1 →
      P (writeMem cfg (rowIndexOf cfg.dcache_info0 address) 0 .D cfg.dcache_info0
          (tagOf cfg.dcache_info0 address) (countWrite s)))
    (hHit : ∀ i, (s.line .D (rowIndexOf cfg.dcache_info0 address) 0).valid = 1 →
      (s.line .D (rowIndexOf cfg.dcache_info0 address) 0).tag ≠ tagOf cfg.dcache_info0 address →
      cfg.dcache_info0.associativity ≠ 1 →
      scanWrite cfg (rowIndexOf cfg.dcache_info0 address) (tagOf cfg.dcache_info0 address) s
        = some i →
      P (fixLRU (rowIndexOf cfg.dcache_info0 address) i .D cfg.dcache_info0
          (performWrite cfg (rowIndexOf cfg.dcache_info0 address) i
            (countWHit (countWrite s)))))
    (hOpen : ∀ k, (s.line .D (rowIndexOf cfg.dcache_info0 address) 0).valid = 1 →
      (s.line .D (rowIndexOf cfg.dcache_info0 address) 0).tag ≠ tagOf cfg.dcache_info0 address →
      cfg.dcache_info0.associativity ≠ 1 →
      scanWrite cfg (rowIndexOf cfg.dcache_info0 address) (tagOf cfg.dcache_info0 address) s
        = none →
      isOpen cfg (rowIndexOf cfg.dcache_info0 address) s = some k →
      P (fillOpenSpace cfg (rowIndexOf cfg.dcache_info0 address) k
          cfg.dcache_info0.words_per_block (tagOf cfg.dcache_info0 address) (countWrite s)))
    (hRandom : (s.line .D (rowIndexOf cfg.dcache_info0 address) 0).valid = 1 →
      (s.line .D (rowIndexOf cfg.dcache_info0 address) 0).tag ≠ tagOf cfg.dcache_info0 address →
      cfg.dcache_info0.associativity ≠ 1 →
      scanWrite cfg (rowIndexOf cfg.dcache_info0 address) (tagOf cfg.dcache_info0 address) s
        = none →
      isOpen cfg (rowIndexOf cfg.dcache_info0 address) s = none →
      cfg.dcache_info0.replacement = .RANDOM →
      P (ranReplaceD cfg (rowIndexOf cfg.dcache_info0 address) .D cfg.dcache_info0
          (tagOf cfg.dcache_info0 address) rand (countWrite s)).2)
    (hLRU : (s.line .D (rowIndexOf cfg.dcache_info0 address) 0).valid = 1 →
      (s.line .D (rowIndexOf cfg.dcache_info0 address) 0).tag ≠ tagOf cfg.dcache_info0 address →
      cfg.dcache_info0.associativity ≠ 1 →
      scanWrite cfg (rowIndexOf cfg.dcache_info0 address) (tagOf cfg.dcache_info0 address) s
        = none →
      isOpen cfg (rowIndexOf cfg.dcache_info0 address) s = none →
      cfg.dcache_info0.replacement = .LRU →
      P (lruReplaceD cfg (rowIndexOf cfg.dcache_info0 address) .D cfg.dcache_info0
          (tagOf cfg.dcache_info0 address) (countWrite s)).2)
    (hFill0 : (s.line .D (rowIndexOf cfg.dcache_info0 address) 0).valid ≠ 1 →
      P (fillOpenSpace cfg (rowIndexOf cfg.dcache_info0 address) 0
          cfg.dcache_info0.words_per_block (tagOf cfg.dcache_info0 address) (countWrite s))) :
    P (dWrite cfg address rand s) := by
  unfold dWrite
  simp only [line_countWrite, scanWrite_countWrite, isOpen_countWrite]
  by_cases h0 : (s.line .D (rowIndexOf cfg.dcache_info0 address) 0).valid = 1
  · simp only [h0, if_true]
    by_cases ht : (s.line .D (rowIndexOf cfg.dcache_info0 address) 0).tag
        = tagOf cfg.dcache_info0 address
    · simp only [ht, if_true]
      exact hHit0 h0 ht
    · simp only [ht, if_false]
      by_cases ha : cfg.dcache_info0.associativity = 1
      · simp only [ha, if_true]
        have := hDirect h0 ht ha
        simpa only [ha] using this
      · simp only [ha, if_false]
        cases hs : scanWrite cfg (rowIndexOf cfg.dcache_info0 address)
            (tagOf cfg.dcache_info0 address) s with
        | some i => exact hHit i h0 ht ha hs
        | none =>
          simp only []
          cases ho : isOpen cfg (rowIndexOf cfg.dcache_info0 address) s with
          | some k => exact hOpen k h0 ht ha hs ho
          | none =>
            simp only []
            cases hr : cfg.dcache_info0.replacement with
            | RANDOM => exact hRandom h0 ht ha hs ho hr
            | LRU => exact hLRU h0 ht ha hs ho hr
  · simp only [h0, if_false]
    exact hFill0 h0

/-! ## Effect of the engines on the counters -/

theorem cacheAccess_g (address : Nat) (p : CachePtr) (ci : CacheInfo) (w rand : Nat)
    (s : State) : ReadEffect ci w s.g (cacheAccess address p ci w rand s).g := by
  refine cacheAccess_cases address p ci w rand s (fun s' => ReadEffect ci w s.g s'.g)
    ?_ ?_ ?_ ?_ ?_ ?_ ?_ <;> unfold ReadEffect
  · intro _
    refine ⟨0, 1, 0, 0, 0, rfl, fun _ => rfl, fun _ => rfl, fun _ => rfl, ?_⟩
    simp only [fixLRU_g, g_setLine, countCompul, countRead]
    split_ifs <;> simp
  · intro _ _
    refine ⟨1, 0, 0, 0, 0, rfl, fun _ => rfl, fun _ => rfl, fun _ => rfl, ?_⟩
    simp only [fixLRU_g, g_setLine, countHit, countRead]
    split_ifs <;> simp
  · intro _ _ ha
    refine ⟨0, 0, 1, 0, 0, rfl, fun _ => rfl, fun h => absurd ha h, fun _ => rfl, ?_⟩
    simp only [fixLRU_g, g_setLine, countConflict, countRead]
    split_ifs <;> simp
  · intro i _ _ _ _ _
    refine ⟨1, 0, 0, 0, 0, rfl, fun _ => rfl, fun _ => rfl, fun _ => rfl, ?_⟩
    have : (countHit w (fixLRU (rowIndexOf ci address) i p ci (countRead w s))).g
        = (countHit w (countRead w s)).g := by
      unfold countHit; split_ifs <;> simp
    rw [this]
    simp only [countHit, countRead]
    split_ifs <;> simp
  · intro i _ _ _ _ _
    refine ⟨0, 1, 0, 0, 0, rfl, fun _ => rfl, fun _ => rfl, fun _ => rfl, ?_⟩
    simp only [fixLRU_g, g_setLine, countCompul, countRead]
    split_ifs <;> simp
  · intro _ _ ha _ _
    simp only [ranReplace_g, line_countCapacity, line_countRead]
    refine ⟨0, 0, 0, 1,
      if (s.line p (rowIndexOf ci address) (rand % (ci.associativity - 1))).dirty = 1
        then ci.words_per_block else 0,
      rfl, fun h => absurd h ha, fun _ => rfl, fun h => absurd h (by decide), ?_⟩
    simp only [countCapacity, countRead]
    split_ifs <;> simp
  · intro _ _ ha _ _
    simp only [lruReplace_g, line_countCapacity, line_countRead, lruScan_countCapacity,
      lruScan_countRead]
    refine ⟨0, 0, 0, 1,
      if (s.line p (rowIndexOf ci address) (lruScan (rowIndexOf ci address) p ci s).2).dirty = 1
        then ci.words_per_block else 0,
      rfl, fun h => absurd h ha, fun _ => rfl, fun h => absurd h (by decide), ?_⟩
    simp only [countCapacity, countRead]
    split_ifs <;> simp

theorem dWrite_g (cfg : Config) (address rand : Nat) (s : State) :
    WriteEffect cfg.dcache_info0 s.g (dWrite cfg address rand s).g := by
  have hmem : ∀ k, WriteEffect cfg.dcache_info0 s.g
      (writeMem cfg (rowIndexOf cfg.dcache_info0 address) k .D cfg.dcache_info0
        (tagOf cfg.dcache_info0 address) (countWrite s)).g := by
    intro k
    unfold WriteEffect
    simp only [writeMem_g, line_countWrite]
    by_cases ha : cfg.dcache_info0.associativity = 1
    · refine ⟨0, 0, 1, 0,
        (match cfg.dcache_info0.write_scheme with
          | .WRITE_BACK =>
            if (s.line .D (rowIndexOf cfg.dcache_info0 address) k).dirty = 1
              then cfg.dcache_info0.words_per_block else 0
          | .WRITE_THROUGH => 1),
        (match cfg.dcache_info0.write_scheme, cfg.dcache_info0.allocate_scheme with
          | .WRITE_BACK, _ => cfg.dcache_info0.words_per_block
          | .WRITE_THROUGH, .NO_ALLOCATE => 0
          | .WRITE_THROUGH, .ALLOCATE =>
            if cfg.dcache_info0.words_per_block > 1
              then cfg.dcache_info0.words_per_block else 0),
        rfl, fun _ => rfl, fun h => absurd ha h, ?_⟩
      simp [countWrite, ha]
    · refine ⟨0, 0, 0, 1,
        (match cfg.dcache_info0.write_scheme with
          | .WRITE_BACK =>
            if (s.line .D (rowIndexOf cfg.dcache_info0 address) k).dirty = 1
              then cfg.dcache_info0.words_per_block else 0
          | .WRITE_THROUGH => 1),
        (match cfg.dcache_info0.write_scheme, cfg.dcache_info0.allocate_scheme with
          | .WRITE_BACK, _ => cfg.dcache_info0.words_per_block
          | .WRITE_THROUGH, .NO_ALLOCATE => 0
          | .WRITE_THROUGH, .ALLOCATE =>
            if cfg.dcache_info0.words_per_block > 1
              then cfg.dcache_info0.words_per_block else 0),
        rfl, fun h => absurd h ha, fun _ => rfl, ?_⟩
      simp [countWrite, ha]
  have hhit : ∀ k, WriteEffect cfg.dcache_info0 s.g
      (fixLRU (rowIndexOf cfg.dcache_info0 address) k .D cfg.dcache_info0
        (performWrite cfg (rowIndexOf cfg.dcache_info0 address) k
          (countWHit (countWrite s)))).g := by
    intro k
    unfold WriteEffect
    refine ⟨1, 0, 0, 0,
      (match cfg.dcache_info0.write_scheme with
        | .WRITE_THROUGH => 1
        | .WRITE_BACK => 0), 0, rfl, fun _ => rfl, fun _ => rfl, ?_⟩
    simp [fixLRU_g, performWrite_g, countWHit, countWrite]
  have hfill : ∀ k, WriteEffect cfg.dcache_info0 s.g
      (fillOpenSpace cfg (rowIndexOf cfg.dcache_info0 address) k
        cfg.dcache_info0.words_per_block (tagOf cfg.dcache_info0 address) (countWrite s)).g := by
    intro k
    unfold WriteEffect
    simp only [fillOpenSpace_g]
    cases cfg.dcache_info0.write_scheme <;> cases cfg.dcache_info0.allocate_scheme
    · exact ⟨0, 1, 0, 0, 0, cfg.dcache_info0.words_per_block, rfl, fun _ => rfl, fun _ => rfl,
        by simp [countWrite]⟩
    · exact ⟨0, 1, 0, 0, 0, cfg.dcache_info0.words_per_block, rfl, fun _ => rfl, fun _ => rfl,
        by simp [countWrite]⟩
    · exact ⟨0, 1, 0, 0, 1,
        if cfg.dcache_info0.words_per_block > 1 then cfg.dcache_info0.words_per_block else 0,
        rfl, fun _ => rfl, fun _ => rfl, by simp [countWrite]⟩
    · by_cases ha : cfg.dcache_info0.associativity = 1
      · exact ⟨0, 0, 1, 0, 1, 0, rfl, fun _ => rfl, fun h => absurd ha h,
          by simp [countWrite, ha]⟩
      · exact ⟨0, 0, 0, 1, 1, 0, rfl, fun h => absurd h ha, fun _ => rfl,
          by simp [countWrite, ha]⟩
  refine dWrite_cases cfg address rand s (fun s' => WriteEffect cfg.dcache_info0 s.g s'.g)
    ?_ ?_ ?_ ?_ ?_ ?_ ?_
  · intro _ _; exact hhit 0
  · intro _ _ _; exact hmem 0
  · intro i _ _ _ _; exact hhit i
  · intro k _ _ _ _ _; exact hfill k
  · intro _ _ _ _ _ _; exact hmem _
  · intro _ _ _ _ _ _; exact hmem _
  · intro _; exact hfill 0

/-! ## Runs and invariants of the counters -/

theorem run_induction (cfg : Config) (P : State → Prop)
    (hstep : ∀ s (a : Access), P s → P (handle_access cfg a.type a.address a.rand s)) :
    ∀ (trace : List Access) (s : State), P s → P (run cfg s trace) := by
  intro trace
  induction trace with
  | nil => intro s hs; exact hs
  | cons a trace ih =>
    intro s hs
    exact ih _ (hstep s a hs)

theorem run_append (cfg : Config) (s : State) (t1 t2 : List Access) :
    run cfg s (t1 ++ t2) = run cfg (run cfg s t1) t2 := by
  simp [run, List.foldl_append]

theorem handle_access_g (cfg : Config) (type : AccessType) (address rand : Nat) (s : State) :
    match type with
    | .I_FETCH => ReadEffect cfg.icache_info 1 s.g (handle_access cfg type address rand s).g
    | .D_READ => handle_access cfg type address rand s = s ∨
        ReadEffect cfg.dcache_info0 0 s.g (handle_access cfg type address rand s).g
    | .D_WRITE => handle_access cfg type address rand s = s ∨
        WriteEffect cfg.dcache_info0 s.g (handle_access cfg type address rand s).g := by
  cases type <;> simp only [handle_access]
  · exact cacheAccess_g _ _ _ _ _ _
  · split
    · exact Or.inr (cacheAccess_g _ _ _ _ _ _)
    · exact Or.inl rfl
  · split
    · exact Or.inr (dWrite_g _ _ _ _)
    · exact Or.inl rfl

theorem readEffect_inv_I (cfg : Config) (g g' : Globals) (h : CounterInv cfg g)
    (e : ReadEffect cfg.icache_info 1 g g') : CounterInv cfg g' := by
  obtain ⟨hit, compul, conflict, capacity, ww, hsum, hcap, hconf, -, rfl⟩ := e
  obtain ⟨⟨b1, b2, b3⟩, i1, i2, i3, i4⟩ := h
  simp only [ne_eq, one_ne_zero, not_false_eq_true, if_true]
  refine ⟨⟨?_, ?_, ?_⟩, ?_, ?_, ?_, ?_⟩
  · simp only []; omega
  · exact b2
  · exact b3
  · intro ha; have := i1 ha; have := hcap ha; simp only []; omega
  · exact i2
  · intro ha; have := i3 ha; have := hconf ha; simp only []; omega
  · exact i4

theorem readEffect_inv_D (cfg : Config) (g g' : Globals) (h : CounterInv cfg g)
    (e : ReadEffect cfg.dcache_info0 0 g g') : CounterInv cfg g' := by
  obtain ⟨hit, compul, conflict, capacity, ww, hsum, hcap, hconf, -, rfl⟩ := e
  obtain ⟨⟨b1, b2, b3⟩, i1, i2, i3, i4⟩ := h
  simp only [ne_eq, not_true_eq_false, if_false]
  refine ⟨⟨?_, ?_, ?_⟩, ?_, ?_, ?_, ?_⟩
  · exact b1
  · simp only []; omega
  · exact b3
  · exact i1
  · intro ha; have := i2 ha; have := hcap ha; simp only []; omega
  · exact i3
  · intro ha; have := i4 ha; have := hconf ha; simp only []; omega

theorem writeEffect_inv (cfg : Config) (g g' : Globals) (h : CounterInv cfg g)
    (e : WriteEffect cfg.dcache_info0 g g') : CounterInv cfg g' := by
  obtain ⟨hit, compul, conflict, capacity, ww, wr, hsum, hcap, hconf, rfl⟩ := e
  obtain ⟨⟨b1, b2, b3⟩, i1, i2, i3, i4⟩ := h
  refine ⟨⟨?_, ?_, ?_⟩, ?_, ?_, ?_, ?_⟩
  · exact b1
  · exact b2
  · simp only []; omega
  · exact i1
  · intro ha; have := i2 ha; have := hcap ha; simp only []; omega
  · exact i3
  · intro ha; have := i4 ha; have := hconf ha; simp only []; omega

theorem counterInv_step (cfg : Config) (s : State) (a : Access) (h : CounterInv cfg s.g) :
    CounterInv cfg (handle_access cfg a.type a.address a.rand s).g := by
  have e := handle_access_g cfg a.type a.address a.rand s
  cases hty : a.type <;> rw [hty] at e <;> simp only [] at e
  · exact readEffect_inv_I cfg _ _ h e
  · rcases e with e | e
    · rw [e]; exact h
    · exact readEffect_inv_D cfg _ _ h e
  · rcases e with e | e
    · rw [e]; exact h
    · exact writeEffect_inv cfg _ _ h e

theorem counterInv_setup (cfg : Config) : CounterInv cfg (setup_caches cfg).g := by
  rw [setup_caches_g]
  simp [CounterInv, Balanced, Globals.zero]

theorem counterInv_simulate (cfg : Config) (trace : List Access) :
    CounterInv cfg (simulate cfg trace).g :=
  run_induction cfg (fun s => CounterInv cfg s.g) (fun s a h => counterInv_step cfg s a h)
    trace _ (counterInv_setup cfg)

theorem handle_access_lru_rand (cfg : Config) (hI : cfg.icache_info.replacement = .LRU)
    (hD : cfg.dcache_info0.replacement = .LRU) (t : AccessType) (a r : Nat) (s : State) :
    handle_access cfg t a r s = handle_access cfg t a 0 s := by
  cases t <;> simp only [handle_access, cacheAccess, dWrite, hI, hD]

theorem run_lru_rand (cfg : Config) (hI : cfg.icache_info.replacement = .LRU)
    (hD : cfg.dcache_info0.replacement = .LRU) (trace : List Access) :
    ∀ s, run cfg s trace = run cfg s (trace.map (fun a => { a with rand := 0 })) := by
  induction trace with
  | nil => intro s; rfl
  | cons a trace ih =>
    intro s
    simp only [run, List.foldl_cons, List.map_cons]
    rw [handle_access_lru_rand cfg hI hD]
    exact ih _

/-! ## Address decoding -/

theorem ceilLog2From_spec (n : Nat) :
    ∀ fuel k, n ≤ 2 ^ (k + fuel) → (∀ j, k ≤ j → j < ceilLog2From n fuel k → ¬ n ≤ 2 ^ j) ∧
      k ≤ ceilLog2From n fuel k ∧ n ≤ 2 ^ ceilLog2From n fuel k := by
  intro fuel
  induction fuel with
  | zero =>
    intro k h
    simp only [ceilLog2From]
    exact ⟨fun j h1 h2 => absurd h1 (by omega), le_refl _, by simpa using h⟩
  | succ fuel ih =>
    intro k h
    simp only [ceilLog2From]
    by_cases hk : n ≤ 2 ^ k
    · rw [if_pos hk]
      exact ⟨fun j h1 h2 => absurd h1 (by omega), le_refl _, hk⟩
    · rw [if_neg hk]
      have h' : n ≤ 2 ^ (k + 1 + fuel) := by
        have : k + 1 + fuel = k + (fuel + 1) := by omega
        rw [this]; exact h
      obtain ⟨h1, h2, h3⟩ := ih (k + 1) h'
      refine ⟨fun j hj1 hj2 => ?_, by omega, h3⟩
      by_cases hjk : j = k
      · subst hjk; exact hk
      · exact h1 j (by omega) hj2

/-- The value `ceilLog2 n` is the least exponent `k` with `n ≤ 2 ^ k`. -/
theorem ceilLog2_spec (n : Nat) :
    n ≤ 2 ^ ceilLog2 n ∧ ∀ j, j < ceilLog2 n → 2 ^ j < n := by
  have hn : n ≤ 2 ^ (0 + n) := by
    rw [Nat.zero_add]; exact Nat.le_of_lt (Nat.lt_two_pow n)
  obtain ⟨h1, -, h3⟩ := ceilLog2From_spec n n 0 hn
  exact ⟨h3, fun j hj => Nat.lt_of_not_le (h1 j (Nat.zero_le _) hj)⟩

theorem ceilLog2_two_pow (k : Nat) : ceilLog2 (2 ^ k) = k := by
  obtain ⟨h1, h2⟩ := ceilLog2_spec (2 ^ k)
  have a : k ≤ ceilLog2 (2 ^ k) := (Nat.pow_le_pow_iff_right (by decide)).mp h1
  by_contra hne
  have : k < ceilLog2 (2 ^ k) := by omega
  exact absurd (h2 k this) (lt_irrefl _)

theorem ceilLog2_eq_clog (n : Nat) : ceilLog2 n = Nat.clog 2 n := by
  obtain ⟨h1, h2⟩ := ceilLog2_spec n
  apply le_antisymm
  · by_contra hlt
    have hlt : Nat.clog 2 n < ceilLog2 n := by omega
    have := h2 _ hlt
    have := Nat.le_pow_clog (by decide : 1 < 2) n
    omega
  · exact (Nat.le_pow_iff_clog_le (by decide : 1 < 2)).mp h1

theorem rowIndexOf_eq (ci : CacheInfo) (address : Nat) :
    rowIndexOf ci address = address / 2 ^ rowShift ci % 2 ^ rowBit ci := by
  unfold rowIndexOf rowMask
  rw [Nat.one_shiftLeft, Nat.and_pow_two_sub_one_eq_mod, Nat.shiftRight_eq_div_pow]

theorem tagOf_eq (ci : CacheInfo) (address : Nat) :
    tagOf ci address = address / 2 ^ tagShift ci % 2 ^ tagBit ci := by
  unfold tagOf tagMask
  rw [Nat.one_shiftLeft, Nat.and_pow_two_sub_one_eq_mod, Nat.shiftRight_eq_div_pow]

theorem rowIndexOf_lt (ci : CacheInfo) (address k : Nat)
    (hrows : ci.num_blocks / ci.associativity = 2 ^ k) :
    rowIndexOf ci address < ci.num_blocks / ci.associativity := by
  rw [rowIndexOf_eq]
  have : rowBit ci = k := by unfold rowBit; rw [hrows, ceilLog2_two_pow]
  rw [this, hrows]
  exact Nat.mod_lt _ (Nat.pos_pow_of_pos k (by decide))

/-! ## Shape and contents of the cache arrays -/

theorem line_congr {s X : State} (hi : X.iCache = s.iCache) (hd : X.dCache = s.dCache)
    (p : CachePtr) (r i : Nat) : X.line p r i = s.line p r i := by
  cases p <;> simp [State.line, State.cache, hi, hd]

theorem inb_congr {s X : State} (hi : X.iCache = s.iCache) (hd : X.dCache = s.dCache)
    (p : CachePtr) (r i : Nat) : X.inb p r i ↔ s.inb p r i := by
  cases p <;> simp [State.inb, State.cache, hi, hd]

theorem foldl_age_other (p : CachePtr) (row : Nat) (f : State → Nat → Nat) (l : List Nat)
    (q : CachePtr) (r' i' : Nat) (h : q ≠ p ∨ r' ≠ row) :
    ∀ s : State,
      (l.foldl (fun s i => s.setLine p row i { s.line p row i with LRU := f s i }) s).line
        q r' i' = s.line q r' i' := by
  induction l with
  | nil => intro s; rfl
  | cons a l ih =>
    intro s
    simp only [List.foldl_cons]
    rw [ih, line_setLine, if_neg]
    rintro ⟨h1, h2, -⟩
    rcases h with h | h
    · exact h h1
    · exact h h2

theorem fixLRU_other (rowIndex indexToKeep : Nat) (cache : CachePtr) (ci : CacheInfo)
    (s : State) (q : CachePtr) (r' i' : Nat) (h : q ≠ cache ∨ r' ≠ rowIndex) :
    (fixLRU rowIndex indexToKeep cache ci s).line q r' i' = s.line q r' i' := by
  unfold fixLRU
  simp only []
  rw [line_setLine, if_neg, foldl_age_other cache rowIndex _ _ q r' i' h]
  rintro ⟨h1, h2, -⟩
  rcases h with h | h
  · exact h h1
  · exact h h2

theorem fixLRU_tv (rowIndex indexToKeep : Nat) (cache : CachePtr) (ci : CacheInfo)
    (s : State) (q : CachePtr) (r' i' : Nat) :
    ((fixLRU rowIndex indexToKeep cache ci s).line q r' i').tv = (s.line q r' i').tv := by
  obtain ⟨-, h⟩ := fixLRU_frame rowIndex indexToKeep cache ci s
  obtain ⟨-, h1, h2, -⟩ := h q r' i'
  simp [MetaData.tv, h1, h2]

theorem fixLRU_inb (rowIndex indexToKeep : Nat) (cache : CachePtr) (ci : CacheInfo)
    (s : State) (q : CachePtr) (r' i' : Nat) :
    (fixLRU rowIndex indexToKeep cache ci s).inb q r' i' ↔ s.inb q r' i' :=
  ((fixLRU_frame rowIndex indexToKeep cache ci s).2 q r' i').1

theorem lruScan_foldl_lt (f : Nat → Nat) (n : Nat) (l : List Nat) :
    ∀ acc : Nat × Nat, acc.2 < n → (∀ i ∈ l, i < n) →
      (l.foldl (fun (acc : Nat × Nat) i => if f i > acc.1 then (f i, i) else acc) acc).2 < n := by
  induction l with
  | nil => intro acc h _; exact h
  | cons a l ih =>
    intro acc h hl
    simp only [List.foldl_cons]
    apply ih
    · split
      · exact hl a (List.mem_cons_self _ _)
      · exact h
    · intro i hi
      exact hl i (List.mem_cons_of_mem _ hi)

theorem lruScan_lt (r : Nat) (p : CachePtr) (ci : CacheInfo) (s : State)
    (h : 0 < ci.associativity) : (lruScan r p ci s).2 < ci.associativity := by
  unfold lruScan
  exact lruScan_foldl_lt (fun i => (s.line p r i).LRU) ci.associativity _ (0, 0) h
    (fun i hi => List.mem_range.mp hi)

theorem frameOutside_refl (p : CachePtr) (r : Nat) (s : State) : FrameOutside p r s s :=
  ⟨fun _ _ _ => Iff.rfl, fun _ _ _ _ => rfl⟩

theorem frameOutside_congr {p : CachePtr} {r : Nat} {s X s' : State}
    (hi : X.iCache = s.iCache) (hd : X.dCache = s.dCache) (h : FrameOutside p r X s') :
    FrameOutside p r s s' :=
  ⟨fun q r' i' => (h.1 q r' i').trans (inb_congr hi hd q r' i'),
   fun q r' i' hne => (h.2 q r' i' hne).trans (line_congr hi hd q r' i')⟩

/-- Writing one line of row `r` and fixing the recency of that row. -/
theorem frameOutside_install (p : CachePtr) (r k j : Nat) (ci : CacheInfo) (m : MetaData)
    (s : State) : FrameOutside p r s (fixLRU r j p ci (s.setLine p r k m)) := by
  refine ⟨fun q r' i' => ?_, fun q r' i' hne => ?_⟩
  · rw [fixLRU_inb, inb_setLine]
  · rw [fixLRU_other _ _ _ _ _ _ _ _ hne, line_setLine, if_neg]
    rintro ⟨h1, h2, -⟩
    rcases hne with h | h
    · exact h h1
    · exact h h2

theorem tv_install (p : CachePtr) (r k j : Nat) (ci : CacheInfo) (m : MetaData)
    (s : State) (hin : s.inb p r k) (i' : Nat) :
    ((fixLRU r j p ci (s.setLine p r k m)).line p r i').tv
      = if i' = k then m.tv else (s.line p r i').tv := by
  rw [fixLRU_tv, line_setLine]
  by_cases h : i' = k
  · simp [h, hin]
  · simp [h]

theorem frameOutside_trans {p : CachePtr} {r : Nat} {s s1 s2 : State}
    (h1 : FrameOutside p r s s1) (h2 : FrameOutside p r s1 s2) : FrameOutside p r s s2 :=
  ⟨fun q r' i' => (h2.1 q r' i').trans (h1.1 q r' i'),
   fun q r' i' hne => (h2.2 q r' i' hne).trans (h1.2 q r' i' hne)⟩

theorem keeps_refl (p : CachePtr) (r : Nat) (s : State) : Keeps p r s s :=
  ⟨frameOutside_refl p r s, fun _ => rfl⟩

theorem keeps_trans {p : CachePtr} {r : Nat} {s s1 s2 : State}
    (h1 : Keeps p r s s1) (h2 : Keeps p r s1 s2) : Keeps p r s s2 :=
  ⟨frameOutside_trans h1.1 h2.1, fun i' => (h2.2 i').trans (h1.2 i')⟩

theorem keeps_of_caches {s X : State} (hi : X.iCache = s.iCache) (hd : X.dCache = s.dCache)
    (p : CachePtr) (r : Nat) : Keeps p r s X :=
  ⟨⟨fun q r' i' => inb_congr hi hd q r' i', fun q r' i' _ => line_congr hi hd q r' i'⟩,
   fun i' => by rw [line_congr hi hd]⟩

theorem keeps_fixLRU (p : CachePtr) (r j : Nat) (ci : CacheInfo) (s : State) :
    Keeps p r s (fixLRU r j p ci s) :=
  ⟨⟨fun _ _ _ => fixLRU_inb _ _ _ _ _ _ _ _,
    fun _ _ _ hne => fixLRU_other _ _ _ _ _ _ _ _ hne⟩,
   fun _ => fixLRU_tv _ _ _ _ _ _ _ _⟩

theorem frameOutside_setLine (p : CachePtr) (r k : Nat) (m : MetaData) (s : State) :
    FrameOutside p r s (s.setLine p r k m) := by
  refine ⟨fun q r' i' => inb_setLine _ _ _ _ _ _ _ _, fun q r' i' hne => ?_⟩
  rw [line_setLine, if_neg]
  rintro ⟨h1, h2, -⟩
  rcases hne with h | h
  · exact h h1
  · exact h h2

theorem keeps_setLine (p : CachePtr) (r k : Nat) (m : MetaData) (s : State)
    (hm : m.tv = (s.line p r k).tv) : Keeps p r s (s.setLine p r k m) := by
  refine ⟨frameOutside_setLine p r k m s, fun i' => ?_⟩
  rw [line_setLine]
  split
  · rename_i h
    obtain ⟨-, -, h3, -⟩ := h
    rw [h3]; exact hm
  · rfl

theorem installs_setLine (ci : CacheInfo) (p : CachePtr) (r k t : Nat) (m : MetaData)
    (s : State) (hm : m.tv = (t, 1)) (hin : s.inb p r k) (hk : k < ci.associativity)
    (hpre : ∀ i, i < k → (s.line p r i).valid = 1) :
    Installs ci p r t s (s.setLine p r k m) := by
  refine ⟨frameOutside_setLine p r k m s, k, hk, hpre, fun i' => ?_⟩
  rw [line_setLine]
  by_cases h : i' = k
  · simp [h, hin, hm]
  · simp [h]

theorem installs_of_keeps_installs {ci : CacheInfo} {p : CachePtr} {r t : Nat}
    {s s1 s2 : State} (h1 : Keeps p r s s1) (h2 : Installs ci p r t s1 s2) :
    Installs ci p r t s s2 := by
  obtain ⟨f2, k, hk, hpre, htv⟩ := h2
  refine ⟨frameOutside_trans h1.1 f2, k, hk, fun i hi => ?_, fun i' => ?_⟩
  · have := h1.2 i
    have h3 := hpre i hi
    simp only [MetaData.tv, Prod.mk.injEq] at this
    rw [← this.2]; exact h3
  · rw [htv i', h1.2 i']

theorem installs_of_installs_keeps {ci : CacheInfo} {p : CachePtr} {r t : Nat}
    {s s1 s2 : State} (h1 : Installs ci p r t s s1) (h2 : Keeps p r s1 s2) :
    Installs ci p r t s s2 := by
  obtain ⟨f1, k, hk, hpre, htv⟩ := h1
  exact ⟨frameOutside_trans f1 h2.1, k, hk, hpre, fun i' => by rw [h2.2 i', htv i']⟩

/-- A step that keeps tags and valid flags installs `t` when `t` is already
valid in way `k`. -/
theorem installs_of_keeps_hit {ci : CacheInfo} {p : CachePtr} {r t k : Nat}
    {s s' : State} (h : Keeps p r s s') (hk : k < ci.associativity)
    (hpre : ∀ i, i < k → (s.line p r i).valid = 1)
    (hv : (s.line p r k).valid = 1) (ht : (s.line p r k).tag = t) :
    Installs ci p r t s s' := by
  refine ⟨h.1, k, hk, hpre, fun i' => ?_⟩
  rw [h.2 i']
  by_cases e : i' = k
  · subst e; simp [MetaData.tv, hv, ht]
  · simp [e]

@[simp] theorem iCache_countRead (w : Nat) (s : State) :
    (countRead w s).iCache = s.iCache := by rw [countRead_eq]
@[simp] theorem dCache_countRead (w : Nat) (s : State) :
    (countRead w s).dCache = s.dCache := by rw [countRead_eq]
@[simp] theorem iCache_countHit (w : Nat) (s : State) :
    (countHit w s).iCache = s.iCache := by rw [countHit_eq]
@[simp] theorem dCache_countHit (w : Nat) (s : State) :
    (countHit w s).dCache = s.dCache := by rw [countHit_eq]
@[simp] theorem iCache_countCompul (w : Nat) (s : State) :
    (countCompul w s).iCache = s.iCache := by rw [countCompul_eq]
@[simp] theorem dCache_countCompul (w : Nat) (s : State) :
    (countCompul w s).dCache = s.dCache := by rw [countCompul_eq]
@[simp] theorem iCache_countConflict (w : Nat) (s : State) :
    (countConflict w s).iCache = s.iCache := by rw [countConflict_eq]
@[simp] theorem dCache_countConflict (w : Nat) (s : State) :
    (countConflict w s).dCache = s.dCache := by rw [countConflict_eq]
@[simp] theorem iCache_countCapacity (w : Nat) (s : State) :
    (countCapacity w s).iCache = s.iCache := by rw [countCapacity_eq]
@[simp] theorem dCache_countCapacity (w : Nat) (s : State) :
    (countCapacity w s).dCache = s.dCache := by rw [countCapacity_eq]
@[simp] theorem iCache_countWriteMiss (cfg : Config) (s : State) :
    (countWriteMiss cfg s).iCache = s.iCache := by rw [countWriteMiss_eq]
@[simp] theorem dCache_countWriteMiss (cfg : Config) (s : State) :
    (countWriteMiss cfg s).dCache = s.dCache := by rw [countWriteMiss_eq]
@[simp] theorem iCache_countWrite (s : State) : (countWrite s).iCache = s.iCache := rfl
@[simp] theorem dCache_countWrite (s : State) : (countWrite s).dCache = s.dCache := rfl
@[simp] theorem iCache_countWHit (s : State) : (countWHit s).iCache = s.iCache := rfl
@[simp] theorem dCache_countWHit (s : State) : (countWHit s).dCache = s.dCache := rfl

/-- Overwriting way `k` with tag `t` (valid) and fixing the recency. -/
theorem installs_write (ci : CacheInfo) (p : CachePtr) (r k t : Nat) (m : MetaData)
    (s X : State) (hi : X.iCache = s.iCache) (hd : X.dCache = s.dCache)
    (hm : m.tv = (t, 1)) (hin : s.inb p r k) (hk : k < ci.associativity)
    (hpre : ∀ i, i < k → (s.line p r i).valid = 1) :
    Installs ci p r t s (fixLRU r k p ci (X.setLine p r k m)) := by
  apply installs_of_keeps_installs (keeps_of_caches hi hd p r)
  apply installs_of_installs_keeps _ (keeps_fixLRU p r k ci _)
  apply installs_setLine ci p r k t m X hm ((inb_congr hi hd p r k).mpr hin) hk
  intro i hlt
  rw [line_congr hi hd]; exact hpre i hlt

theorem ranReplace_installs (ci : CacheInfo) (p : CachePtr) (r t rand : Nat)
    (s X : State) (hi : X.iCache = s.iCache) (hd : X.dCache = s.dCache)
    (hin : s.inb p r (rand % (ci.associativity - 1)))
    (hk : rand % (ci.associativity - 1) < ci.associativity)
    (hpre : ∀ i, i < ci.associativity → (s.line p r i).valid = 1) :
    Installs ci p r t s (ranReplace r p ci t rand X).2 := by
  unfold ranReplace
  simp only []
  refine installs_write ci p r _ t _ s _ ?_ ?_ ?_ hin hk (fun i hlt => hpre i (by omega))
  · split <;> simp [hi]
  · split <;> simp [hd]
  · rfl

theorem lruReplace_installs (ci : CacheInfo) (p : CachePtr) (r t : Nat)
    (s X : State) (hi : X.iCache = s.iCache) (hd : X.dCache = s.dCache)
    (hin : ∀ k, k < ci.associativity → s.inb p r k)
    (ha : 0 < ci.associativity)
    (hpre : ∀ i, i < ci.associativity → (s.line p r i).valid = 1) :
    Installs ci p r t s (lruReplace r p ci t X).2 := by
  unfold lruReplace
  simp only []
  have hk := lruScan_lt r p ci X ha
  refine installs_write ci p r _ t _ s _ ?_ ?_ ?_ (hin _ hk) hk
    (fun i hlt => hpre i (by omega))
  · split <;> simp [hi]
  · split <;> simp [hd]
  · rfl

theorem valid_eq_one_of_ne_zero {s : State} {p : CachePtr}
    (hb : ∀ r i, (s.line p r i).valid ≤ 1) {r i : Nat} (h : (s.line p r i).valid ≠ 0) :
    (s.line p r i).valid = 1 := by
  have := hb r i
  omega

/-- Every read leaves the wanted tag valid in its row and changes no other
tag or valid flag. -/
theorem cacheAccess_installs (address : Nat) (p : CachePtr) (ci : CacheInfo) (w rand : Nat)
    (s : State) (hs : Shaped ci p s) (hb : ∀ r i, (s.line p r i).valid ≤ 1)
    (hr : rowIndexOf ci address < ci.num_blocks / ci.associativity)
    (ha : 1 ≤ ci.associativity) :
    Installs ci p (rowIndexOf ci address) (tagOf ci address) s
      (cacheAccess address p ci w rand s) := by
  have hin : ∀ k, k < ci.associativity → s.inb p (rowIndexOf ci address) k :=
    fun k hk => (hs _ _).mpr ⟨hr, hk⟩
  refine cacheAccess_cases address p ci w rand s
    (fun s' => Installs ci p (rowIndexOf ci address) (tagOf ci address) s s')
    ?_ ?_ ?_ ?_ ?_ ?_ ?_
  · intro _
    exact installs_write ci p _ 0 _ _ s _ (by simp) (by simp) rfl (hin 0 ha) ha
      (fun i hi => absurd hi (by omega))
  · intro h0 ht
    refine installs_of_keeps_hit (k := 0) ?_ ha (fun i hi => absurd hi (by omega))
      (valid_eq_one_of_ne_zero hb h0) ht
    exact keeps_trans (keeps_of_caches (by simp) (by simp) p _) (keeps_fixLRU p _ 0 ci _)
  · intro _ _ _
    apply installs_of_keeps_installs
      (keeps_of_caches (X := countConflict w (countRead w s)) (by simp) (by simp) p _)
    refine installs_setLine ci p _ 0 _ _ _ rfl ?_ ha (fun i hi => absurd hi (by omega))
    exact (inb_congr (by simp) (by simp) p _ 0).mpr (hin 0 ha)
  · intro i _ _ _ hsc hv
    obtain ⟨hi, hor, hpre⟩ := scanRead_some hsc
    have htag : (s.line p (rowIndexOf ci address) i).tag = tagOf ci address := by
      rcases hor with h | h
      · exact h.2
      · rw [h] at hv; exact absurd hv (by decide)
    refine installs_of_keeps_hit (k := i) ?_ hi
      (fun j hj => valid_eq_one_of_ne_zero hb (hpre j hj).1) hv htag
    exact keeps_trans
      (keeps_trans (keeps_of_caches (X := countRead w s) (by simp) (by simp) p _)
        (keeps_fixLRU p _ i ci _))
      (keeps_of_caches (by simp) (by simp) p _)
  · intro i _ _ _ hsc _
    obtain ⟨hi, -, hpre⟩ := scanRead_some hsc
    exact installs_write ci p _ i _ _ s _ (by simp) (by simp) rfl (hin i hi) hi
      (fun j hj => valid_eq_one_of_ne_zero hb (hpre j hj).1)
  · intro _ _ hne hsc _
    have hall := scanRead_none hsc
    have hk : rand % (ci.associativity - 1) < ci.associativity := by
      have : rand % (ci.associativity - 1) < ci.associativity - 1 :=
        Nat.mod_lt _ (by omega)
      omega
    exact ranReplace_installs ci p _ _ rand s _ (by simp) (by simp) (hin _ hk) hk
      (fun j hj => valid_eq_one_of_ne_zero hb (hall j hj).1)
  · intro _ _ _ hsc _
    have hall := scanRead_none hsc
    exact lruReplace_installs ci p _ _ s _ (by simp) (by simp) hin ha
      (fun j hj => valid_eq_one_of_ne_zero hb (hall j hj).1)

theorem keeps_valid {p : CachePtr} {r : Nat} {s s' : State} (h : Keeps p r s s') (i : Nat) :
    (s'.line p r i).valid = (s.line p r i).valid := by
  have := h.2 i
  simp only [MetaData.tv, Prod.mk.injEq] at this
  exact this.2

@[simp] theorem inb_mk_g (s : State) (g' : Globals) (p : CachePtr) (r i : Nat) :
    State.inb ⟨s.iCache, s.dCache, g'⟩ p r i ↔ s.inb p r i := by
  cases p <;> rfl

theorem inb_countWriteMiss (cfg : Config) (s : State) (p : CachePtr) (r i : Nat) :
    (countWriteMiss cfg s).inb p r i ↔ s.inb p r i := by
  rw [countWriteMiss_eq, inb_mk_g]

theorem performWrite_keeps (cfg : Config) (r k : Nat) (s : State) :
    Keeps .D r s (performWrite cfg r k s) := by
  unfold performWrite
  cases cfg.dcache_info0.write_scheme
  · exact keeps_setLine .D r k _ s rfl
  · exact keeps_of_caches rfl rfl .D r

theorem writeHit_keeps (cfg : Config) (r k : Nat) (s : State) :
    Keeps .D r s (fixLRU r k .D cfg.dcache_info0
      (performWrite cfg r k (countWHit (countWrite s)))) :=
  keeps_trans
    (keeps_trans (keeps_of_caches (X := countWHit (countWrite s)) rfl rfl .D r)
      (performWrite_keeps cfg r k _))
    (keeps_fixLRU .D r k _ _)

/-- Extensional form of `Installs`. -/
theorem installs_intro {ci : CacheInfo} {p : CachePtr} {r t : Nat} {s s' : State} (k : Nat)
    (hk : k < ci.associativity) (hpre : ∀ i, i < k → (s.line p r i).valid = 1)
    (hinb : ∀ q r' i', s'.inb q r' i' ↔ s.inb q r' i')
    (hother : ∀ q r' i', (q ≠ p ∨ r' ≠ r) → s'.line q r' i' = s.line q r' i')
    (htv : ∀ i', (s'.line p r i').tv = if i' = k then (t, 1) else (s.line p r i').tv) :
    Installs ci p r t s s' :=
  ⟨⟨hinb, hother⟩, k, hk, hpre, htv⟩

theorem line_setLine_other (s : State) (p q : CachePtr) (r k r' i' : Nat) (m : MetaData)
    (h : q ≠ p ∨ r' ≠ r) : (s.setLine p r k m).line q r' i' = s.line q r' i' := by
  rw [line_setLine, if_neg]
  rintro ⟨h1, h2, -⟩
  rcases h with h | h
  · exact h h1
  · exact h h2

theorem line_setLine_row (s : State) (p : CachePtr) (r k i' : Nat) (m : MetaData)
    (hin : s.inb p r k) :
    (s.setLine p r k m).line p r i' = if i' = k then m else s.line p r i' := by
  rw [line_setLine]
  by_cases h : i' = k
  · simp [h, hin]
  · simp [h]

/-- The state after the three assignments to line `k` and `fixLRU`, whatever
happens to the counters in between. -/
theorem installs_write_g (ci : CacheInfo) (p : CachePtr) (r k t : Nat) (m : MetaData)
    (s X : State) (g' : Globals) (hi : X.iCache = s.iCache) (hd : X.dCache = s.dCache)
    (hm : m.tv = (t, 1)) (hin : s.inb p r k) (hk : k < ci.associativity)
    (hpre : ∀ i, i < k → (s.line p r i).valid = 1) :
    Installs ci p r t s
      (fixLRU r k p ci ⟨(X.setLine p r k m).iCache, (X.setLine p r k m).dCache, g'⟩) := by
  have hinX : X.inb p r k := (inb_congr hi hd p r k).mpr hin
  refine installs_intro k hk hpre (fun q r' i' => ?_) (fun q r' i' hne => ?_) (fun i' => ?_)
  · rw [fixLRU_inb, inb_mk_g, inb_setLine, inb_congr hi hd]
  · rw [fixLRU_other _ _ _ _ _ _ _ _ hne, line_mk_g, line_setLine_other _ _ _ _ _ _ _ _ hne,
      line_congr hi hd]
  · rw [fixLRU_tv, line_mk_g, line_setLine_row _ _ _ _ _ _ hinX]
    by_cases h : i' = k
    · simp [h, hm]
    · simp [h, line_congr hi hd]

theorem fillOpenSpace_step (cfg : Config) (r k n t : Nat) (s X : State)
    (hi : X.iCache = s.iCache) (hd : X.dCache = s.dCache)
    (hin : s.inb .D r k) (hk : k < cfg.dcache_info0.associativity)
    (hpre : ∀ i, i < k → (s.line .D r i).valid = 1) :
    Keeps .D r s (fillOpenSpace cfg r k n t X) ∨
    Installs cfg.dcache_info0 .D r t s (fillOpenSpace cfg r k n t X) := by
  unfold fillOpenSpace
  cases cfg.dcache_info0.write_scheme
  · -- write-back
    right
    exact installs_write_g _ .D r k t _ s X _ hi hd rfl hin hk hpre
  · cases cfg.dcache_info0.allocate_scheme
    · -- write-through, allocate
      right
      simp only []
      split
      · exact installs_write_g _ .D r k t _ s _ _ hi hd rfl hin hk hpre
      · exact installs_write_g _ .D r k t _ s _ _ hi hd rfl hin hk hpre
    · -- write-through, no-allocate
      left
      exact keeps_of_caches (by simp [hi]) (by simp [hd]) .D r

/-! ## The cache arrays do not depend on the counters -/

theorem setLine_mk_g (s : State) (g' : Globals) (p : CachePtr) (r k : Nat) (m : MetaData) :
    (State.mk s.iCache s.dCache g').setLine p r k m
      = ⟨(s.setLine p r k m).iCache, (s.setLine p r k m).dCache, g'⟩ := by
  cases p <;> rfl

theorem foldl_age_mk_g (p : CachePtr) (row : Nat) (l : List Nat) :
    ∀ (s : State) (g' : Globals),
      l.foldl (fun (s : State) (i : Nat) => s.setLine p row i
          { s.line p row i with LRU := (s.line p row i).LRU + 1 }) ⟨s.iCache, s.dCache, g'⟩
        = ⟨(l.foldl (fun (s : State) (i : Nat) => s.setLine p row i
              { s.line p row i with LRU := (s.line p row i).LRU + 1 }) s).iCache,
           (l.foldl (fun (s : State) (i : Nat) => s.setLine p row i
              { s.line p row i with LRU := (s.line p row i).LRU + 1 }) s).dCache, g'⟩ := by
  induction l with
  | nil => intro s g'; rfl
  | cons a l ih =>
    intro s g'
    simp only [List.foldl_cons, line_mk_g, setLine_mk_g]
    exact ih _ g'

theorem fixLRU_mk_g (r k : Nat) (p : CachePtr) (ci : CacheInfo) (s : State) (g' : Globals) :
    fixLRU r k p ci ⟨s.iCache, s.dCache, g'⟩
      = ⟨(fixLRU r k p ci s).iCache, (fixLRU r k p ci s).dCache, g'⟩ := by
  unfold fixLRU
  simp only [foldl_age_mk_g, line_mk_g, setLine_mk_g]

theorem state_eta (s : State) : s = ⟨s.iCache, s.dCache, s.g⟩ := rfl

theorem cache_set_set (c : Cache) (r k : Nat) (m m' : MetaData) :
    (c.set r ((c.getD r []).set k m)).set r
        (((c.set r ((c.getD r []).set k m)).getD r []).set k m')
      = c.set r ((c.getD r []).set k m') := by
  rw [List.set_set, getD_set_rows]
  by_cases h : r < c.length
  · simp [h, List.set_set]
  · rw [List.set_eq_of_length_le (Nat.le_of_not_lt h),
      List.set_eq_of_length_le (Nat.le_of_not_lt h)]

theorem setLine_setLine (s : State) (p : CachePtr) (r k : Nat) (m m' : MetaData) :
    (s.setLine p r k m).setLine p r k m' = s.setLine p r k m' := by
  cases p <;> simp only [State.setLine, State.setCache, State.cache, cache_set_set]

@[simp] theorem cache_mk_g (s : State) (g' : Globals) (q : CachePtr) :
    State.cache ⟨s.iCache, s.dCache, g'⟩ q = s.cache q := by
  cases q <;> rfl

theorem cache_countWriteMiss (cfg : Config) (s : State) (q : CachePtr) :
    (countWriteMiss cfg s).cache q = s.cache q := by
  rw [countWriteMiss_eq, cache_mk_g]

theorem line_of_cache {s s' : State} (h : ∀ q, s'.cache q = s.cache q) (p : CachePtr)
    (r i : Nat) : s'.line p r i = s.line p r i := by
  unfold State.line; rw [h]

theorem inb_of_cache {s s' : State} (h : ∀ q, s'.cache q = s.cache q) (p : CachePtr)
    (r i : Nat) : s'.inb p r i ↔ s.inb p r i := by
  unfold State.inb; rw [h]

theorem keeps_of_cache {s s' : State} (h : ∀ q, s'.cache q = s.cache q) (p : CachePtr)
    (r : Nat) : Keeps p r s s' :=
  ⟨⟨fun q r' i' => inb_of_cache h q r' i', fun q r' i' _ => line_of_cache h q r' i'⟩,
   fun i' => by rw [line_of_cache h]⟩

theorem fillOpenSpace_cache (cfg : Config) (r k n t : Nat) (s : State) (q : CachePtr) :
    (fillOpenSpace cfg r k n t s).cache q =
      (match cfg.dcache_info0.write_scheme, cfg.dcache_info0.allocate_scheme with
        | .WRITE_BACK, _ =>
          fixLRU r k .D cfg.dcache_info0
            (s.setLine .D r k ⟨t, 1, 1, (s.line .D r k).LRU⟩)
        | .WRITE_THROUGH, .NO_ALLOCATE => s
        | .WRITE_THROUGH, .ALLOCATE =>
          fixLRU r k .D cfg.dcache_info0
            (s.setLine .D r k ⟨t, 1, 0, (s.line .D r k).LRU⟩)).cache q := by
  unfold fillOpenSpace
  cases cfg.dcache_info0.write_scheme <;> cases cfg.dcache_info0.allocate_scheme <;>
    simp only []
  · rw [fixLRU_mk_g, cache_mk_g]
  · rw [fixLRU_mk_g, cache_mk_g]
  · split
    · simp only [line_mk_g, setLine_mk_g, fixLRU_mk_g, cache_mk_g]
    · simp only [line_mk_g, setLine_mk_g, fixLRU_mk_g, cache_mk_g]
  · rw [cache_countWriteMiss, cache_mk_g]

theorem performWrite_cache (cfg : Config) (r k : Nat) (s : State) (q : CachePtr) :
    (performWrite cfg r k s).cache q =
      (match cfg.dcache_info0.write_scheme with
        | .WRITE_THROUGH => s
        | .WRITE_BACK => s.setLine .D r k { s.line .D r k with dirty := 1 }).cache q := by
  unfold performWrite
  cases cfg.dcache_info0.write_scheme <;> simp only []
  rw [cache_mk_g]

theorem writeMem_cache (cfg : Config) (r k : Nat) (p : CachePtr) (ci : CacheInfo) (t : Nat)
    (s : State) (hin : s.inb p r k) (q : CachePtr) :
    (writeMem cfg r k p ci t s).cache q =
      (match ci.write_scheme, ci.allocate_scheme with
        | .WRITE_BACK, _ =>
          if (s.line p r k).dirty ≤ 1 then
            fixLRU r k p ci (s.setLine p r k ⟨t, 1, 1, (s.line p r k).LRU⟩)
          else s
        | .WRITE_THROUGH, .NO_ALLOCATE => s
        | .WRITE_THROUGH, .ALLOCATE =>
          fixLRU r k p ci (s.setLine p r k ⟨t, 1, 0, (s.line p r k).LRU⟩)).cache q := by
  have wb : ci.write_scheme = .WRITE_BACK → (writeMem cfg r k p ci t s).cache q =
      (if (s.line p r k).dirty ≤ 1 then
        fixLRU r k p ci (s.setLine p r k ⟨t, 1, 1, (s.line p r k).LRU⟩)
      else s).cache q := by
    intro hws
    unfold writeMem
    simp only [hws, cache_countWriteMiss, cache_mk_g]
    by_cases hd1 : (s.line p r k).dirty = 1
    · simp only [hd1, if_true, line_mk_g, setLine_mk_g, fixLRU_mk_g, cache_mk_g,
        line_setLine_row _ _ _ _ _ _ hin, setLine_setLine, le_refl]
    · by_cases hd0 : (s.line p r k).dirty = 0
      · simp only [hd0, zero_ne_one, if_false, if_true, Nat.zero_le]
      · have hle : ¬ (s.line p r k).dirty ≤ 1 := by omega
        simp only [hd1, hd0, hle, if_false]
  cases hws : ci.write_scheme
  · rw [wb hws]
  · unfold writeMem
    cases has : ci.allocate_scheme <;> simp only [hws]
    · rw [cache_countWriteMiss, cache_mk_g]
      split
      · simp only [line_mk_g, setLine_mk_g, fixLRU_mk_g, cache_mk_g]
      · rfl
    · rw [cache_countWriteMiss, cache_mk_g]

theorem writeMem_step (cfg : Config) (r k t : Nat) (s X : State)
    (hi : X.iCache = s.iCache) (hd : X.dCache = s.dCache)
    (hin : s.inb .D r k) (hk : k < cfg.dcache_info0.associativity)
    (hpre : ∀ i, i < k → (s.line .D r i).valid = 1) :
    Keeps .D r s (writeMem cfg r k .D cfg.dcache_info0 t X) ∨
    Installs cfg.dcache_info0 .D r t s (writeMem cfg r k .D cfg.dcache_info0 t X) := by
  have hinX : X.inb .D r k := (inb_congr hi hd .D r k).mpr hin
  have hc := writeMem_cache cfg r k .D cfg.dcache_info0 t X hinX
  have hXs : Keeps .D r s X := keeps_of_caches hi hd .D r
  have hinst : ∀ d, Installs cfg.dcache_info0 .D r t s
      (fixLRU r k .D cfg.dcache_info0 (X.setLine .D r k ⟨t, 1, d, (X.line .D r k).LRU⟩)) :=
    fun d => installs_write cfg.dcache_info0 .D r k t _ s X hi hd rfl hin hk hpre
  cases hws : cfg.dcache_info0.write_scheme <;> cases has : cfg.dcache_info0.allocate_scheme <;>
    simp only [hws, has] at hc
  · by_cases hle : (X.line .D r k).dirty ≤ 1
    · simp only [hle, if_true] at hc
      exact Or.inr (installs_of_installs_keeps (hinst 1) (keeps_of_cache hc .D r))
    · simp only [hle, if_false] at hc
      exact Or.inl (keeps_trans hXs (keeps_of_cache hc .D r))
  · by_cases hle : (X.line .D r k).dirty ≤ 1
    · simp only [hle, if_true] at hc
      exact Or.inr (installs_of_installs_keeps (hinst 1) (keeps_of_cache hc .D r))
    · simp only [hle, if_false] at hc
      exact Or.inl (keeps_trans hXs (keeps_of_cache hc .D r))
  · exact Or.inr (installs_of_installs_keeps (hinst 0) (keeps_of_cache hc .D r))
  · exact Or.inl (keeps_trans hXs (keeps_of_cache hc .D r))

/-- Every data write keeps the tags and valid flags of its row, or leaves the
wanted tag valid in it; nothing outside the row changes. -/
theorem dWrite_step (cfg : Config) (address rand : Nat) (s : State)
    (hwf : WellFormed cfg.dcache_info0 .D s)
    (hr : rowIndexOf cfg.dcache_info0 address
      < cfg.dcache_info0.num_blocks / cfg.dcache_info0.associativity)
    (ha : 1 ≤ cfg.dcache_info0.associativity) :
    Keeps .D (rowIndexOf cfg.dcache_info0 address) s (dWrite cfg address rand s) ∨
    Installs cfg.dcache_info0 .D (rowIndexOf cfg.dcache_info0 address)
      (tagOf cfg.dcache_info0 address) s (dWrite cfg address rand s) := by
  obtain ⟨hs, hb, hpk⟩ := hwf
  have hin : ∀ k, k < cfg.dcache_info0.associativity →
      s.inb .D (rowIndexOf cfg.dcache_info0 address) k :=
    fun k hk => (hs _ _).mpr ⟨hr, hk⟩
  refine dWrite_cases cfg address rand s
    (fun s' => Keeps .D (rowIndexOf cfg.dcache_info0 address) s s' ∨
      Installs cfg.dcache_info0 .D (rowIndexOf cfg.dcache_info0 address)
        (tagOf cfg.dcache_info0 address) s s')
    ?_ ?_ ?_ ?_ ?_ ?_ ?_
  · intro _ _
    exact Or.inl (writeHit_keeps cfg _ 0 s)
  · intro _ _ _
    exact writeMem_step cfg _ 0 _ s _ rfl rfl (hin 0 ha) ha (fun i hi => absurd hi (by omega))
  · intro i _ _ _ _
    exact Or.inl (writeHit_keeps cfg _ i s)
  · intro k _ _ _ _ ho
    obtain ⟨hk, -, hpre⟩ := isOpen_some ho
    exact fillOpenSpace_step cfg _ k _ _ s _ rfl rfl (hin k hk) hk
      (fun i hi => valid_eq_one_of_ne_zero hb (hpre i hi))
  · intro _ _ hne _ ho _
    have hall := isOpen_none ho
    have hk : rand % (cfg.dcache_info0.associativity - 1) < cfg.dcache_info0.associativity := by
      have : rand % (cfg.dcache_info0.associativity - 1) < cfg.dcache_info0.associativity - 1 :=
        Nat.mod_lt _ (by omega)
      omega
    exact writeMem_step cfg _ _ _ s _ rfl rfl (hin _ hk) hk
      (fun i hi => valid_eq_one_of_ne_zero hb (hall i (by omega)))
  · intro _ _ _ _ ho _
    have hall := isOpen_none ho
    have hk := lruScan_lt (rowIndexOf cfg.dcache_info0 address) .D cfg.dcache_info0
      (countWrite s) ha
    exact writeMem_step cfg _ _ _ s _ rfl rfl (hin _ hk) hk
      (fun i hi => valid_eq_one_of_ne_zero hb (hall i (by omega)))
  · intro _
    exact fillOpenSpace_step cfg _ 0 _ _ s _ rfl rfl (hin 0 ha) ha
      (fun i hi => absurd hi (by omega))


/-! ## Well-formedness of the arrays along a run -/

theorem wellFormed_of_keeps {ci : CacheInfo} {p q : CachePtr} {r : Nat} {s s' : State}
    (hwf : WellFormed ci q s) (h : Keeps p r s s') : WellFormed ci q s' := by
  obtain ⟨hs, hb, hpk⟩ := hwf
  have hv : ∀ r' i', (s'.line q r' i').valid = (s.line q r' i').valid := by
    intro r' i'
    by_cases hne : q ≠ p ∨ r' ≠ r
    · rw [h.1.2 q r' i' hne]
    · have hq : q = p := by by_contra hc; exact hne (Or.inl hc)
      have hr' : r' = r := by by_contra hc; exact hne (Or.inr hc)
      subst hq; subst hr'
      exact keeps_valid h i'
  refine ⟨fun r' i' => (h.1.1 q r' i').trans (hs r' i'), fun r' i' => ?_, fun r' i j hij hj => ?_⟩
  · rw [hv]; exact hb r' i'
  · rw [hv] at hj ⊢; exact hpk r' i j hij hj

theorem wellFormed_of_installs {ci : CacheInfo} {p : CachePtr} {r t : Nat} {s s' : State}
    (hwf : WellFormed ci p s) (h : Installs ci p r t s s') : WellFormed ci p s' := by
  obtain ⟨hs, hb, hpk⟩ := hwf
  obtain ⟨hf, k, hk, hpre, htv⟩ := h
  have hv : ∀ r' i', (s'.line p r' i').valid =
      if r' = r ∧ i' = k then 1 else (s.line p r' i').valid := by
    intro r' i'
    by_cases hr' : r' = r
    · subst hr'
      have := htv i'
      by_cases hi' : i' = k
      · simp only [hi', if_true, MetaData.tv, Prod.mk.injEq] at this
        simp [hi', this.2]
      · simp only [hi', if_false, MetaData.tv, Prod.mk.injEq] at this
        simp [hi', this.2]
    · rw [hf.2 p r' i' (Or.inr hr')]
      simp [hr']
  refine ⟨fun r' i' => (hf.1 p r' i').trans (hs r' i'), fun r' i' => ?_, fun r' i j hij hj => ?_⟩
  · rw [hv]
    split
    · exact le_refl _
    · exact hb r' i'
  · rw [hv] at hj ⊢
    by_cases hi : r' = r ∧ i = k
    · simp [hi]
    · simp only [hi, if_false]
      by_cases hjk : r' = r ∧ j = k
      · obtain ⟨h1, h2⟩ := hjk
        subst h1; subst h2
        have : i < j := by
          rcases Nat.lt_or_ge i j with h | h
          · exact h
          · exact absurd ⟨rfl, by omega⟩ hi
        exact hpre i this
      · simp only [hjk, if_false] at hj
        exact hpk r' i j hij hj

theorem wellFormed_of_frame {ci : CacheInfo} {p q : CachePtr} {r : Nat} {s s' : State}
    (hwf : WellFormed ci q s) (hne : q ≠ p) (h : FrameOutside p r s s') :
    WellFormed ci q s' := by
  obtain ⟨hs, hb, hpk⟩ := hwf
  have hl : ∀ r' i', s'.line q r' i' = s.line q r' i' := fun r' i' => h.2 q r' i' (Or.inl hne)
  refine ⟨fun r' i' => (h.1 q r' i').trans (hs r' i'), fun r' i' => ?_, fun r' i j hij hj => ?_⟩
  · rw [hl]; exact hb r' i'
  · rw [hl] at hj ⊢; exact hpk r' i j hij hj

theorem foldl_invariant {ι : Type} (P : State → Prop) (f : State → ι → State)
    (h : ∀ s i, P s → P (f s i)) (l : List ι) : ∀ s, P s → P (l.foldl f s) := by
  induction l with
  | nil => intro s hs; exact hs
  | cons a l ih => intro s hs; exact ih _ (h s a hs)

theorem setUpVariables_lines (a : CachePtr) (ci : CacheInfo) (s : State) :
    (∀ q r i, (setUpVariables a ci s).inb q r i ↔ s.inb q r i) ∧
    (∀ q r i, (setUpVariables a ci s).line q r i = s.line q r i ∨
      (setUpVariables a ci s).line q r i = ⟨0, 0, 0, 0⟩) := by
  unfold setUpVariables
  simp only []
  refine foldl_invariant
    (fun s' => (∀ q r i, s'.inb q r i ↔ s.inb q r i) ∧
      (∀ q r i, s'.line q r i = s.line q r i ∨ s'.line q r i = ⟨0, 0, 0, 0⟩)) _ ?_ _ _ ?_
  · intro s1 j h1
    refine foldl_invariant
      (fun s' => (∀ q r i, s'.inb q r i ↔ s.inb q r i) ∧
        (∀ q r i, s'.line q r i = s.line q r i ∨ s'.line q r i = ⟨0, 0, 0, 0⟩)) _ ?_ _ _ h1
    intro s2 i h2
    refine ⟨fun q r i' => (inb_setLine _ _ _ _ _ _ _ _).trans (h2.1 q r i'), fun q r i' => ?_⟩
    rw [line_setLine]
    split
    · exact Or.inr rfl
    · exact h2.2 q r i'
  · exact ⟨fun q r i => inb_mk_g s _ q r i, fun q r i => Or.inl (line_mk_g s _ q r i)⟩

theorem callocCache_getD (n a r : Nat) :
    (callocCache n a).getD r [] = if r < n then List.replicate a ⟨0, 0, 0, 0⟩ else [] := by
  unfold callocCache
  rw [List.getD_eq_getElem?_getD, List.getElem?_replicate]
  split <;> rfl

theorem callocCache_line (n a r i : Nat) :
    ((callocCache n a).getD r []).getD i default = (⟨0, 0, 0, 0⟩ : MetaData) := by
  rw [callocCache_getD]
  split
  · rw [List.getD_eq_getElem?_getD, List.getElem?_replicate]
    split <;> rfl
  · rfl

theorem callocCache_inb (n a r i : Nat) :
    (r < (callocCache n a).length ∧ i < ((callocCache n a).getD r []).length) ↔
      (r < n ∧ i < a) := by
  rw [callocCache_getD]
  unfold callocCache
  simp only [List.length_replicate]
  constructor
  · rintro ⟨h1, h2⟩
    rw [if_pos h1, List.length_replicate] at h2
    exact ⟨h1, h2⟩
  · rintro ⟨h1, h2⟩
    refine ⟨h1, ?_⟩
    rw [if_pos h1, List.length_replicate]
    exact h2

theorem setup_caches_lines (cfg : Config) :
    (∀ q r i, (setup_caches cfg).line q r i = ⟨0, 0, 0, 0⟩) ∧
    (∀ q r i, (setup_caches cfg).inb q r i ↔
      r < (cfg.info q).num_blocks / (cfg.info q).associativity ∧
      i < (cfg.info q).associativity) := by
  -- the state after the instruction cache is allocated and cleared
  have h1 := setUpVariables_lines .I cfg.icache_info
    (State.mk (callocCache (cfg.icache_info.num_blocks / cfg.icache_info.associativity)
      cfg.icache_info.associativity) [] Globals.zero)
  generalize hS2 : setUpVariables .I cfg.icache_info
    (State.mk (callocCache (cfg.icache_info.num_blocks / cfg.icache_info.associativity)
      cfg.icache_info.associativity) [] Globals.zero) = S2 at h1
  have hl1 : ∀ q r i, S2.line q r i = ⟨0, 0, 0, 0⟩ := by
    intro q r i
    rcases h1.2 q r i with h | h
    · rw [h]
      cases q
      · exact callocCache_line _ _ r i
      · rfl
    · exact h
  have hb1 : ∀ r i, S2.inb .I r i ↔
      r < cfg.icache_info.num_blocks / cfg.icache_info.associativity ∧
      i < cfg.icache_info.associativity :=
    fun r i => (h1.1 .I r i).trans (callocCache_inb _ _ r i)
  have hbD1 : ∀ r i, ¬ S2.inb .D r i := by
    intro r i h
    have := (h1.1 .D r i).mp h
    exact absurd this.1 (Nat.not_lt_zero _)
  unfold setup_caches
  simp only [hS2]
  by_cases hd : cfg.dcache_info0.associativity > 0
  · simp only [hd, if_true]
    have h2 := setUpVariables_lines .D cfg.dcache_info0
      (State.mk S2.iCache
        (callocCache (cfg.dcache_info0.num_blocks / cfg.dcache_info0.associativity)
          cfg.dcache_info0.associativity) { S2.g with dallocate := 1 })
    refine ⟨fun q r i => ?_, fun q r i => ?_⟩
    · rcases h2.2 q r i with h | h
      · rw [h]
        cases q
        · exact hl1 .I r i
        · exact callocCache_line _ _ r i
      · exact h
    · rw [h2.1 q r i]
      cases q
      · exact hb1 r i
      · exact callocCache_inb _ _ r i
  · simp only [hd, if_false]
    have hz : cfg.dcache_info0.associativity = 0 := by omega
    refine ⟨fun q r i => ?_, fun q r i => ?_⟩
    · rw [line_mk_g]; exact hl1 q r i
    · rw [inb_mk_g]
      cases q
      · exact hb1 r i
      · simp only [Config.info, hz]
        constructor
        · intro h; exact absurd h (hbD1 r i)
        · intro h; exact absurd h.2 (Nat.not_lt_zero _)

theorem stateInv_setup (cfg : Config) : StateInv cfg (setup_caches cfg) := by
  obtain ⟨hl, hb⟩ := setup_caches_lines cfg
  refine ⟨⟨fun r i => hb .I r i, fun r i => ?_, fun r i j _ hj => ?_⟩,
    ⟨fun r i => hb .D r i, fun r i => ?_, fun r i j _ hj => ?_⟩, ?_⟩
  · rw [hl]; exact Nat.zero_le _
  · rw [hl] at hj; exact absurd hj (by decide)
  · rw [hl]; exact Nat.zero_le _
  · rw [hl] at hj; exact absurd hj (by decide)
  · rw [setup_caches_g]

theorem readEffect_dallocate {ci : CacheInfo} {w : Nat} {g g' : Globals}
    (e : ReadEffect ci w g g') : g'.dallocate = g.dallocate := by
  obtain ⟨_, _, _, _, _, -, -, -, -, rfl⟩ := e
  split <;> rfl

theorem writeEffect_dallocate {ci : CacheInfo} {g g' : Globals}
    (e : WriteEffect ci g g') : g'.dallocate = g.dallocate := by
  obtain ⟨_, _, _, _, _, _, -, -, -, rfl⟩ := e
  rfl

theorem stateInv_step (cfg : Config) (hv : cfg.Valid) (s : State) (a : Access)
    (h : StateInv cfg s) : StateInv cfg (handle_access cfg a.type a.address a.rand s) := by
  obtain ⟨hI, hD, hda⟩ := h
  obtain ⟨⟨haI, -, kI, hkI⟩, hvD⟩ := hv
  cases hty : a.type <;> simp only [handle_access]
  · have hi := cacheAccess_installs a.address .I cfg.icache_info 1 a.rand s hI.1 hI.2.1
      (rowIndexOf_lt _ _ kI hkI) haI
    refine ⟨wellFormed_of_installs hI hi, wellFormed_of_frame hD (by decide) hi.1, ?_⟩
    rw [readEffect_dallocate (cacheAccess_g _ _ _ _ _ _), hda]
  · split
    · rename_i hne
      have hpos : cfg.dcache_info0.associativity > 0 := by
        by_contra hc
        rw [hda, if_neg hc] at hne
        exact hne rfl
      rcases hvD with h0 | ⟨haD, -, kD, hkD⟩
      · omega
      · have hi := cacheAccess_installs a.address .D cfg.dcache_info0 0 a.rand s hD.1 hD.2.1
          (rowIndexOf_lt _ _ kD hkD) haD
        refine ⟨wellFormed_of_frame hI (by decide) hi.1, wellFormed_of_installs hD hi, ?_⟩
        rw [readEffect_dallocate (cacheAccess_g _ _ _ _ _ _), hda]
    · exact ⟨hI, hD, hda⟩
  · split
    · rename_i hne
      have hpos : cfg.dcache_info0.associativity > 0 := by
        by_contra hc
        rw [hda, if_neg hc] at hne
        exact hne rfl
      rcases hvD with h0 | ⟨haD, -, kD, hkD⟩
      · omega
      · have hst := dWrite_step cfg a.address a.rand s hD (rowIndexOf_lt _ _ kD hkD) haD
        have hg : (dWrite cfg a.address a.rand s).g.dallocate = s.g.dallocate :=
          writeEffect_dallocate (dWrite_g _ _ _ _)
        rcases hst with hk | hi
        · exact ⟨wellFormed_of_keeps hI hk, wellFormed_of_keeps hD hk, by rw [hg, hda]⟩
        · exact ⟨wellFormed_of_frame hI (by decide) hi.1, wellFormed_of_installs hD hi,
            by rw [hg, hda]⟩
    · exact ⟨hI, hD, hda⟩

theorem stateInv_simulate (cfg : Config) (hv : cfg.Valid) (trace : List Access) :
    StateInv cfg (simulate cfg trace) :=
  run_induction cfg (StateInv cfg) (fun s a h => stateInv_step cfg hv s a h) trace _
    (stateInv_setup cfg)

/-! ## Presence of a tag and hits -/

theorem present_of_installs {ci : CacheInfo} {p : CachePtr} {r t : Nat} {s s' : State}
    (h : Installs ci p r t s s') : Present ci p r t s' := by
  obtain ⟨-, k, hk, -, htv⟩ := h
  have := htv k
  simp only [if_true, MetaData.tv, Prod.mk.injEq] at this
  exact ⟨k, hk, this.2, this.1⟩

theorem present_of_frame {ci : CacheInfo} {p q : CachePtr} {r r2 t : Nat} {s s' : State}
    (h : FrameOutside q r2 s s') (hne : p ≠ q ∨ r ≠ r2) (hp : Present ci p r t s) :
    Present ci p r t s' := by
  obtain ⟨i, hi, hv, ht⟩ := hp
  exact ⟨i, hi, by rw [h.2 p r i hne]; exact hv, by rw [h.2 p r i hne]; exact ht⟩

theorem present_of_keeps {ci : CacheInfo} {p q : CachePtr} {r r2 t : Nat} {s s' : State}
    (h : Keeps q r2 s s') (hp : Present ci p r t s) : Present ci p r t s' := by
  by_cases hne : p ≠ q ∨ r ≠ r2
  · exact present_of_frame h.1 hne hp
  · have hq : p = q := by by_contra hc; exact hne (Or.inl hc)
    have hr : r = r2 := by by_contra hc; exact hne (Or.inr hc)
    subst hq; subst hr
    obtain ⟨i, hi, hv, ht⟩ := hp
    have := h.2 i
    simp only [MetaData.tv, Prod.mk.injEq] at this
    exact ⟨i, hi, by rw [this.2]; exact hv, by rw [this.1]; exact ht⟩

theorem present_of_installs_other {ci ci2 : CacheInfo} {p q : CachePtr} {r r2 t t2 : Nat}
    {s s' : State} (h : Installs ci2 q r2 t2 s s')
    (hok : p = q → r = r2 → t2 = t ∧ ci2 = ci) (hp : Present ci p r t s) :
    Present ci p r t s' := by
  by_cases hne : p ≠ q ∨ r ≠ r2
  · exact present_of_frame h.1 hne hp
  · have hq : p = q := by by_contra hc; exact hne (Or.inl hc)
    have hr : r = r2 := by by_contra hc; exact hne (Or.inr hc)
    obtain ⟨ht, hci⟩ := hok hq hr
    subst hq; subst hr; subst ht; subst hci
    exact present_of_installs h

/-- A read of a tag that is valid in its row is counted as a hit. -/
theorem cacheAccess_hit_g (address : Nat) (p : CachePtr) (ci : CacheInfo) (w rand : Nat)
    (s : State) (hwf : WellFormed ci p s)
    (hp : Present ci p (rowIndexOf ci address) (tagOf ci address) s) :
    (cacheAccess address p ci w rand s).g = (countHit w (countRead w s)).g := by
  obtain ⟨-, hb, hpk⟩ := hwf
  obtain ⟨j, hj, hjv, hjt⟩ := hp
  have h0v : (s.line p (rowIndexOf ci address) 0).valid = 1 :=
    hpk _ 0 j (Nat.zero_le _) hjv
  refine cacheAccess_cases address p ci w rand s
    (fun s' => s'.g = (countHit w (countRead w s)).g) ?_ ?_ ?_ ?_ ?_ ?_ ?_
  · intro h0
    rw [h0] at h0v
    exact absurd h0v (by decide)
  · intro _ _
    rw [fixLRU_g]
  · intro _ hne ha
    have : j = 0 := by omega
    subst this
    exact absurd hjt hne
  · intro i _ _ _ _ _
    unfold countHit
    split <;> simp
  · intro i _ _ _ hsc hv
    obtain ⟨-, -, hpre⟩ := scanRead_some hsc
    have hij : i ≤ j := by
      by_contra hc
      exact (hpre j (by omega)).2 ⟨hjv, hjt⟩
    exact absurd (hpk _ i j hij hjv) hv
  · intro _ _ _ hsc _
    exact absurd ⟨hjv, hjt⟩ (scanRead_none hsc j hj).2
  · intro _ _ _ hsc _
    exact absurd ⟨hjv, hjt⟩ (scanRead_none hsc j hj).2

theorem dallocate_pos_of_inv {cfg : Config} {s : State} (h : StateInv cfg s)
    (hne : s.g.dallocate ≠ 0) : cfg.dcache_info0.associativity > 0 := by
  by_contra hc
  rw [h.2.2, if_neg hc] at hne
  exact hne rfl

theorem dValid_of_pos {cfg : Config} (hv : cfg.Valid)
    (hpos : cfg.dcache_info0.associativity > 0) : cfg.dcache_info0.Valid := by
  rcases hv.2 with h | h
  · omega
  · exact h

theorem rowIndexOf_lt_of_valid {ci : CacheInfo} (h : ci.Valid) (address : Nat) :
    rowIndexOf ci address < ci.num_blocks / ci.associativity := by
  obtain ⟨-, -, k, hk⟩ := h
  exact rowIndexOf_lt ci address k hk

/-- One access keeps a tag valid in its row unless it goes to the same cache
and row with another tag. -/
theorem present_step (cfg : Config) (hv : cfg.Valid) (s : State) (x : Access)
    (hinv : StateInv cfg s) (p : CachePtr) (r t : Nat)
    (hp : Present (cfg.info p) p r t s)
    (hx : x.type.ptr = p → rowIndexOf (cfg.info p) x.address = r →
      tagOf (cfg.info p) x.address = t) :
    Present (cfg.info p) p r t (handle_access cfg x.type x.address x.rand s) := by
  obtain ⟨hI, hD, hda⟩ := hinv
  cases hty : x.type <;> rw [hty] at hx <;> simp only [handle_access]
  · have hi := cacheAccess_installs x.address .I cfg.icache_info 1 x.rand s hI.1 hI.2.1
      (rowIndexOf_lt_of_valid hv.1 _) hv.1.1
    refine present_of_installs_other hi (fun hq hr => ?_) hp
    subst hq
    exact ⟨hx rfl hr.symm, rfl⟩
  · split
    · rename_i hne
      have hvD := dValid_of_pos hv (dallocate_pos_of_inv ⟨hI, hD, hda⟩ hne)
      have hi := cacheAccess_installs x.address .D cfg.dcache_info0 0 x.rand s hD.1 hD.2.1
        (rowIndexOf_lt_of_valid hvD _) hvD.1
      refine present_of_installs_other hi (fun hq hr => ?_) hp
      subst hq
      exact ⟨hx rfl hr.symm, rfl⟩
    · exact hp
  · split
    · rename_i hne
      have hvD := dValid_of_pos hv (dallocate_pos_of_inv ⟨hI, hD, hda⟩ hne)
      rcases dWrite_step cfg x.address x.rand s hD (rowIndexOf_lt_of_valid hvD _) hvD.1
        with hk | hi
      · exact present_of_keeps hk hp
      · refine present_of_installs_other hi (fun hq hr => ?_) hp
        subst hq
        exact ⟨hx rfl hr.symm, rfl⟩
    · exact hp

theorem present_run (cfg : Config) (hv : cfg.Valid) (p : CachePtr) (r t : Nat)
    (mid : List Access) :
    ∀ s, StateInv cfg s → Present (cfg.info p) p r t s →
      (∀ x ∈ mid, x.type.ptr = p → rowIndexOf (cfg.info p) x.address = r →
        tagOf (cfg.info p) x.address = t) →
      StateInv cfg (run cfg s mid) ∧ Present (cfg.info p) p r t (run cfg s mid) := by
  induction mid with
  | nil => intro s hinv hp _; exact ⟨hinv, hp⟩
  | cons x mid ih =>
    intro s hinv hp hmid
    exact ih _ (stateInv_step cfg hv s x hinv)
      (present_step cfg hv s x hinv p r t hp (hmid x (List.mem_cons_self _ _)))
      (fun y hy => hmid y (List.mem_cons_of_mem _ hy))

/-- A read through `handle_access` is `cacheAccess` on the cache it reads,
provided that cache is configured. -/
theorem handle_access_read (cfg : Config) (p : CachePtr) (a r : Nat) (s : State)
    (hinv : StateInv cfg s) (hpos : 1 ≤ (cfg.info p).associativity) :
    handle_access cfg (readType p) a r s
      = cacheAccess a p (cfg.info p) (match p with | .I => 1 | .D => 0) r s := by
  cases p
  · rfl
  · simp only [readType, handle_access, Config.info]
    have : s.g.dallocate ≠ 0 := by
      rw [hinv.2.2]
      simp only [Config.info] at hpos
      have : cfg.dcache_info0.associativity > 0 := hpos
      simp [this]
    simp [this]

/-! ## The arrays keep their shape -/

theorem inb_countRead (w : Nat) (s : State) (q : CachePtr) (r i : Nat) :
    (countRead w s).inb q r i ↔ s.inb q r i := by rw [countRead_eq, inb_mk_g]

theorem inb_countHit (w : Nat) (s : State) (q : CachePtr) (r i : Nat) :
    (countHit w s).inb q r i ↔ s.inb q r i := by rw [countHit_eq, inb_mk_g]

theorem inb_countCompul (w : Nat) (s : State) (q : CachePtr) (r i : Nat) :
    (countCompul w s).inb q r i ↔ s.inb q r i := by rw [countCompul_eq, inb_mk_g]

theorem inb_countConflict (w : Nat) (s : State) (q : CachePtr) (r i : Nat) :
    (countConflict w s).inb q r i ↔ s.inb q r i := by rw [countConflict_eq, inb_mk_g]

theorem inb_countCapacity (w : Nat) (s : State) (q : CachePtr) (r i : Nat) :
    (countCapacity w s).inb q r i ↔ s.inb q r i := by rw [countCapacity_eq, inb_mk_g]

theorem ranReplace_inb (r : Nat) (p : CachePtr) (ci : CacheInfo) (t rand : Nat) (s : State)
    (q : CachePtr) (r' i' : Nat) :
    (ranReplace r p ci t rand s).2.inb q r' i' ↔ s.inb q r' i' := by
  unfold ranReplace
  simp only [fixLRU_inb, inb_setLine]
  split
  · exact inb_mk_g s _ q r' i'
  · exact Iff.rfl

theorem lruReplace_inb (r : Nat) (p : CachePtr) (ci : CacheInfo) (t : Nat) (s : State)
    (q : CachePtr) (r' i' : Nat) :
    (lruReplace r p ci t s).2.inb q r' i' ↔ s.inb q r' i' := by
  unfold lruReplace
  simp only [fixLRU_inb, inb_setLine]
  split
  · exact inb_mk_g s _ q r' i'
  · exact Iff.rfl

theorem cacheAccess_inb (address : Nat) (p : CachePtr) (ci : CacheInfo) (w rand : Nat)
    (s : State) (q : CachePtr) (r' i' : Nat) :
    (cacheAccess address p ci w rand s).inb q r' i' ↔ s.inb q r' i' := by
  refine cacheAccess_cases address p ci w rand s
    (fun s' => s'.inb q r' i' ↔ s.inb q r' i') ?_ ?_ ?_ ?_ ?_ ?_ ?_
  · intro _
    simp only [fixLRU_inb, inb_setLine, inb_countCompul, inb_countRead]
  · intro _ _
    simp only [fixLRU_inb, inb_countHit, inb_countRead]
  · intro _ _ _
    simp only [inb_setLine, inb_countConflict, inb_countRead]
  · intro i _ _ _ _ _
    simp only [fixLRU_inb, inb_countHit, inb_countRead]
  · intro i _ _ _ _ _
    simp only [fixLRU_inb, inb_setLine, inb_countCompul, inb_countRead]
  · intro _ _ _ _ _
    simp only [ranReplace_inb, inb_countCapacity, inb_countRead]
  · intro _ _ _ _ _
    simp only [lruReplace_inb, inb_countCapacity, inb_countRead]

theorem performWrite_inb (cfg : Config) (r k : Nat) (s : State) (q : CachePtr)
    (r' i' : Nat) : (performWrite cfg r k s).inb q r' i' ↔ s.inb q r' i' := by
  unfold performWrite
  cases cfg.dcache_info0.write_scheme
  · exact inb_setLine _ _ _ _ _ _ _ _
  · exact inb_mk_g s _ q r' i'

theorem fillOpenSpace_inb (cfg : Config) (r k n t : Nat) (s : State) (q : CachePtr)
    (r' i' : Nat) : (fillOpenSpace cfg r k n t s).inb q r' i' ↔ s.inb q r' i' := by
  rw [inb_of_cache (fillOpenSpace_cache cfg r k n t s)]
  cases cfg.dcache_info0.write_scheme <;> cases cfg.dcache_info0.allocate_scheme
  · exact (fixLRU_inb _ _ _ _ _ _ _ _).trans (inb_setLine _ _ _ _ _ _ _ _)
  · exact (fixLRU_inb _ _ _ _ _ _ _ _).trans (inb_setLine _ _ _ _ _ _ _ _)
  · exact (fixLRU_inb _ _ _ _ _ _ _ _).trans (inb_setLine _ _ _ _ _ _ _ _)
  · exact Iff.rfl

theorem writeMem_inb (cfg : Config) (r k : Nat) (p : CachePtr) (ci : CacheInfo) (t : Nat)
    (s : State) (q : CachePtr) (r' i' : Nat) :
    (writeMem cfg r k p ci t s).inb q r' i' ↔ s.inb q r' i' := by
  unfold writeMem
  cases ci.write_scheme <;> cases ci.allocate_scheme <;>
    simp only [inb_countWriteMiss, inb_mk_g] <;>
    split_ifs <;>
    simp only [fixLRU_inb, inb_setLine, inb_mk_g]

theorem dWrite_inb (cfg : Config) (address rand : Nat) (s : State) (q : CachePtr)
    (r' i' : Nat) : (dWrite cfg address rand s).inb q r' i' ↔ s.inb q r' i' := by
  have hX : ∀ q r' i', (countWrite s).inb q r' i' ↔ s.inb q r' i' :=
    fun q r' i' => inb_mk_g s _ q r' i'
  have hY : ∀ q r' i', (countWHit (countWrite s)).inb q r' i' ↔ s.inb q r' i' :=
    fun q r' i' => inb_mk_g s _ q r' i'
  refine dWrite_cases cfg address rand s
    (fun s' => s'.inb q r' i' ↔ s.inb q r' i') ?_ ?_ ?_ ?_ ?_ ?_ ?_
  · intro _ _; simp only [fixLRU_inb, performWrite_inb, hY]
  · intro _ _ _; simp only [writeMem_inb, hX]
  · intro i _ _ _ _; simp only [fixLRU_inb, performWrite_inb, hY]
  · intro k _ _ _ _ _; simp only [fillOpenSpace_inb, hX]
  · intro _ _ _ _ _ _; simp only [ranReplaceD, writeMem_inb, hX]
  · intro _ _ _ _ _ _; simp only [lruReplaceD, writeMem_inb, hX]
  · intro _; simp only [fillOpenSpace_inb, hX]

theorem handle_access_inb (cfg : Config) (x : Access) (s : State) (q : CachePtr)
    (r' i' : Nat) :
    (handle_access cfg x.type x.address x.rand s).inb q r' i' ↔ s.inb q r' i' := by
  cases x.type <;> simp only [handle_access]
  · exact cacheAccess_inb _ _ _ _ _ _ _ _ _
  · split
    · exact cacheAccess_inb _ _ _ _ _ _ _ _ _
    · exact Iff.rfl
  · split
    · exact dWrite_inb _ _ _ _ _ _ _
    · exact Iff.rfl

theorem shaped_simulate (cfg : Config) (trace : List Access) (q : CachePtr) :
    Shaped (cfg.info q) q (simulate cfg trace) := by
  refine run_induction cfg (fun s => Shaped (cfg.info q) q s) ?_ trace _ ?_
  · intro s a h r i
    exact (handle_access_inb cfg a s q r i).trans (h r i)
  · exact fun r i => (setup_caches_lines cfg).2 q r i

/-! ## Write-through, no-allocate writes -/

theorem dWrite_wHits_of_not_present (cfg : Config) (address rand : Nat) (s : State)
    (ha : 1 ≤ cfg.dcache_info0.associativity)
    (h : ¬ Present cfg.dcache_info0 .D (rowIndexOf cfg.dcache_info0 address)
      (tagOf cfg.dcache_info0 address) s) :
    (dWrite cfg address rand s).g.wHits = s.g.wHits := by
  refine dWrite_cases cfg address rand s (fun s' => s'.g.wHits = s.g.wHits)
    ?_ ?_ ?_ ?_ ?_ ?_ ?_
  · intro hv ht
    exact absurd ⟨0, ha, hv, ht⟩ h
  · intro _ _ _
    rw [writeMem_g]; rfl
  · intro i _ _ _ hsc
    obtain ⟨-, hi, hv, ht⟩ := scanWrite_some hsc
    exact absurd ⟨i, hi, hv, ht⟩ h
  · intro k _ _ _ _ _
    rw [fillOpenSpace_g]; rfl
  · intro _ _ _ _ _ _
    simp only [ranReplaceD]
    rw [writeMem_g]; rfl
  · intro _ _ _ _ _ _
    simp only [lruReplaceD]
    rw [writeMem_g]; rfl
  · intro _
    rw [fillOpenSpace_g]; rfl

/-- Under write-through with no-allocate a data write is either counted as a
hit, or it changes no cache array and adds one word of write traffic. -/
theorem dWrite_write_through_no_allocate (cfg : Config) (address rand : Nat) (s : State)
    (hwt : cfg.dcache_info0.write_scheme = .WRITE_THROUGH)
    (hna : cfg.dcache_info0.allocate_scheme = .NO_ALLOCATE) :
    (dWrite cfg address rand s).g.wHits = s.g.wHits + 1 ∨
    ((dWrite cfg address rand s).iCache = s.iCache ∧
      (dWrite cfg address rand s).dCache = s.dCache ∧
      (dWrite cfg address rand s).g.numWordsWritten = s.g.numWordsWritten + 1) := by
  have hfill : ∀ k, (fillOpenSpace cfg (rowIndexOf cfg.dcache_info0 address) k
      cfg.dcache_info0.words_per_block (tagOf cfg.dcache_info0 address) (countWrite s)).iCache
        = s.iCache ∧
      (fillOpenSpace cfg (rowIndexOf cfg.dcache_info0 address) k
        cfg.dcache_info0.words_per_block (tagOf cfg.dcache_info0 address) (countWrite s)).dCache
        = s.dCache ∧
      (fillOpenSpace cfg (rowIndexOf cfg.dcache_info0 address) k
        cfg.dcache_info0.words_per_block (tagOf cfg.dcache_info0 address)
        (countWrite s)).g.numWordsWritten = s.g.numWordsWritten + 1 := by
    intro k
    refine ⟨?_, ?_, ?_⟩
    · unfold fillOpenSpace; simp only [hwt, hna, iCache_countWriteMiss]; rfl
    · unfold fillOpenSpace; simp only [hwt, hna, dCache_countWriteMiss]; rfl
    · rw [fillOpenSpace_g]; simp only [hwt]; rfl
  have hmem : ∀ k, (writeMem cfg (rowIndexOf cfg.dcache_info0 address) k .D cfg.dcache_info0
      (tagOf cfg.dcache_info0 address) (countWrite s)).iCache = s.iCache ∧
      (writeMem cfg (rowIndexOf cfg.dcache_info0 address) k .D cfg.dcache_info0
        (tagOf cfg.dcache_info0 address) (countWrite s)).dCache = s.dCache ∧
      (writeMem cfg (rowIndexOf cfg.dcache_info0 address) k .D cfg.dcache_info0
        (tagOf cfg.dcache_info0 address) (countWrite s)).g.numWordsWritten
        = s.g.numWordsWritten + 1 := by
    intro k
    refine ⟨?_, ?_, ?_⟩
    · unfold writeMem; simp only [hwt, hna, iCache_countWriteMiss]; rfl
    · unfold writeMem; simp only [hwt, hna, dCache_countWriteMiss]; rfl
    · rw [writeMem_g]; simp only [hwt]; rfl
  refine dWrite_cases cfg address rand s
    (fun s' => s'.g.wHits = s.g.wHits + 1 ∨
      (s'.iCache = s.iCache ∧ s'.dCache = s.dCache ∧
        s'.g.numWordsWritten = s.g.numWordsWritten + 1))
    ?_ ?_ ?_ ?_ ?_ ?_ ?_
  · intro _ _
    left
    rw [fixLRU_g, performWrite_g]; rfl
  · intro _ _ _; exact Or.inr (hmem 0)
  · intro i _ _ _ _
    left
    rw [fixLRU_g, performWrite_g]; rfl
  · intro k _ _ _ _ _; exact Or.inr (hfill k)
  · intro _ _ _ _ _ _; exact Or.inr (hmem _)
  · intro _ _ _ _ _ _; exact Or.inr (hmem _)
  · intro _; exact Or.inr (hfill 0)

/-! ## Verified properties of the simulator -/

/-- C1. After every call of `handle_access` in a run that starts from the
state built by `setup_caches` (every prefix `trace.take n` of every trace),
the three balances hold: `numReads = readHits + compul + conflict + capacity`
for the instruction cache, the same for data reads, and
`numWrites = wHits + compulW + conflictW + capacityW` for data writes. It
holds for every configuration, in particular for associativity at least 1. -/
theorem balances_hold_after_every_access (cfg : Config) (trace : List Access) (n : Nat) :
    (simulate cfg (trace.take n)).g.numReads
      = (simulate cfg (trace.take n)).g.readHits + (simulate cfg (trace.take n)).g.compul
        + (simulate cfg (trace.take n)).g.conflict + (simulate cfg (trace.take n)).g.capacity ∧
    (simulate cfg (trace.take n)).g.numReadsD
      = (simulate cfg (trace.take n)).g.readHitsD + (simulate cfg (trace.take n)).g.compulD
        + (simulate cfg (trace.take n)).g.conflictD
        + (simulate cfg (trace.take n)).g.capacityD ∧
    (simulate cfg (trace.take n)).g.numWrites
      = (simulate cfg (trace.take n)).g.wHits + (simulate cfg (trace.take n)).g.compulW
        + (simulate cfg (trace.take n)).g.conflictW
        + (simulate cfg (trace.take n)).g.capacityW :=
  (counterInv_simulate cfg (trace.take n)).1

/-- C2. When the row count `num_blocks / associativity` of a cache is a power
of two, the set index `rowIndex = (address >> (wordBit+2)) & ((1 << rowBit) - 1)`
computed by `cacheAccess` and `dWrite` is below the row count for every
address, and in every state of every run it is below the length of the
cache array, so `cache[rowIndex]` is in bounds (the power-of-two word count
is not needed for this). -/
theorem rowIndex_in_bounds (cfg : Config) (p : CachePtr) (address : Nat)
    (trace : List Access)
    (hr : ∃ k, (cfg.info p).num_blocks / (cfg.info p).associativity = 2 ^ k) :
    rowIndexOf (cfg.info p) address
      < (cfg.info p).num_blocks / (cfg.info p).associativity ∧
    rowIndexOf (cfg.info p) address < ((simulate cfg trace).cache p).length := by
  obtain ⟨k, hk⟩ := hr
  have hlt := rowIndexOf_lt (cfg.info p) address k hk
  have hpos : 0 < (cfg.info p).associativity := by
    rcases Nat.eq_zero_or_pos (cfg.info p).associativity with h | h
    · rw [h, Nat.div_zero] at hk
      exact absurd hk (Nat.ne_of_lt (Nat.pos_pow_of_pos k (by decide)))
    · exact h
  exact ⟨hlt, ((shaped_simulate cfg trace p _ 0).mpr ⟨hlt, hpos⟩).1⟩

theorem rowIndex_in_bounds_witness :
    rowIndexOf cfgFourRows.dcache_info0 0x1234 < 8 / 2 ∧
    rowIndexOf cfgFourRows.dcache_info0 0x1234
      < ((simulate cfgFourRows traceMid).cache .D).length :=
  rowIndex_in_bounds cfgFourRows .D 0x1234 traceMid ⟨2, rfl⟩

/-- C3. With 2 blocks of 1 word, 2-way associative, LRU, from the empty
cache the reads `0x4, 0x8, 0x4, 0xC` (tags 1, 2, 1, 3 of the only set) are
counted as compulsory miss, compulsory miss, hit, capacity miss: the counter
lists `[accesses, hits, compulsory, conflict, capacity]` after each read are
as shown, and the set ends as `[tag 1, tag 3]`, both valid, so tag 2 is gone.
This holds through `cacheAccess` on either cache and for every value of the
random generator. -/
theorem lru_eviction_order (r1 r2 r3 r4 : Nat) :
    (simulate cfgLRU2 ((readsABAC .I_FETCH r1 r2 r3 r4).take 1)).g.readsI = [1, 0, 1, 0, 0] ∧
    (simulate cfgLRU2 ((readsABAC .I_FETCH r1 r2 r3 r4).take 2)).g.readsI = [2, 0, 2, 0, 0] ∧
    (simulate cfgLRU2 ((readsABAC .I_FETCH r1 r2 r3 r4).take 3)).g.readsI = [3, 1, 2, 0, 0] ∧
    (simulate cfgLRU2 ((readsABAC .I_FETCH r1 r2 r3 r4).take 4)).g.readsI = [4, 1, 2, 0, 1] ∧
    (simulate cfgLRU2 (readsABAC .I_FETCH r1 r2 r3 r4)).iCache
      = [[⟨1, 1, 0, 1⟩, ⟨3, 1, 0, 0⟩]] ∧
    (simulate cfgLRU2 ((readsABAC .D_READ r1 r2 r3 r4).take 1)).g.readsD = [1, 0, 1, 0, 0] ∧
    (simulate cfgLRU2 ((readsABAC .D_READ r1 r2 r3 r4).take 2)).g.readsD = [2, 0, 2, 0, 0] ∧
    (simulate cfgLRU2 ((readsABAC .D_READ r1 r2 r3 r4).take 3)).g.readsD = [3, 1, 2, 0, 0] ∧
    (simulate cfgLRU2 ((readsABAC .D_READ r1 r2 r3 r4).take 4)).g.readsD = [4, 1, 2, 0, 1] ∧
    (simulate cfgLRU2 (readsABAC .D_READ r1 r2 r3 r4)).dCache
      = [[⟨1, 1, 0, 1⟩, ⟨3, 1, 0, 0⟩]] := by
  simp only [simulate, run_lru_rand cfgLRU2 rfl rfl, readsABAC, List.take, List.map]
  decide

/-- C4. In a valid configuration, after any run `pre`, a read of address `a`
through `cacheAccess` on a configured cache `p`, followed by any accesses
`mid` each of which goes to the other cache, or to a different set index, or
to the same tag and set index as `a`, makes a further read of `a` a hit: the
read-hit counter of `p` grows by one and none of the nine miss counters
changes. This holds for both replacement policies and every value of the
random generator. -/
theorem reread_is_hit (cfg : Config) (hv : cfg.Valid) (p : CachePtr)
    (hp : 1 ≤ (cfg.info p).associativity) (pre mid : List Access) (a r0 r1 : Nat)
    (hmid : ∀ x ∈ mid, x.type.ptr = p →
      rowIndexOf (cfg.info p) x.address ≠ rowIndexOf (cfg.info p) a ∨
      (tagOf (cfg.info p) x.address = tagOf (cfg.info p) a ∧
        rowIndexOf (cfg.info p) x.address = rowIndexOf (cfg.info p) a)) :
    (handle_access cfg (readType p) a r1
        (run cfg (handle_access cfg (readType p) a r0 (simulate cfg pre)) mid)).g.readHitsOf p
      = (run cfg (handle_access cfg (readType p) a r0 (simulate cfg pre)) mid).g.readHitsOf p
        + 1 ∧
    (handle_access cfg (readType p) a r1
        (run cfg (handle_access cfg (readType p) a r0 (simulate cfg pre)) mid)).g.missCounters
      = (run cfg (handle_access cfg (readType p) a r0 (simulate cfg pre)) mid).g.missCounters := by
  have hinv0 := stateInv_simulate cfg hv pre
  have hvp : (cfg.info p).Valid := by
    cases p
    · exact hv.1
    · exact dValid_of_pos hv hp
  have hwf : ∀ s, StateInv cfg s → WellFormed (cfg.info p) p s := by
    intro s h
    cases p
    · exact h.1
    · exact h.2.1
  have hinv1 : StateInv cfg (handle_access cfg (readType p) a r0 (simulate cfg pre)) :=
    stateInv_step cfg hv _ ⟨readType p, a, r0⟩ hinv0
  have hpres1 : Present (cfg.info p) p (rowIndexOf (cfg.info p) a) (tagOf (cfg.info p) a)
      (handle_access cfg (readType p) a r0 (simulate cfg pre)) := by
    rw [handle_access_read cfg p a r0 _ hinv0 hp]
    exact present_of_installs
      (cacheAccess_installs a p (cfg.info p) _ r0 _ (hwf _ hinv0).1 (hwf _ hinv0).2.1
        (rowIndexOf_lt_of_valid hvp a) hp)
  obtain ⟨hinv2, hpres2⟩ := present_run cfg hv p _ _ mid _ hinv1 hpres1
    (fun x hx hpx hrow => by
      rcases hmid x hx hpx with h | h
      · exact absurd hrow h
      · exact h.1)
  generalize run cfg (handle_access cfg (readType p) a r0 (simulate cfg pre)) mid = s2
    at hinv2 hpres2 ⊢
  rw [handle_access_read cfg p a r1 s2 hinv2 hp,
    Globals.missCounters, Globals.missCounters,
    cacheAccess_hit_g a p (cfg.info p) _ r1 s2 (hwf _ hinv2) hpres2]
  cases p <;> simp [countHit, countRead, Globals.readHitsOf]

theorem reread_is_hit_witness :
    (handle_access cfgFourRows .D_READ 0x20 7
        (run cfgFourRows (handle_access cfgFourRows .D_READ 0x20 4
          (simulate cfgFourRows [⟨.D_WRITE, 0x60, 1⟩])) traceMid)).g.readHitsOf .D
      = (run cfgFourRows (handle_access cfgFourRows .D_READ 0x20 4
          (simulate cfgFourRows [⟨.D_WRITE, 0x60, 1⟩])) traceMid).g.readHitsOf .D + 1 ∧
    (handle_access cfgFourRows .D_READ 0x20 7
        (run cfgFourRows (handle_access cfgFourRows .D_READ 0x20 4
          (simulate cfgFourRows [⟨.D_WRITE, 0x60, 1⟩])) traceMid)).g.missCounters
      = (run cfgFourRows (handle_access cfgFourRows .D_READ 0x20 4
          (simulate cfgFourRows [⟨.D_WRITE, 0x60, 1⟩])) traceMid).g.missCounters :=
  reread_is_hit cfgFourRows
    ⟨⟨by decide, ⟨1, rfl⟩, ⟨2, rfl⟩⟩, Or.inr ⟨by decide, ⟨1, rfl⟩, ⟨2, rfl⟩⟩⟩
    .D (by decide) [⟨.D_WRITE, 0x60, 1⟩] traceMid 0x20 4 7 (by decide)

/-- C5 (the code departs from the claim). In the direct-mapped write-back
data cache `cfgDirectWB` (4 words per block) the write of `0x0` leaves the
only line valid and dirty with tag 0. The data read of `0x10` then replaces
it by tag 1 and is counted as a conflict miss, but `numWordsWritten` stays
as it was (and the line stays marked dirty): the branch for associativity 1
of `cacheAccess` never looks at the dirty flag. The sibling paths do write
the victim back: the same replacement by a data write adds 4 words, and so
does the replacement of a dirty victim by a read in the 2-way cache
`cfgTwoWayWB` (through `lruReplace`). -/
theorem direct_mapped_read_skips_write_back :
    (simulate cfgDirectWB [⟨.D_WRITE, 0x0, 0⟩]).dCache = [[⟨0, 1, 1, 0⟩]] ∧
    (simulate cfgDirectWB [⟨.D_WRITE, 0x0, 0⟩, ⟨.D_READ, 0x10, 0⟩]).dCache
      = [[⟨1, 1, 1, 0⟩]] ∧
    (simulate cfgDirectWB [⟨.D_WRITE, 0x0, 0⟩, ⟨.D_READ, 0x10, 0⟩]).g.conflictD = 1 ∧
    (simulate cfgDirectWB [⟨.D_WRITE, 0x0, 0⟩, ⟨.D_READ, 0x10, 0⟩]).g.numWordsWritten
      = (simulate cfgDirectWB [⟨.D_WRITE, 0x0, 0⟩]).g.numWordsWritten ∧
    (simulate cfgDirectWB [⟨.D_WRITE, 0x0, 0⟩, ⟨.D_WRITE, 0x10, 0⟩]).g.numWordsWritten
      = (simulate cfgDirectWB [⟨.D_WRITE, 0x0, 0⟩]).g.numWordsWritten + 4 ∧
    (simulate cfgTwoWayWB [⟨.D_WRITE, 0x0, 0⟩, ⟨.D_WRITE, 0x10, 0⟩]).dCache
      = [[⟨0, 1, 1, 1⟩, ⟨1, 1, 1, 0⟩]] ∧
    (simulate cfgTwoWayWB
        [⟨.D_WRITE, 0x0, 0⟩, ⟨.D_WRITE, 0x10, 0⟩, ⟨.D_READ, 0x20, 0⟩]).dCache
      = [[⟨2, 1, 0, 0⟩, ⟨1, 1, 1, 1⟩]] ∧
    (simulate cfgTwoWayWB
        [⟨.D_WRITE, 0x0, 0⟩, ⟨.D_WRITE, 0x10, 0⟩, ⟨.D_READ, 0x20, 0⟩]).g.numWordsWritten
      = (simulate cfgTwoWayWB [⟨.D_WRITE, 0x0, 0⟩, ⟨.D_WRITE, 0x10, 0⟩]).g.numWordsWritten
        + 4 := by
  decide

/-- C6. For a configured data cache that is write-through and no-allocate, a
call of `dWrite` that is not a hit (no valid way of the target set holds the
tag, or the call is not counted in `wHits`) leaves both cache arrays exactly
as they were, so the tag, valid and dirty flag of every line of every set are
unchanged, and adds exactly 1 to `numWordsWritten`. The state is arbitrary:
the target set may be empty, partly filled or full. -/
theorem write_through_no_allocate_miss (cfg : Config) (address rand : Nat) (s : State)
    (hwt : cfg.dcache_info0.write_scheme = .WRITE_THROUGH)
    (hna : cfg.dcache_info0.allocate_scheme = .NO_ALLOCATE)
    (ha : 1 ≤ cfg.dcache_info0.associativity)
    (hmiss : ¬ Present cfg.dcache_info0 .D (rowIndexOf cfg.dcache_info0 address)
        (tagOf cfg.dcache_info0 address) s ∨
      (dWrite cfg address rand s).g.wHits = s.g.wHits) :
    (dWrite cfg address rand s).dCache = s.dCache ∧
    (dWrite cfg address rand s).iCache = s.iCache ∧
    (∀ q r i, ((dWrite cfg address rand s).line q r i).tag = (s.line q r i).tag ∧
      ((dWrite cfg address rand s).line q r i).valid = (s.line q r i).valid ∧
      ((dWrite cfg address rand s).line q r i).dirty = (s.line q r i).dirty) ∧
    (dWrite cfg address rand s).g.numWordsWritten = s.g.numWordsWritten + 1 := by
  have hw : (dWrite cfg address rand s).g.wHits = s.g.wHits := by
    rcases hmiss with h | h
    · exact dWrite_wHits_of_not_present cfg address rand s ha h
    · exact h
  rcases dWrite_write_through_no_allocate cfg address rand s hwt hna with h | ⟨h1, h2, h3⟩
  · omega
  · refine ⟨h2, h1, fun q r i => ?_, h3⟩
    rw [line_congr h1 h2]
    exact ⟨rfl, rfl, rfl⟩

theorem write_through_no_allocate_miss_witness :
    (dWrite cfgWTNA 0x8 0 (simulate cfgWTNA [⟨.D_READ, 0x4, 0⟩])).dCache
      = (simulate cfgWTNA [⟨.D_READ, 0x4, 0⟩]).dCache ∧
    (dWrite cfgWTNA 0x8 0 (simulate cfgWTNA [⟨.D_READ, 0x4, 0⟩])).iCache
      = (simulate cfgWTNA [⟨.D_READ, 0x4, 0⟩]).iCache ∧
    (∀ q r i,
      ((dWrite cfgWTNA 0x8 0 (simulate cfgWTNA [⟨.D_READ, 0x4, 0⟩])).line q r i).tag
        = ((simulate cfgWTNA [⟨.D_READ, 0x4, 0⟩]).line q r i).tag ∧
      ((dWrite cfgWTNA 0x8 0 (simulate cfgWTNA [⟨.D_READ, 0x4, 0⟩])).line q r i).valid
        = ((simulate cfgWTNA [⟨.D_READ, 0x4, 0⟩]).line q r i).valid ∧
      ((dWrite cfgWTNA 0x8 0 (simulate cfgWTNA [⟨.D_READ, 0x4, 0⟩])).line q r i).dirty
        = ((simulate cfgWTNA [⟨.D_READ, 0x4, 0⟩]).line q r i).dirty) ∧
    (dWrite cfgWTNA 0x8 0 (simulate cfgWTNA [⟨.D_READ, 0x4, 0⟩])).g.numWordsWritten
      = (simulate cfgWTNA [⟨.D_READ, 0x4, 0⟩]).g.numWordsWritten + 1 :=
  write_through_no_allocate_miss cfgWTNA 0x8 0 (simulate cfgWTNA [⟨.D_READ, 0x4, 0⟩])
    rfl rfl (by decide) (Or.inr (by decide))

/-- C7 (the code departs from the claim). For every associativity `n + 2`
(that is, every associativity above 1) and every value `rand` of the random
generator, the victim way chosen by `ranReplace` and by `ranReplaceD` is
`rand % (n + 1)`, which is below `n + 1`: the last way `n + 1` is never
chosen. -/
theorem random_victim_never_last_way (cfg : Config) (ci : CacheInfo) (n : Nat)
    (rowIndex tag rand : Nat) (cache : CachePtr) (s : State) :
    (ranReplace rowIndex cache { ci with associativity := n + 2 } tag rand s).1 < n + 1 ∧
    (ranReplaceD cfg rowIndex cache { ci with associativity := n + 2 } tag rand s).1
      < n + 1 := by
  simp only [ranReplace, ranReplaceD]
  have : n + 2 - 1 = n + 1 := by omega
  rw [this]
  exact ⟨Nat.mod_lt _ (Nat.succ_pos n), Nat.mod_lt _ (Nat.succ_pos n)⟩

/-- C8, counterexample. The data cache `cfgDirectWBNA` is write-back and
no-allocate. After the write of `0x0` its only set is fully populated (way 0
valid, tag 0). The write of `0x10` (tag 1) misses in it, and `dWrite`
replaces the line: its tag becomes 1, and `numWordsWritten` grows by the 4
words of the dirty victim, not by 1. -/
theorem no_allocate_write_back_replaces :
    cfgDirectWBNA.dcache_info0.allocate_scheme = .NO_ALLOCATE ∧
    cfgDirectWBNA.dcache_info0.write_scheme = .WRITE_BACK ∧
    tagOf cfgDirectWBNA.dcache_info0 0x10 = 1 ∧
    (∀ i, i < cfgDirectWBNA.dcache_info0.associativity →
      ((simulate cfgDirectWBNA [⟨.D_WRITE, 0x0, 0⟩]).line .D
          (rowIndexOf cfgDirectWBNA.dcache_info0 0x10) i).valid = 1 ∧
      ((simulate cfgDirectWBNA [⟨.D_WRITE, 0x0, 0⟩]).line .D
          (rowIndexOf cfgDirectWBNA.dcache_info0 0x10) i).tag ≠ 1) ∧
    (simulate cfgDirectWBNA [⟨.D_WRITE, 0x0, 0⟩]).dCache = [[⟨0, 1, 1, 0⟩]] ∧
    (dWrite cfgDirectWBNA 0x10 0 (simulate cfgDirectWBNA [⟨.D_WRITE, 0x0, 0⟩])).dCache
      = [[⟨1, 1, 1, 0⟩]] ∧
    (dWrite cfgDirectWBNA 0x10 0
        (simulate cfgDirectWBNA [⟨.D_WRITE, 0x0, 0⟩])).g.numWordsWritten
      = (simulate cfgDirectWBNA [⟨.D_WRITE, 0x0, 0⟩]).g.numWordsWritten + 4 := by
  decide

/-- C8, amended. For a configured data cache that is no-allocate and
write-through, a `dWrite` that misses in a fully populated set (every way
valid, none holding the tag) leaves every line of both arrays unchanged in
tag, valid, dirty and recency, and adds exactly 1 to `numWordsWritten`. -/
theorem no_allocate_write_through_full_set_miss (cfg : Config) (address rand : Nat)
    (s : State)
    (hwt : cfg.dcache_info0.write_scheme = .WRITE_THROUGH)
    (hna : cfg.dcache_info0.allocate_scheme = .NO_ALLOCATE)
    (ha : 1 ≤ cfg.dcache_info0.associativity)
    (hfull : ∀ i, i < cfg.dcache_info0.associativity →
      (s.line .D (rowIndexOf cfg.dcache_info0 address) i).valid = 1 ∧
      (s.line .D (rowIndexOf cfg.dcache_info0 address) i).tag
        ≠ tagOf cfg.dcache_info0 address) :
    (∀ q r i, (dWrite cfg address rand s).line q r i = s.line q r i) ∧
    (dWrite cfg address rand s).g.numWordsWritten = s.g.numWordsWritten + 1 := by
  have hnp : ¬ Present cfg.dcache_info0 .D (rowIndexOf cfg.dcache_info0 address)
      (tagOf cfg.dcache_info0 address) s := by
    rintro ⟨i, hi, -, ht⟩
    exact (hfull i hi).2 ht
  have hw := dWrite_wHits_of_not_present cfg address rand s ha hnp
  rcases dWrite_write_through_no_allocate cfg address rand s hwt hna with h | ⟨h1, h2, h3⟩
  · omega
  · exact ⟨fun q r i => line_congr h1 h2 q r i, h3⟩

theorem no_allocate_write_through_full_set_miss_witness :
    (∀ q r i,
      (dWrite cfgWTNA 0xC 0
          (simulate cfgWTNA [⟨.D_READ, 0x4, 0⟩, ⟨.D_READ, 0x8, 0⟩])).line q r i
        = (simulate cfgWTNA [⟨.D_READ, 0x4, 0⟩, ⟨.D_READ, 0x8, 0⟩]).line q r i) ∧
    (dWrite cfgWTNA 0xC 0
        (simulate cfgWTNA [⟨.D_READ, 0x4, 0⟩, ⟨.D_READ, 0x8, 0⟩])).g.numWordsWritten
      = (simulate cfgWTNA [⟨.D_READ, 0x4, 0⟩, ⟨.D_READ, 0x8, 0⟩]).g.numWordsWritten + 1 :=
  no_allocate_write_through_full_set_miss cfgWTNA 0xC 0
    (simulate cfgWTNA [⟨.D_READ, 0x4, 0⟩, ⟨.D_READ, 0x8, 0⟩]) rfl rfl (by decide)
    (by decide)

/-- C9. For a direct-mapped cache (associativity 1) the capacity counters
stay 0 in every state of every run from `setup_caches`: `capacity` for the
instruction cache, `capacityD` and `capacityW` for the data cache; hence every
access is counted as a hit, a compulsory miss or a conflict miss. -/
theorem direct_mapped_never_counts_capacity (cfg : Config) (p : CachePtr)
    (h : (cfg.info p).associativity = 1) (trace : List Access) :
    match p with
    | .I =>
      (simulate cfg trace).g.capacity = 0 ∧
      (simulate cfg trace).g.numReads
        = (simulate cfg trace).g.readHits + (simulate cfg trace).g.compul
          + (simulate cfg trace).g.conflict
    | .D =>
      (simulate cfg trace).g.capacityD = 0 ∧ (simulate cfg trace).g.capacityW = 0 ∧
      (simulate cfg trace).g.numReadsD
        = (simulate cfg trace).g.readHitsD + (simulate cfg trace).g.compulD
          + (simulate cfg trace).g.conflictD ∧
      (simulate cfg trace).g.numWrites
        = (simulate cfg trace).g.wHits + (simulate cfg trace).g.compulW
          + (simulate cfg trace).g.conflictW := by
  obtain ⟨⟨b1, b2, b3⟩, i1, i2, -, -⟩ := counterInv_simulate cfg trace
  cases p
  · have := i1 h
    exact ⟨this, by omega⟩
  · have := i2 h
    exact ⟨this.1, this.2, by omega, by omega⟩

theorem direct_mapped_never_counts_capacity_witness :
    (simulate cfgOneBlock traceTwoBlocks).g.capacityD = 0 ∧
    (simulate cfgOneBlock traceTwoBlocks).g.capacityW = 0 ∧
    (simulate cfgOneBlock traceTwoBlocks).g.numReadsD
      = (simulate cfgOneBlock traceTwoBlocks).g.readHitsD
        + (simulate cfgOneBlock traceTwoBlocks).g.compulD
        + (simulate cfgOneBlock traceTwoBlocks).g.conflictD ∧
    (simulate cfgOneBlock traceTwoBlocks).g.numWrites
      = (simulate cfgOneBlock traceTwoBlocks).g.wHits
        + (simulate cfgOneBlock traceTwoBlocks).g.compulW
        + (simulate cfgOneBlock traceTwoBlocks).g.conflictW :=
  direct_mapped_never_counts_capacity cfgOneBlock .D rfl traceTwoBlocks

/-- C10, counterexample. In `cfgOneBlock` both caches have a single block and
associativity 1, so they are fully associative (associativity = block count,
block count at least 1); after `traceTwoBlocks` all three conflict counters
are 1. -/
theorem one_block_cache_counts_conflicts :
    cfgOneBlock.icache_info.associativity = cfgOneBlock.icache_info.num_blocks ∧
    cfgOneBlock.dcache_info0.associativity = cfgOneBlock.dcache_info0.num_blocks ∧
    1 ≤ cfgOneBlock.icache_info.num_blocks ∧ 1 ≤ cfgOneBlock.dcache_info0.num_blocks ∧
    (simulate cfgOneBlock traceTwoBlocks).g.conflict = 1 ∧
    (simulate cfgOneBlock traceTwoBlocks).g.conflictD = 1 ∧
    (simulate cfgOneBlock traceTwoBlocks).g.conflictW = 1 := by
  decide

/-- C10, amended. For a fully associative cache with at least 2 blocks
(associativity = block count ≥ 2) the conflict counters stay 0 in every state
of every run from `setup_caches`: `conflict` for the instruction cache,
`conflictD` and `conflictW` for the data cache. -/
theorem fully_associative_never_counts_conflict (cfg : Config) (p : CachePtr)
    (h : (cfg.info p).associativity = (cfg.info p).num_blocks)
    (h2 : 2 ≤ (cfg.info p).num_blocks) (trace : List Access) :
    match p with
    | .I => (simulate cfg trace).g.conflict = 0
    | .D => (simulate cfg trace).g.conflictD = 0 ∧ (simulate cfg trace).g.conflictW = 0 := by
  obtain ⟨-, -, -, i3, i4⟩ := counterInv_simulate cfg trace
  have hne : (cfg.info p).associativity ≠ 1 := by omega
  cases p
  · exact i3 hne
  · exact i4 hne

theorem fully_associative_never_counts_conflict_witness :
    (simulate cfgLRU2 traceFullyAssoc).g.conflictD = 0 ∧
    (simulate cfgLRU2 traceFullyAssoc).g.conflictW = 0 :=
  fully_associative_never_counts_conflict cfgLRU2 .D rfl (by decide) traceFullyAssoc

/-! ## The victim chosen by the LRU scan -/

theorem lruScan_foldl_range (f : Nat → Nat) (n : Nat) :
    (∀ i, i < n →
      f i ≤ ((List.range n).foldl
        (fun (acc : Nat × Nat) i => if f i > acc.1 then (f i, i) else acc) (0, 0)).1) ∧
    (((List.range n).foldl
        (fun (acc : Nat × Nat) i => if f i > acc.1 then (f i, i) else acc) (0, 0)).1 = 0 →
      ((List.range n).foldl
        (fun (acc : Nat × Nat) i => if f i > acc.1 then (f i, i) else acc) (0, 0)).2 = 0) ∧
    (0 < ((List.range n).foldl
        (fun (acc : Nat × Nat) i => if f i > acc.1 then (f i, i) else acc) (0, 0)).1 →
      ((List.range n).foldl
        (fun (acc : Nat × Nat) i => if f i > acc.1 then (f i, i) else acc) (0, 0)).2 < n ∧
      f ((List.range n).foldl
        (fun (acc : Nat × Nat) i => if f i > acc.1 then (f i, i) else acc) (0, 0)).2
        = ((List.range n).foldl
        (fun (acc : Nat × Nat) i => if f i > acc.1 then (f i, i) else acc) (0, 0)).1 ∧
      ∀ i, i < ((List.range n).foldl
        (fun (acc : Nat × Nat) i => if f i > acc.1 then (f i, i) else acc) (0, 0)).2 →
        f i < ((List.range n).foldl
        (fun (acc : Nat × Nat) i => if f i > acc.1 then (f i, i) else acc) (0, 0)).1) := by
  induction n with
  | zero =>
    refine ⟨fun i hi => absurd hi (Nat.not_lt_zero _), fun _ => rfl, fun h => ?_⟩
    exact absurd h (by simp)
  | succ n ih =>
    rw [List.range_succ, List.foldl_append]
    simp only [List.foldl_cons, List.foldl_nil]
    generalize (List.range n).foldl
      (fun (acc : Nat × Nat) i => if f i > acc.1 then (f i, i) else acc) (0, 0) = acc at ih ⊢
    obtain ⟨h1, h2, h3⟩ := ih
    by_cases hgt : f n > acc.1
    · rw [if_pos hgt]
      refine ⟨fun i hi => ?_, fun h0 => ?_, fun _ => ⟨Nat.lt_succ_self n, rfl, fun i hi => ?_⟩⟩
      · rcases Nat.lt_succ_iff_lt_or_eq.mp hi with h | h
        · exact Nat.le_of_lt (Nat.lt_of_le_of_lt (h1 i h) hgt)
        · rw [h]
      · omega
      · exact Nat.lt_of_le_of_lt (h1 i hi) hgt
    · rw [if_neg hgt]
      refine ⟨fun i hi => ?_, h2, fun hpos => ?_⟩
      · rcases Nat.lt_succ_iff_lt_or_eq.mp hi with h | h
        · exact h1 i h
        · rw [h]; omega
      · obtain ⟨a, b, c⟩ := h3 hpos
        exact ⟨Nat.lt_succ_of_lt a, b, c⟩

/-- The index found by the LRU scan holds a maximal recency counter and every
way before it holds a strictly smaller one. -/
theorem lruScan_spec (r : Nat) (p : CachePtr) (ci : CacheInfo) (s : State)
    (h : 0 < ci.associativity) :
    (lruScan r p ci s).2 < ci.associativity ∧
    (∀ i, i < ci.associativity →
      (s.line p r i).LRU ≤ (s.line p r (lruScan r p ci s).2).LRU) ∧
    (∀ i, i < (lruScan r p ci s).2 →
      (s.line p r i).LRU < (s.line p r (lruScan r p ci s).2).LRU) := by
  have hk := lruScan_lt r p ci s h
  obtain ⟨h1, h2, h3⟩ := lruScan_foldl_range (fun i => (s.line p r i).LRU) ci.associativity
  unfold lruScan
  unfold lruScan at hk
  generalize (List.range ci.associativity).foldl
      (fun (acc : Nat × Nat) i =>
        if (s.line p r i).LRU > acc.1 then ((s.line p r i).LRU, i) else acc) (0, 0) = acc
    at h1 h2 h3 hk ⊢
  refine ⟨hk, ?_, ?_⟩
  · rcases Nat.eq_zero_or_pos acc.1 with h0 | hpos
    · intro i hi
      have := h1 i hi
      omega
    · intro i hi
      rw [(h3 hpos).2.1]
      exact h1 i hi
  · rcases Nat.eq_zero_or_pos acc.1 with h0 | hpos
    · intro i hi
      rw [h2 h0] at hi
      exact absurd hi (Nat.not_lt_zero _)
    · intro i hi
      rw [(h3 hpos).2.1]
      exact (h3 hpos).2.2 i hi

/-- C12. When `dallocate` is 0 (no level-1 data cache is configured),
`handle_access` with `Access_D_READ` or `Access_D_WRITE` returns the state it
was given, for every address: both cache arrays and every counter are
unchanged. -/
theorem data_access_without_data_cache (cfg : Config) (s : State) (address rand : Nat)
    (h : s.g.dallocate = 0) :
    handle_access cfg .D_READ address rand s = s ∧
    handle_access cfg .D_WRITE address rand s = s := by
  simp [handle_access, h]

theorem data_access_without_data_cache_witness :
    (simulate cfgNoData [⟨.I_FETCH, 0x4, 0⟩]).g.dallocate = 0 ∧
    handle_access cfgNoData .D_READ 0x10 3 (simulate cfgNoData [⟨.I_FETCH, 0x4, 0⟩])
      = simulate cfgNoData [⟨.I_FETCH, 0x4, 0⟩] ∧
    handle_access cfgNoData .D_WRITE 0x10 3 (simulate cfgNoData [⟨.I_FETCH, 0x4, 0⟩])
      = simulate cfgNoData [⟨.I_FETCH, 0x4, 0⟩] :=
  ⟨by decide,
   data_access_without_data_cache cfgNoData (simulate cfgNoData [⟨.I_FETCH, 0x4, 0⟩])
     0x10 3 (by decide)⟩

/-- C14 (the code departs from the claim). The first two divisions of
`print_statistics` divide by `numReads` as it is, the next two by `numReadsD`
and the last two by `numWrites`, these two after the guard
`if (x == 0) x = 1`, so only the data denominators are never 0. After the run
`traceFullyAssoc`, which has data accesses but no instruction fetch, the
denominators are `[0, 0, 4, 4, 1, 1]`: both instruction-cache miss rates are
computed as `0 / 0`. -/
theorem instruction_miss_rate_divides_by_zero :
    denominators (simulate cfgLRU2 traceFullyAssoc) = [0, 0, 4, 4, 1, 1] ∧
    denominators (simulate cfgLRU2 []) = [0, 0, 1, 1, 1, 1] ∧
    (∀ s : State,
      denominators s =
        [s.g.numReads, s.g.numReads,
         if s.g.numReadsD = 0 then 1 else s.g.numReadsD,
         if s.g.numReadsD = 0 then 1 else s.g.numReadsD,
         if s.g.numWrites = 0 then 1 else s.g.numWrites,
         if s.g.numWrites = 0 then 1 else s.g.numWrites] ∧
      (if s.g.numReadsD = 0 then 1 else s.g.numReadsD) ≠ 0 ∧
      (if s.g.numWrites = 0 then 1 else s.g.numWrites) ≠ 0) := by
  refine ⟨by decide, by decide, fun s => ?_⟩
  by_cases h1 : s.g.numReadsD = 0 <;> by_cases h2 : s.g.numWrites = 0 <;>
    simp [denominators, print_statistics, h1, h2]

/-- C15, counterexample. The arguments `-I 3:3:2:L trace.txt` (3 blocks of 3
words, 2-way: neither 3 is a power of two nor does 2 divide 3) are accepted by
`parse_arguments` with the numbers stored as given, and the simulation runs on
them with `3 / 2 = 1` row of 2 lines. -/
theorem odd_geometry_is_accepted :
    parse_arguments (scanIOf 3 3 2 'L') (scanDOf 3 3 2 'L') (fun _ => true)
        ⟨0, 0, 0, .LRU, .WRITE_BACK, .ALLOCATE⟩ ["cachesim", "-I", "3:3:2:L", "trace.txt"]
      = .ok ⟨⟨3, 3, 2, .LRU, .WRITE_BACK, .ALLOCATE⟩,
          [⟨0, 0, 0, .LRU, .WRITE_BACK, .ALLOCATE⟩, ⟨0, 0, 0, .LRU, .WRITE_BACK, .ALLOCATE⟩,
           ⟨0, 0, 0, .LRU, .WRITE_BACK, .ALLOCATE⟩], true, [false, false, false]⟩ ∧
    (¬ ∃ k, 3 = 2 ^ k) ∧ ¬ (2 ∣ 3) ∧
    (setup_caches ⟨⟨3, 3, 2, .LRU, .WRITE_BACK, .ALLOCATE⟩,
        ⟨0, 0, 0, .LRU, .WRITE_BACK, .ALLOCATE⟩⟩).iCache = [[⟨0, 0, 0, 0⟩, ⟨0, 0, 0, 0⟩]] ∧
    (simulate ⟨⟨3, 3, 2, .LRU, .WRITE_BACK, .ALLOCATE⟩,
        ⟨0, 0, 0, .LRU, .WRITE_BACK, .ALLOCATE⟩⟩
        [⟨.I_FETCH, 0x0, 0⟩, ⟨.I_FETCH, 0x40, 0⟩, ⟨.I_FETCH, 0x0, 0⟩]).g.readsI
      = [3, 1, 2, 0, 0] := by
  refine ⟨by decide, ?_, by decide, by decide, by decide⟩
  rintro ⟨k, hk⟩
  rcases k with _ | _ | k
  · simp at hk
  · simp at hk
  · have : 4 ≤ 2 ^ (k + 1 + 1) := by
      rw [pow_succ, pow_succ]
      have := Nat.one_le_two_pow (n := k)
      omega
    omega

/-- C16. When the associativity is positive, the victim index returned by
`lruReplace` and by `lruReplaceD` is an index `k` below the associativity whose
recency counter is the maximum of the set (no way has a larger counter), and
it is the lowest such index (every way before `k` has a strictly smaller
counter); in particular it is 0 when all counters are 0. Counters are natural
numbers, so they are non-negative. -/
theorem lru_victim_is_first_maximum (cfg : Config) (rowIndex tag : Nat) (cache : CachePtr)
    (ci : CacheInfo) (s : State) (h : 0 < ci.associativity) :
    (lruReplace rowIndex cache ci tag s).1 < ci.associativity ∧
    (∀ i, i < ci.associativity →
      (s.line cache rowIndex i).LRU
        ≤ (s.line cache rowIndex (lruReplace rowIndex cache ci tag s).1).LRU) ∧
    (∀ i, i < (lruReplace rowIndex cache ci tag s).1 →
      (s.line cache rowIndex i).LRU
        < (s.line cache rowIndex (lruReplace rowIndex cache ci tag s).1).LRU) ∧
    ((∀ i, i < ci.associativity → (s.line cache rowIndex i).LRU = 0) →
      (lruReplace rowIndex cache ci tag s).1 = 0) ∧
    (lruReplaceD cfg rowIndex cache ci tag s).1 = (lruReplace rowIndex cache ci tag s).1 := by
  obtain ⟨h1, h2, h3⟩ := lruScan_spec rowIndex cache ci s h
  refine ⟨h1, h2, h3, fun hz => ?_, rfl⟩
  by_contra hne
  have hpos : 0 < (lruReplace rowIndex cache ci tag s).1 := Nat.pos_of_ne_zero hne
  have := h3 0 hpos
  have hk := hz _ h1
  have : (s.line cache rowIndex (lruScan rowIndex cache ci s).2).LRU = 0 := hk
  omega

/-! ## Acceptance of well-formed arguments by `parse_arguments` -/

theorem parseI_ok (b w a : Nat) (c : Char) (st : ParseState) (hc : c = 'R' ∨ c = 'L')
    (hst : st.have_inst = false) :
    parseI ⟨4, b, w, a, c⟩ st = .ok
      { st with
        have_inst := true,
        icache_info := { st.icache_info with
          num_blocks := b, words_per_block := w, associativity := a,
          replacement := storedReplacement a c st.icache_info.replacement } } := by
  unfold parseI storedReplacement
  by_cases ha : a > 1
  · rcases hc with rfl | rfl <;> simp [hst, ha]
  · simp [hst, ha]

theorem parseD_ok (zero : CacheInfo) (b w a : Nat) (c wl al : Char) (st : ParseState)
    (hc : c = 'R' ∨ c = 'L') (hwl : wl = 'B' ∨ wl = 'T') (hal : al = 'A' ∨ al = 'N')
    (hst : st.have_data.getD 0 false = false) :
    parseD zero ⟨7, 1, b, w, a, c, wl, al⟩ st = .ok
      { st with
        have_data := st.have_data.set 0 true,
        dcache_info := st.dcache_info.set 0
          { num_blocks := b, words_per_block := w, associativity := a,
            replacement := storedReplacement a c (st.dcache_info.getD 0 zero).replacement,
            write_scheme := if wl = 'B' then .WRITE_BACK else .WRITE_THROUGH,
            allocate_scheme := if al = 'A' then .ALLOCATE else .NO_ALLOCATE } } := by
  rw [List.getD_eq_getElem?_getD] at hst
  unfold parseD storedReplacement
  by_cases ha : a > 1
  · rcases hc with rfl | rfl <;> rcases hwl with rfl | rfl <;> rcases hal with rfl | rfl <;>
      simp [hst, ha]
  · rcases hwl with rfl | rfl <;> rcases hal with rfl | rfl <;> simp [hst, ha]

/-- C15, amended. `parse_arguments` does not inspect the geometry: for every
block count, words per block and associativity (power of two or not, dividing
or not), an `-I` parameter with four converted fields and replacement letter
`R` or `L`, alone or followed by a level-1 `-D` parameter with seven converted
fields and letters `R`/`L`, `B`/`T`, `A`/`N`, and an openable trace file, is
accepted, and the numbers are stored unchanged for the simulation. -/
theorem geometry_is_not_validated (scanI : String → ScanI) (scanD : String → ScanD)
    (fopen : String → Bool) (zero : CacheInfo) (prog argI argD trace : String)
    (b w a b' w' a' : Nat) (c c' wl al : Char)
    (hI : scanI argI = ⟨4, b, w, a, c⟩) (hc : c = 'R' ∨ c = 'L')
    (hD : scanD argD = ⟨7, 1, b', w', a', c', wl, al⟩) (hc' : c' = 'R' ∨ c' = 'L')
    (hwl : wl = 'B' ∨ wl = 'T') (hal : al = 'A' ∨ al = 'N')
    (ht1 : trace ≠ "-I") (ht2 : trace ≠ "-D") (hopen : fopen trace = true) :
    (∃ st, parse_arguments scanI scanD fopen zero [prog, "-I", argI, trace] = .ok st ∧
      st.icache_info.num_blocks = b ∧ st.icache_info.words_per_block = w ∧
      st.icache_info.associativity = a) ∧
    (∃ st, parse_arguments scanI scanD fopen zero [prog, "-I", argI, "-D", argD, trace]
        = .ok st ∧
      (st.config zero).icache_info.num_blocks = b ∧
      (st.config zero).icache_info.words_per_block = w ∧
      (st.config zero).icache_info.associativity = a ∧
      (st.config zero).dcache_info0.num_blocks = b' ∧
      (st.config zero).dcache_info0.words_per_block = w' ∧
      (st.config zero).dcache_info0.associativity = a') := by
  have hloop : ∀ st : ParseState, parseLoop scanI scanD zero [trace] st = .ok st := by
    intro st
    simp only [parseLoop, ht1, ht2, if_false]
  have hpI : parseI ⟨4, b, w, a, c⟩ ⟨zero, [zero, zero, zero], false, [false, false, false]⟩
      = .ok ⟨{ zero with
            num_blocks := b, words_per_block := w, associativity := a,
            replacement := storedReplacement a c zero.replacement },
        [zero, zero, zero], true, [false, false, false]⟩ :=
    parseI_ok b w a c ⟨zero, [zero, zero, zero], false, [false, false, false]⟩ hc rfl
  have hne : ("-D" : String) ≠ "-I" := by decide
  have hpD : parseD zero ⟨7, 1, b', w', a', c', wl, al⟩
      ⟨{ zero with
          num_blocks := b, words_per_block := w, associativity := a,
          replacement := storedReplacement a c zero.replacement },
        [zero, zero, zero], true, [false, false, false]⟩
      = .ok ⟨{ zero with
            num_blocks := b, words_per_block := w, associativity := a,
            replacement := storedReplacement a c zero.replacement },
        [{ num_blocks := b', words_per_block := w', associativity := a',
            replacement := storedReplacement a' c' zero.replacement,
            write_scheme := if wl = 'B' then .WRITE_BACK else .WRITE_THROUGH,
            allocate_scheme := if al = 'A' then .ALLOCATE else .NO_ALLOCATE }, zero, zero],
        true, [true, false, false]⟩ :=
    parseD_ok zero b' w' a' c' wl al _ hc' hwl hal rfl
  have hL1 : parseLoop scanI scanD zero ["-I", argI, trace]
      ⟨zero, [zero, zero, zero], false, [false, false, false]⟩
      = .ok ⟨{ zero with
            num_blocks := b, words_per_block := w, associativity := a,
            replacement := storedReplacement a c zero.replacement },
        [zero, zero, zero], true, [false, false, false]⟩ := by
    rw [parseLoop, if_pos rfl, hI, hpI]
    exact hloop _
  have hL2 : parseLoop scanI scanD zero ["-I", argI, "-D", argD, trace]
      ⟨zero, [zero, zero, zero], false, [false, false, false]⟩
      = .ok ⟨{ zero with
            num_blocks := b, words_per_block := w, associativity := a,
            replacement := storedReplacement a c zero.replacement },
        [{ num_blocks := b', words_per_block := w', associativity := a',
            replacement := storedReplacement a' c' zero.replacement,
            write_scheme := if wl = 'B' then .WRITE_BACK else .WRITE_THROUGH,
            allocate_scheme := if al = 'A' then .ALLOCATE else .NO_ALLOCATE }, zero, zero],
        true, [true, false, false]⟩ := by
    rw [parseLoop, if_pos rfl, hI, hpI]
    show parseLoop scanI scanD zero ["-D", argD, trace] _ = _
    rw [parseLoop, if_neg hne, if_pos rfl, hD, hpD]
    exact hloop _
  have e1 : parse_arguments scanI scanD fopen zero [prog, "-I", argI, trace]
      = .ok ⟨{ zero with
            num_blocks := b, words_per_block := w, associativity := a,
            replacement := storedReplacement a c zero.replacement },
        [zero, zero, zero], true, [false, false, false]⟩ := by
    unfold parse_arguments
    rw [List.tail_cons, hL1]
    simp [hopen]
  have e2 : parse_arguments scanI scanD fopen zero [prog, "-I", argI, "-D", argD, trace]
      = .ok ⟨{ zero with
            num_blocks := b, words_per_block := w, associativity := a,
            replacement := storedReplacement a c zero.replacement },
        [{ num_blocks := b', words_per_block := w', associativity := a',
            replacement := storedReplacement a' c' zero.replacement,
            write_scheme := if wl = 'B' then .WRITE_BACK else .WRITE_THROUGH,
            allocate_scheme := if al = 'A' then .ALLOCATE else .NO_ALLOCATE }, zero, zero],
        true, [true, false, false]⟩ := by
    unfold parse_arguments
    rw [List.tail_cons, hL2]
    simp [hopen]
  exact ⟨⟨_, e1, rfl, rfl, rfl⟩, ⟨_, e2, rfl, rfl, rfl, rfl, rfl, rfl⟩⟩

theorem geometry_is_not_validated_witness :
    (∃ st, parse_arguments (scanIOf 3 3 2 'L') (scanDOf 6 3 4 'R') (fun _ => true)
        cfgNoData.dcache_info0 ["cachesim", "-I", "3:3:2:L", "gcc.trace"] = .ok st ∧
      st.icache_info.num_blocks = 3 ∧ st.icache_info.words_per_block = 3 ∧
      st.icache_info.associativity = 2) ∧
    (∃ st, parse_arguments (scanIOf 3 3 2 'L') (scanDOf 6 3 4 'R') (fun _ => true)
        cfgNoData.dcache_info0
        ["cachesim", "-I", "3:3:2:L", "-D", "1:6:3:4:R:B:A", "gcc.trace"] = .ok st ∧
      (st.config cfgNoData.dcache_info0).icache_info.num_blocks = 3 ∧
      (st.config cfgNoData.dcache_info0).icache_info.words_per_block = 3 ∧
      (st.config cfgNoData.dcache_info0).icache_info.associativity = 2 ∧
      (st.config cfgNoData.dcache_info0).dcache_info0.num_blocks = 6 ∧
      (st.config cfgNoData.dcache_info0).dcache_info0.words_per_block = 3 ∧
      (st.config cfgNoData.dcache_info0).dcache_info0.associativity = 4) :=
  geometry_is_not_validated (scanIOf 3 3 2 'L') (scanDOf 6 3 4 'R') (fun _ => true)
    cfgNoData.dcache_info0 "cachesim" "3:3:2:L" "1:6:3:4:R:B:A" "gcc.trace"
    3 3 2 6 3 4 'L' 'R' 'B' 'A' rfl (Or.inr rfl) rfl (Or.inl rfl) (Or.inl rfl) (Or.inl rfl)
    (by decide) (by decide) rfl

theorem lru_victim_is_first_maximum_witness :
    (lruReplace 0 .D cfgLRU2.dcache_info0 7 (simulate cfgLRU2 traceFullyAssoc)).1
      < cfgLRU2.dcache_info0.associativity ∧
    (∀ i, i < cfgLRU2.dcache_info0.associativity →
      ((simulate cfgLRU2 traceFullyAssoc).line .D 0 i).LRU
        ≤ ((simulate cfgLRU2 traceFullyAssoc).line .D 0
            (lruReplace 0 .D cfgLRU2.dcache_info0 7 (simulate cfgLRU2 traceFullyAssoc)).1).LRU) ∧
    (∀ i, i < (lruReplace 0 .D cfgLRU2.dcache_info0 7 (simulate cfgLRU2 traceFullyAssoc)).1 →
      ((simulate cfgLRU2 traceFullyAssoc).line .D 0 i).LRU
        < ((simulate cfgLRU2 traceFullyAssoc).line .D 0
            (lruReplace 0 .D cfgLRU2.dcache_info0 7 (simulate cfgLRU2 traceFullyAssoc)).1).LRU) ∧
    ((∀ i, i < cfgLRU2.dcache_info0.associativity →
        ((simulate cfgLRU2 traceFullyAssoc).line .D 0 i).LRU = 0) →
      (lruReplace 0 .D cfgLRU2.dcache_info0 7 (simulate cfgLRU2 traceFullyAssoc)).1 = 0) ∧
    (lruReplaceD cfgLRU2 0 .D cfgLRU2.dcache_info0 7 (simulate cfgLRU2 traceFullyAssoc)).1
      = (lruReplace 0 .D cfgLRU2.dcache_info0 7 (simulate cfgLRU2 traceFullyAssoc)).1 :=
  lru_victim_is_first_maximum cfgLRU2 0 7 .D cfgLRU2.dcache_info0
    (simulate cfgLRU2 traceFullyAssoc) (by decide)

/-! ## Dirty flags and the untouched cache -/

theorem dirtyKept_refl (s : State) : DirtyKept s s := fun _ _ _ => Or.inl rfl

theorem dirtyKept_trans {s s1 s2 : State} (h1 : DirtyKept s s1) (h2 : DirtyKept s1 s2) :
    DirtyKept s s2 := by
  intro q r i
  rcases h2 q r i with h | h
  · rw [h]; exact h1 q r i
  · exact Or.inr h

theorem dirtyKept_of_caches {s X : State} (hi : X.iCache = s.iCache)
    (hd : X.dCache = s.dCache) : DirtyKept s X :=
  fun q r i => Or.inl (by rw [line_congr hi hd])

theorem dirtyKept_setLine (s : State) (p : CachePtr) (r k : Nat) (m : MetaData)
    (h : m.dirty = (s.line p r k).dirty ∨ m.dirty = 0) :
    DirtyKept s (s.setLine p r k m) := by
  intro q r' i'
  rw [line_setLine]
  split
  · rename_i hc
    obtain ⟨rfl, rfl, rfl, -⟩ := hc
    exact h
  · exact Or.inl rfl

theorem dirtyKept_fixLRU (r k : Nat) (p : CachePtr) (ci : CacheInfo) (s : State) :
    DirtyKept s (fixLRU r k p ci s) :=
  fun q r' i' => Or.inl ((fixLRU_frame r k p ci s).2 q r' i').2.2.2

theorem clean_of_dirtyKept {p : CachePtr} {s s' : State} (h : DirtyKept s s')
    (hc : Clean p s) : Clean p s' := by
  intro r i
  rcases h p r i with h | h
  · rw [h]; exact hc r i
  · exact h

theorem cache_setLine_other (s : State) (p q : CachePtr) (r k : Nat) (m : MetaData)
    (h : q ≠ p) : (s.setLine p r k m).cache q = s.cache q := by
  unfold State.setLine
  rw [cache_setCache, if_neg h]

theorem foldl_cache_other (q : CachePtr) (f : State → Nat → State)
    (hf : ∀ s i, (f s i).cache q = s.cache q) (l : List Nat) :
    ∀ s : State, (l.foldl f s).cache q = s.cache q := by
  induction l with
  | nil => intro s; rfl
  | cons a l ih => intro s; simp only [List.foldl_cons]; rw [ih, hf]

theorem fixLRU_cache_other (r k : Nat) (p : CachePtr) (ci : CacheInfo) (s : State)
    (q : CachePtr) (h : q ≠ p) : (fixLRU r k p ci s).cache q = s.cache q := by
  unfold fixLRU
  simp only []
  rw [cache_setLine_other _ _ _ _ _ _ h]
  exact foldl_cache_other q _ (fun s i => cache_setLine_other _ _ _ _ _ _ h) _ s

theorem cache_congr {s X : State} (hi : X.iCache = s.iCache) (hd : X.dCache = s.dCache)
    (q : CachePtr) : X.cache q = s.cache q := by
  cases q
  · exact hi
  · exact hd

theorem ranReplace_cache_other (r : Nat) (p : CachePtr) (ci : CacheInfo) (t rand : Nat)
    (s : State) (q : CachePtr) (h : q ≠ p) :
    (ranReplace r p ci t rand s).2.cache q = s.cache q := by
  unfold ranReplace
  simp only []
  rw [fixLRU_cache_other _ _ _ _ _ _ h, cache_setLine_other _ _ _ _ _ _ h]
  split
  · exact cache_mk_g s _ q
  · rfl

theorem lruReplace_cache_other (r : Nat) (p : CachePtr) (ci : CacheInfo) (t : Nat)
    (s : State) (q : CachePtr) (h : q ≠ p) :
    (lruReplace r p ci t s).2.cache q = s.cache q := by
  unfold lruReplace
  simp only []
  rw [fixLRU_cache_other _ _ _ _ _ _ h, cache_setLine_other _ _ _ _ _ _ h]
  split
  · exact cache_mk_g s _ q
  · rfl

theorem ranReplace_dirtyKept (r : Nat) (p : CachePtr) (ci : CacheInfo) (t rand : Nat)
    (s : State) : DirtyKept s (ranReplace r p ci t rand s).2 := by
  unfold ranReplace
  simp only []
  refine dirtyKept_trans (dirtyKept_trans ?_ (dirtyKept_setLine _ p r _ _ (Or.inr rfl)))
    (dirtyKept_fixLRU _ _ _ _ _)
  split
  · exact dirtyKept_of_caches rfl rfl
  · exact dirtyKept_refl s

theorem lruReplace_dirtyKept (r : Nat) (p : CachePtr) (ci : CacheInfo) (t : Nat)
    (s : State) : DirtyKept s (lruReplace r p ci t s).2 := by
  unfold lruReplace
  simp only []
  refine dirtyKept_trans (dirtyKept_trans ?_ (dirtyKept_setLine _ p r _ _ (Or.inr rfl)))
    (dirtyKept_fixLRU _ _ _ _ _)
  split
  · exact dirtyKept_of_caches rfl rfl
  · exact dirtyKept_refl s

/-- A read raises no dirty flag. -/
theorem cacheAccess_dirtyKept (address : Nat) (p : CachePtr) (ci : CacheInfo) (w rand : Nat)
    (s : State) : DirtyKept s (cacheAccess address p ci w rand s) := by
  have hX : ∀ X : State, X.iCache = s.iCache → X.dCache = s.dCache → ∀ k j,
      DirtyKept s (fixLRU (rowIndexOf ci address) j p ci
        (X.setLine p (rowIndexOf ci address) k
          { X.line p (rowIndexOf ci address) k with tag := tagOf ci address, valid := 1 })) := by
    intro X hi hd k j
    have h1 : DirtyKept s X := dirtyKept_of_caches hi hd
    have h2 := dirtyKept_setLine X p (rowIndexOf ci address) k
      { X.line p (rowIndexOf ci address) k with tag := tagOf ci address, valid := 1 }
      (Or.inl rfl)
    exact dirtyKept_trans (dirtyKept_trans h1 h2) (dirtyKept_fixLRU _ _ _ _ _)
  refine cacheAccess_cases address p ci w rand s (fun s' => DirtyKept s s')
    ?_ ?_ ?_ ?_ ?_ ?_ ?_
  · intro _
    have := hX (countCompul w (countRead w s)) (by simp) (by simp) 0 0
    simpa only [line_countCompul, line_countRead] using this
  · intro _ _
    exact dirtyKept_trans (dirtyKept_of_caches (X := countHit w (countRead w s))
      (by simp) (by simp)) (dirtyKept_fixLRU _ _ _ _ _)
  · intro _ _ _
    have := dirtyKept_trans
      (dirtyKept_of_caches (s := s) (X := countConflict w (countRead w s)) (by simp) (by simp))
      (dirtyKept_setLine (countConflict w (countRead w s)) p (rowIndexOf ci address) 0
        { (countConflict w (countRead w s)).line p (rowIndexOf ci address) 0 with
          tag := tagOf ci address, valid := 1 } (Or.inl rfl))
    simpa only [line_countConflict, line_countRead] using this
  · intro i _ _ _ _ _
    exact dirtyKept_trans (dirtyKept_trans
      (dirtyKept_of_caches (X := countRead w s) (by simp) (by simp))
      (dirtyKept_fixLRU (rowIndexOf ci address) i p ci _))
      (dirtyKept_of_caches (by simp) (by simp))
  · intro i _ _ _ _ _
    have := hX (countCompul w (countRead w s)) (by simp) (by simp) i i
    simpa only [line_countCompul, line_countRead] using this
  · intro _ _ _ _ _
    exact dirtyKept_trans (dirtyKept_of_caches (X := countCapacity w (countRead w s))
      (by simp) (by simp)) (ranReplace_dirtyKept _ _ _ _ _ _)
  · intro _ _ _ _ _
    exact dirtyKept_trans (dirtyKept_of_caches (X := countCapacity w (countRead w s))
      (by simp) (by simp)) (lruReplace_dirtyKept _ _ _ _ _)

/-- A read leaves the other cache array as it is. -/
theorem cacheAccess_cache_other (address : Nat) (p : CachePtr) (ci : CacheInfo)
    (w rand : Nat) (s : State) (q : CachePtr) (h : q ≠ p) :
    (cacheAccess address p ci w rand s).cache q = s.cache q := by
  have hc : ∀ X : State, X.iCache = s.iCache → X.dCache = s.dCache → X.cache q = s.cache q :=
    fun X hi hd => cache_congr hi hd q
  refine cacheAccess_cases address p ci w rand s (fun s' => s'.cache q = s.cache q)
    ?_ ?_ ?_ ?_ ?_ ?_ ?_
  · intro _
    rw [fixLRU_cache_other _ _ _ _ _ _ h, cache_setLine_other _ _ _ _ _ _ h]
    exact hc _ (by simp) (by simp)
  · intro _ _
    rw [fixLRU_cache_other _ _ _ _ _ _ h]
    exact hc _ (by simp) (by simp)
  · intro _ _ _
    rw [cache_setLine_other _ _ _ _ _ _ h]
    exact hc _ (by simp) (by simp)
  · intro i _ _ _ _ _
    have e : (countHit w (fixLRU (rowIndexOf ci address) i p ci (countRead w s))).cache q
        = (fixLRU (rowIndexOf ci address) i p ci (countRead w s)).cache q :=
      cache_congr (by simp) (by simp) q
    rw [e, fixLRU_cache_other _ _ _ _ _ _ h]
    exact hc _ (by simp) (by simp)
  · intro i _ _ _ _ _
    rw [fixLRU_cache_other _ _ _ _ _ _ h, cache_setLine_other _ _ _ _ _ _ h]
    exact hc _ (by simp) (by simp)
  · intro _ _ _ _ _
    rw [ranReplace_cache_other _ _ _ _ _ _ _ h]
    exact hc _ (by simp) (by simp)
  · intro _ _ _ _ _
    rw [lruReplace_cache_other _ _ _ _ _ _ h]
    exact hc _ (by simp) (by simp)

theorem performWrite_cache_other (cfg : Config) (r k : Nat) (s : State) :
    (performWrite cfg r k s).cache .I = s.cache .I := by
  rw [performWrite_cache]
  cases cfg.dcache_info0.write_scheme <;> simp only []
  exact cache_setLine_other _ _ _ _ _ _ (by decide)

theorem fillOpenSpace_cache_other (cfg : Config) (r k n t : Nat) (s : State) :
    (fillOpenSpace cfg r k n t s).cache .I = s.cache .I := by
  rw [fillOpenSpace_cache]
  cases cfg.dcache_info0.write_scheme <;> cases cfg.dcache_info0.allocate_scheme <;>
    simp only [] <;>
    rw [fixLRU_cache_other _ _ _ _ _ _ (by decide), cache_setLine_other _ _ _ _ _ _ (by decide)]

theorem writeMem_cache_other (cfg : Config) (r k t : Nat) (s : State) :
    (writeMem cfg r k .D cfg.dcache_info0 t s).cache .I = s.cache .I := by
  have hI : ∀ (X : State) (j : Nat),
      (fixLRU r j .D cfg.dcache_info0 X).cache .I = X.cache .I :=
    fun X j => fixLRU_cache_other _ _ _ _ _ _ (by decide)
  have hS : ∀ (X : State) (j : Nat) (m : MetaData),
      (X.setLine .D r j m).cache .I = X.cache .I :=
    fun X j m => cache_setLine_other _ _ _ _ _ _ (by decide)
  unfold writeMem
  cases cfg.dcache_info0.write_scheme <;> cases cfg.dcache_info0.allocate_scheme <;>
    simp only [cache_countWriteMiss, cache_mk_g] <;>
    split_ifs <;> simp only [hI, hS, cache_mk_g]

/-- A data write leaves the instruction-cache array as it is. -/
theorem dWrite_cache_other (cfg : Config) (address rand : Nat) (s : State) :
    (dWrite cfg address rand s).cache .I = s.cache .I := by
  refine dWrite_cases cfg address rand s (fun s' => s'.cache .I = s.cache .I)
    ?_ ?_ ?_ ?_ ?_ ?_ ?_
  · intro _ _
    rw [fixLRU_cache_other _ _ _ _ _ _ (by decide), performWrite_cache_other]; rfl
  · intro _ _ _
    rw [writeMem_cache_other]; rfl
  · intro i _ _ _ _
    rw [fixLRU_cache_other _ _ _ _ _ _ (by decide), performWrite_cache_other]; rfl
  · intro k _ _ _ _ _
    rw [fillOpenSpace_cache_other]; rfl
  · intro _ _ _ _ _ _
    unfold ranReplaceD
    rw [writeMem_cache_other]; rfl
  · intro _ _ _ _ _ _
    unfold lruReplaceD
    rw [writeMem_cache_other]; rfl
  · intro _
    rw [fillOpenSpace_cache_other]; rfl

theorem dirtyKept_congr {s X Y : State} (h : DirtyKept s X)
    (hc : ∀ q, Y.cache q = X.cache q) : DirtyKept s Y :=
  fun q r i => by rw [line_of_cache hc]; exact h q r i

theorem dirtyKept_install (r k t l : Nat) (ci : CacheInfo) (s : State) :
    DirtyKept s (fixLRU r k .D ci (s.setLine .D r k ⟨t, 1, 0, l⟩)) :=
  dirtyKept_trans (dirtyKept_setLine s .D r k _ (Or.inr rfl)) (dirtyKept_fixLRU r k .D ci _)

theorem writeMem_cache_through (cfg : Config) (r k t : Nat) (s : State)
    (hwt : cfg.dcache_info0.write_scheme = .WRITE_THROUGH) (q : CachePtr) :
    (writeMem cfg r k .D cfg.dcache_info0 t s).cache q =
      (match cfg.dcache_info0.allocate_scheme with
        | .NO_ALLOCATE => s
        | .ALLOCATE =>
          fixLRU r k .D cfg.dcache_info0
            (s.setLine .D r k ⟨t, 1, 0, (s.line .D r k).LRU⟩)).cache q := by
  unfold writeMem
  cases has : cfg.dcache_info0.allocate_scheme <;> simp only [hwt]
  · rw [cache_countWriteMiss, cache_mk_g]
    split
    · simp only [line_mk_g, setLine_mk_g, fixLRU_mk_g, cache_mk_g]
    · rfl
  · rw [cache_countWriteMiss, cache_mk_g]

theorem writeMem_dirtyKept (cfg : Config) (r k t : Nat) (s : State)
    (hwt : cfg.dcache_info0.write_scheme = .WRITE_THROUGH) :
    DirtyKept s (writeMem cfg r k .D cfg.dcache_info0 t s) := by
  have hc := writeMem_cache_through cfg r k t s hwt
  cases has : cfg.dcache_info0.allocate_scheme <;> simp only [has] at hc
  · exact dirtyKept_congr (dirtyKept_install r k t _ cfg.dcache_info0 s) hc
  · exact dirtyKept_congr (dirtyKept_refl s) hc

theorem fillOpenSpace_dirtyKept (cfg : Config) (r k n t : Nat) (s : State)
    (hwt : cfg.dcache_info0.write_scheme = .WRITE_THROUGH) :
    DirtyKept s (fillOpenSpace cfg r k n t s) := by
  have hc := fillOpenSpace_cache cfg r k n t s
  cases has : cfg.dcache_info0.allocate_scheme <;> simp only [hwt, has] at hc
  · exact dirtyKept_congr (dirtyKept_install r k t _ cfg.dcache_info0 s) hc
  · exact dirtyKept_congr (dirtyKept_refl s) hc

theorem writeHit_dirtyKept (cfg : Config) (r k : Nat) (s : State)
    (hwt : cfg.dcache_info0.write_scheme = .WRITE_THROUGH) :
    DirtyKept s (fixLRU r k .D cfg.dcache_info0
      (performWrite cfg r k (countWHit (countWrite s)))) := by
  refine dirtyKept_trans ?_ (dirtyKept_fixLRU r k .D cfg.dcache_info0 _)
  unfold performWrite
  rw [hwt]
  exact dirtyKept_of_caches rfl rfl

/-- A write to a write-through data cache raises no dirty flag. -/
theorem dWrite_dirtyKept (cfg : Config) (address rand : Nat) (s : State)
    (hwt : cfg.dcache_info0.write_scheme = .WRITE_THROUGH) :
    DirtyKept s (dWrite cfg address rand s) := by
  have hw : DirtyKept s (countWrite s) := dirtyKept_of_caches rfl rfl
  refine dWrite_cases cfg address rand s (fun s' => DirtyKept s s')
    ?_ ?_ ?_ ?_ ?_ ?_ ?_
  · intro _ _; exact writeHit_dirtyKept cfg _ 0 s hwt
  · intro _ _ _; exact dirtyKept_trans hw (writeMem_dirtyKept cfg _ 0 _ _ hwt)
  · intro i _ _ _ _; exact writeHit_dirtyKept cfg _ i s hwt
  · intro k _ _ _ _ _; exact dirtyKept_trans hw (fillOpenSpace_dirtyKept cfg _ k _ _ _ hwt)
  · intro _ _ _ _ _ _
    exact dirtyKept_trans hw (writeMem_dirtyKept cfg _ _ _ _ hwt)
  · intro _ _ _ _ _ _
    exact dirtyKept_trans hw (writeMem_dirtyKept cfg _ _ _ _ hwt)
  · intro _; exact dirtyKept_trans hw (fillOpenSpace_dirtyKept cfg _ 0 _ _ _ hwt)

/-- A write to a write-through data cache adds one word of write traffic. -/
theorem dWrite_numWordsWritten (cfg : Config) (address rand : Nat) (s : State)
    (hwt : cfg.dcache_info0.write_scheme = .WRITE_THROUGH) :
    (dWrite cfg address rand s).g.numWordsWritten = s.g.numWordsWritten + 1 ∧
    (dWrite cfg address rand s).g.numWrites = s.g.numWrites + 1 := by
  refine dWrite_cases cfg address rand s
    (fun s' => s'.g.numWordsWritten = s.g.numWordsWritten + 1 ∧
      s'.g.numWrites = s.g.numWrites + 1) ?_ ?_ ?_ ?_ ?_ ?_ ?_
  · intro _ _; simp [fixLRU_g, performWrite_g, hwt, countWHit, countWrite]
  · intro _ _ _; simp [writeMem_g, hwt, countWrite]
  · intro i _ _ _ _; simp [fixLRU_g, performWrite_g, hwt, countWHit, countWrite]
  · intro k _ _ _ _ _; simp [fillOpenSpace_g, hwt, countWrite]
  · intro _ _ _ _ _ _; simp [ranReplaceD, writeMem_g, hwt, countWrite]
  · intro _ _ _ _ _ _; simp [lruReplaceD, writeMem_g, hwt, countWrite]
  · intro _; simp [fillOpenSpace_g, hwt, countWrite]

/-- A read of a row without dirty lines adds no write traffic. -/
theorem cacheAccess_numWordsWritten (address : Nat) (p : CachePtr) (ci : CacheInfo)
    (w rand : Nat) (s : State)
    (hc : ∀ i, (s.line p (rowIndexOf ci address) i).dirty ≠ 1) :
    (cacheAccess address p ci w rand s).g.numWordsWritten = s.g.numWordsWritten ∧
    (cacheAccess address p ci w rand s).g.numWrites = s.g.numWrites := by
  refine cacheAccess_cases address p ci w rand s
    (fun s' => s'.g.numWordsWritten = s.g.numWordsWritten ∧ s'.g.numWrites = s.g.numWrites)
    ?_ ?_ ?_ ?_ ?_ ?_ ?_
  · intro _
    simp only [fixLRU_g, g_setLine, countCompul, countRead]
    split_ifs <;> simp
  · intro _ _
    simp only [fixLRU_g, g_setLine, countHit, countRead]
    split_ifs <;> simp
  · intro _ _ _
    simp only [fixLRU_g, g_setLine, countConflict, countRead]
    split_ifs <;> simp
  · intro i _ _ _ _ _
    have : (countHit w (fixLRU (rowIndexOf ci address) i p ci (countRead w s))).g
        = (countHit w (countRead w s)).g := by
      unfold countHit; split_ifs <;> simp
    rw [this]
    simp only [countHit, countRead]
    split_ifs <;> simp
  · intro i _ _ _ _ _
    simp only [fixLRU_g, g_setLine, countCompul, countRead]
    split_ifs <;> simp
  · intro _ _ _ _ _
    simp only [ranReplace_g, line_countCapacity, line_countRead, hc, if_false]
    simp only [countCapacity, countRead]
    split_ifs <;> simp
  · intro _ _ _ _ _
    simp only [lruReplace_g, line_countCapacity, line_countRead, lruScan_countCapacity,
      lruScan_countRead, hc, if_false]
    simp only [countCapacity, countRead]
    split_ifs <;> simp

/-! ## Clean lines along a run -/

theorem line_of_cache_eq {s s' : State} {p : CachePtr} (h : s'.cache p = s.cache p)
    (r i : Nat) : s'.line p r i = s.line p r i := by
  unfold State.line; rw [h]

theorem clean_setup (cfg : Config) (p : CachePtr) : Clean p (setup_caches cfg) := by
  intro r i
  rw [(setup_caches_lines cfg).1 p r i]

theorem dallocate_simulate (cfg : Config) (trace : List Access) :
    (simulate cfg trace).g.dallocate
      = if cfg.dcache_info0.associativity > 0 then 1 else 0 := by
  refine run_induction cfg
    (fun s => s.g.dallocate = if cfg.dcache_info0.associativity > 0 then 1 else 0)
    ?_ trace _ ?_
  · intro s a h
    have hg := handle_access_g cfg a.type a.address a.rand s
    cases hty : a.type <;> simp only [hty] at hg ⊢
    · rw [readEffect_dallocate hg]; exact h
    · rcases hg with hg | hg
      · rw [hg]; exact h
      · rw [readEffect_dallocate hg]; exact h
    · rcases hg with hg | hg
      · rw [hg]; exact h
      · rw [writeEffect_dallocate hg]; exact h
  · show (setup_caches cfg).g.dallocate = _
    rw [setup_caches_g]

/-- No line of the instruction cache is ever dirty. -/
theorem clean_I_simulate (cfg : Config) (trace : List Access) :
    Clean .I (simulate cfg trace) := by
  refine run_induction cfg (fun s => Clean .I s) ?_ trace _ (clean_setup cfg .I)
  intro s a h
  cases hty : a.type <;> simp only [handle_access]
  · exact clean_of_dirtyKept (cacheAccess_dirtyKept _ _ _ _ _ _) h
  · split
    · exact clean_of_dirtyKept (cacheAccess_dirtyKept _ _ _ _ _ _) h
    · exact h
  · split
    · intro r i
      rw [line_of_cache_eq (dWrite_cache_other cfg a.address a.rand s)]
      exact h r i
    · exact h

/-- With a write-through data cache no line is ever dirty and the words
written are one per write. -/
theorem through_simulate (cfg : Config)
    (hwt : cfg.dcache_info0.write_scheme = .WRITE_THROUGH) (trace : List Access) :
    Clean .D (simulate cfg trace) ∧ Clean .I (simulate cfg trace) ∧
    (simulate cfg trace).g.numWordsWritten = (simulate cfg trace).g.numWrites := by
  refine run_induction cfg
    (fun s => Clean .D s ∧ Clean .I s ∧ s.g.numWordsWritten = s.g.numWrites)
    ?_ trace _ ⟨clean_setup cfg .D, clean_setup cfg .I, ?_⟩
  · rintro s a ⟨hD, hI, hn⟩
    have hread : ∀ (p : CachePtr) (ci : CacheInfo) (w : Nat),
        Clean .D (cacheAccess a.address p ci w a.rand s) ∧
        Clean .I (cacheAccess a.address p ci w a.rand s) ∧
        (cacheAccess a.address p ci w a.rand s).g.numWordsWritten
          = (cacheAccess a.address p ci w a.rand s).g.numWrites := by
      intro p ci w
      have hk := cacheAccess_dirtyKept a.address p ci w a.rand s
      have hc : ∀ i, (s.line p (rowIndexOf ci a.address) i).dirty ≠ 1 := by
        intro i
        cases p
        · rw [hI _ i]; decide
        · rw [hD _ i]; decide
      obtain ⟨e1, e2⟩ := cacheAccess_numWordsWritten a.address p ci w a.rand s hc
      exact ⟨clean_of_dirtyKept hk hD, clean_of_dirtyKept hk hI, by rw [e1, e2, hn]⟩
    cases hty : a.type <;> simp only [handle_access]
    · exact hread _ _ _
    · split
      · exact hread _ _ _
      · exact ⟨hD, hI, hn⟩
    · split
      · have hk := dWrite_dirtyKept cfg a.address a.rand s hwt
        obtain ⟨e1, e2⟩ := dWrite_numWordsWritten cfg a.address a.rand s hwt
        exact ⟨clean_of_dirtyKept hk hD, clean_of_dirtyKept hk hI, by rw [e1, e2, hn]⟩
      · exact ⟨hD, hI, hn⟩
  · rw [setup_caches_g]
    rfl

/-- C13. In every state reached by a run, for every configuration and either
replacement policy, an instruction fetch changes only the five counters of the
instruction-read family: the data-cache array, `numWordsRead`,
`numWordsWritten` and every data-cache counter are what they were. No line of
the instruction cache is dirty in such a state, so the write-back of a dirty
victim in `ranReplace` and `lruReplace` never fires for it. -/
theorem instruction_fetch_moves_no_words (cfg : Config) (trace : List Access)
    (address rand : Nat) :
    (∀ r i, ((simulate cfg trace).line .I r i).dirty = 0) ∧
    (handle_access cfg .I_FETCH address rand (simulate cfg trace)).dCache
      = (simulate cfg trace).dCache ∧
    (handle_access cfg .I_FETCH address rand (simulate cfg trace)).g.numWordsRead
      = (simulate cfg trace).g.numWordsRead ∧
    (handle_access cfg .I_FETCH address rand (simulate cfg trace)).g.numWordsWritten
      = (simulate cfg trace).g.numWordsWritten ∧
    { (handle_access cfg .I_FETCH address rand (simulate cfg trace)).g with
        numReads := (simulate cfg trace).g.numReads,
        readHits := (simulate cfg trace).g.readHits,
        compul := (simulate cfg trace).g.compul,
        conflict := (simulate cfg trace).g.conflict,
        capacity := (simulate cfg trace).g.capacity } = (simulate cfg trace).g := by
  have hI := clean_I_simulate cfg trace
  generalize simulate cfg trace = s at hI ⊢
  have hc : ∀ i, (s.line .I (rowIndexOf cfg.icache_info address) i).dirty ≠ 1 := by
    intro i; rw [hI _ i]; decide
  have hn := (cacheAccess_numWordsWritten address .I cfg.icache_info 1 rand s hc).1
  have hg := cacheAccess_g address .I cfg.icache_info 1 rand s
  have hd := cacheAccess_cache_other address .I cfg.icache_info 1 rand s .D (by decide)
  show _ ∧ (cacheAccess address .I cfg.icache_info 1 rand s).dCache = s.dCache ∧
    (cacheAccess address .I cfg.icache_info 1 rand s).g.numWordsRead = _ ∧
    (cacheAccess address .I cfg.icache_info 1 rand s).g.numWordsWritten = _ ∧
    { (cacheAccess address .I cfg.icache_info 1 rand s).g with
        numReads := s.g.numReads, readHits := s.g.readHits, compul := s.g.compul,
        conflict := s.g.conflict, capacity := s.g.capacity } = s.g
  obtain ⟨hit, compul, conflict, capacity, ww, -, -, -, -, e⟩ := hg
  rw [if_pos (by decide)] at e
  have hww : ww = 0 := by
    rw [e] at hn
    simpa using hn
  subst hww
  refine ⟨hI, hd, ?_, hn, ?_⟩
  · rw [e]
  · rw [e]
    rfl

/-- C20. With a write-through data cache, whatever the allocation scheme, the
replacement policy and the geometry, in every state reached by a run no line
of the data cache is dirty and `numWordsWritten = numWrites`; from such a
state a data write adds exactly one word of write traffic (when a data cache
is configured) and a data read adds none. -/
theorem write_through_traffic (cfg : Config)
    (hwt : cfg.dcache_info0.write_scheme = .WRITE_THROUGH) (trace : List Access)
    (address rand : Nat) :
    (∀ r i, ((simulate cfg trace).line .D r i).dirty = 0) ∧
    (simulate cfg trace).g.numWordsWritten = (simulate cfg trace).g.numWrites ∧
    (0 < cfg.dcache_info0.associativity →
      (handle_access cfg .D_WRITE address rand (simulate cfg trace)).g.numWordsWritten
        = (simulate cfg trace).g.numWordsWritten + 1) ∧
    (handle_access cfg .D_READ address rand (simulate cfg trace)).g.numWordsWritten
      = (simulate cfg trace).g.numWordsWritten := by
  obtain ⟨hD, -, hn⟩ := through_simulate cfg hwt trace
  have hda := dallocate_simulate cfg trace
  generalize simulate cfg trace = s at hD hn hda ⊢
  refine ⟨hD, hn, ?_, ?_⟩
  · intro hpos
    have : s.g.dallocate ≠ 0 := by rw [hda, if_pos hpos]; decide
    simp only [handle_access, this, ne_eq, not_false_eq_true, if_true]
    exact (dWrite_numWordsWritten cfg address rand s hwt).1
  · simp only [handle_access]
    split
    · refine (cacheAccess_numWordsWritten address .D cfg.dcache_info0 0 rand s ?_).1
      intro i; rw [hD _ i]; decide
    · rfl

theorem write_through_traffic_witness :
    cfgWTNA.dcache_info0.write_scheme = .WRITE_THROUGH ∧
    0 < cfgWTNA.dcache_info0.associativity ∧
    (∀ r i, ((simulate cfgWTNA traceFullyAssoc).line .D r i).dirty = 0) ∧
    (simulate cfgWTNA traceFullyAssoc).g.numWordsWritten
      = (simulate cfgWTNA traceFullyAssoc).g.numWrites ∧
    (handle_access cfgWTNA .D_WRITE 0x8 0 (simulate cfgWTNA traceFullyAssoc)).g.numWordsWritten
      = (simulate cfgWTNA traceFullyAssoc).g.numWordsWritten + 1 ∧
    (handle_access cfgWTNA .D_READ 0x8 0 (simulate cfgWTNA traceFullyAssoc)).g.numWordsWritten
      = (simulate cfgWTNA traceFullyAssoc).g.numWordsWritten :=
  ⟨rfl, by decide,
   (write_through_traffic cfgWTNA rfl traceFullyAssoc 0x8 0).1,
   (write_through_traffic cfgWTNA rfl traceFullyAssoc 0x8 0).2.1,
   (write_through_traffic cfgWTNA rfl traceFullyAssoc 0x8 0).2.2.1 (by decide),
   (write_through_traffic cfgWTNA rfl traceFullyAssoc 0x8 0).2.2.2⟩

/-! ## The recency counters after `fixLRU` -/

theorem foldl_age_line (p : CachePtr) (r : Nat) (l : List Nat) (hnd : l.Nodup) :
    ∀ (s : State) (i : Nat), (∀ j ∈ l, s.inb p r j) →
      (l.foldl (fun (s : State) (j : Nat) => s.setLine p r j
          { s.line p r j with LRU := (s.line p r j).LRU + 1 }) s).line p r i
        = if i ∈ l then { s.line p r i with LRU := (s.line p r i).LRU + 1 }
          else s.line p r i := by
  induction l with
  | nil => intro s i _; simp
  | cons a l ih =>
    intro s i hin
    obtain ⟨ha, hl⟩ := List.nodup_cons.mp hnd
    simp only [List.foldl_cons]
    rw [ih hl _ i (fun j hj => (inb_setLine _ _ _ _ _ _ _ _).mpr
      (hin j (List.mem_cons_of_mem _ hj)))]
    rw [line_setLine_row _ _ _ _ _ _ (hin a (List.mem_cons_self _ _))]
    by_cases hia : i = a
    · subst hia
      simp [ha]
    · simp [hia]

/-- The lines of the row after `fixLRU`: way `k` has recency 0, every other
way of the set is one older, nothing else changes. -/
theorem fixLRU_line (r k : Nat) (p : CachePtr) (ci : CacheInfo) (s : State) (i : Nat)
    (hin : ∀ j, j < ci.associativity → s.inb p r j) (hk : k < ci.associativity)
    (hi : i < ci.associativity) :
    (fixLRU r k p ci s).line p r i
      = { s.line p r i with LRU := if i = k then 0 else (s.line p r i).LRU + 1 } := by
  have hfl : ∀ j, j < ci.associativity →
      ((List.range ci.associativity).foldl (fun (s : State) (j : Nat) => s.setLine p r j
          { s.line p r j with LRU := (s.line p r j).LRU + 1 }) s).line p r j
        = { s.line p r j with LRU := (s.line p r j).LRU + 1 } := by
    intro j hj
    rw [foldl_age_line p r (List.range ci.associativity) (List.nodup_range _) s j
      (fun j hj => hin j (List.mem_range.mp hj)), if_pos (List.mem_range.mpr hj)]
  have hinb := ((foldl_age p r (fun s j => (s.line p r j).LRU + 1)
    (List.range ci.associativity) s).2 p r k).1
  unfold fixLRU
  simp only []
  rw [line_setLine_row _ _ _ _ _ _ (hinb.mpr (hin k hk))]
  by_cases hik : i = k
  · subst hik
    rw [if_pos rfl, if_pos rfl, hfl i hi]
  · rw [if_neg hik, if_neg hik, hfl i hi]

/-- The state after the hit path of `dWrite` at way `k`. -/
theorem writeHit_state (cfg : Config) (r k : Nat) (s : State)
    (hin : ∀ j, j < cfg.dcache_info0.associativity → s.inb .D r j)
    (hk : k < cfg.dcache_info0.associativity) :
    (fixLRU r k .D cfg.dcache_info0 (performWrite cfg r k (countWHit (countWrite s)))).g
      = { s.g with
          numWrites := s.g.numWrites + 1, wHits := s.g.wHits + 1,
          numWordsWritten := s.g.numWordsWritten +
            (match cfg.dcache_info0.write_scheme with
              | .WRITE_THROUGH => 1
              | .WRITE_BACK => 0) } ∧
    ∀ i, i < cfg.dcache_info0.associativity →
      (fixLRU r k .D cfg.dcache_info0
          (performWrite cfg r k (countWHit (countWrite s)))).line .D r i
        = { tag := (s.line .D r i).tag, valid := (s.line .D r i).valid,
            dirty := if i = k then
                (match cfg.dcache_info0.write_scheme with
                  | .WRITE_THROUGH => (s.line .D r i).dirty
                  | .WRITE_BACK => 1)
              else (s.line .D r i).dirty,
            LRU := if i = k then 0 else (s.line .D r i).LRU + 1 } := by
  refine ⟨?_, fun i hi => ?_⟩
  · rw [fixLRU_g, performWrite_g]
    cases cfg.dcache_info0.write_scheme <;> simp [countWHit, countWrite]
  have hinW : ∀ j, j < cfg.dcache_info0.associativity →
      (countWHit (countWrite s)).inb .D r j := fun j hj => hin j hj
  have hinP : ∀ j, j < cfg.dcache_info0.associativity →
      (performWrite cfg r k (countWHit (countWrite s))).inb .D r j :=
    fun j hj => (performWrite_inb cfg r k _ .D r j).mpr (hinW j hj)
  rw [fixLRU_line r k .D cfg.dcache_info0 _ i hinP hk hi]
  have hc := performWrite_cache cfg r k (countWHit (countWrite s))
  cases hws : cfg.dcache_info0.write_scheme <;> simp only [hws] at hc
  · rw [line_of_cache hc, line_setLine_row _ _ _ _ _ _ (hinW k hk)]
    by_cases hik : i = k
    · subst hik
      simp
    · simp [hik]
  · rw [line_of_cache hc]
    by_cases hik : i = k
    · subst hik
      simp
    · simp [hik]

/-- C11. In a state reached by a run of a valid configuration, a data write
whose tag is held by a valid line of its set is a hit at some such way `k`:
`wHits` grows by 1 and `numWordsRead` stays; under write-through
`numWordsWritten` grows by exactly 1 and tag, valid and dirty flag of the line
are unchanged; under write-back the line becomes dirty and `numWordsWritten`
stays; in both cases the recency of way `k` becomes 0 and that of every other
way of the set grows by 1. -/
theorem write_hit_effect (cfg : Config) (hv : cfg.Valid) (trace : List Access)
    (address rand : Nat)
    (hp : Present cfg.dcache_info0 .D (rowIndexOf cfg.dcache_info0 address)
      (tagOf cfg.dcache_info0 address) (simulate cfg trace)) :
    ∃ k, k < cfg.dcache_info0.associativity ∧
      ((simulate cfg trace).line .D (rowIndexOf cfg.dcache_info0 address) k).valid = 1 ∧
      ((simulate cfg trace).line .D (rowIndexOf cfg.dcache_info0 address) k).tag
        = tagOf cfg.dcache_info0 address ∧
      (handle_access cfg .D_WRITE address rand (simulate cfg trace)).g.wHits
        = (simulate cfg trace).g.wHits + 1 ∧
      (handle_access cfg .D_WRITE address rand (simulate cfg trace)).g.numWordsRead
        = (simulate cfg trace).g.numWordsRead ∧
      (cfg.dcache_info0.write_scheme = .WRITE_THROUGH →
        (handle_access cfg .D_WRITE address rand (simulate cfg trace)).g.numWordsWritten
          = (simulate cfg trace).g.numWordsWritten + 1 ∧
        ((handle_access cfg .D_WRITE address rand (simulate cfg trace)).line .D
            (rowIndexOf cfg.dcache_info0 address) k).tag
          = ((simulate cfg trace).line .D (rowIndexOf cfg.dcache_info0 address) k).tag ∧
        ((handle_access cfg .D_WRITE address rand (simulate cfg trace)).line .D
            (rowIndexOf cfg.dcache_info0 address) k).valid
          = ((simulate cfg trace).line .D (rowIndexOf cfg.dcache_info0 address) k).valid ∧
        ((handle_access cfg .D_WRITE address rand (simulate cfg trace)).line .D
            (rowIndexOf cfg.dcache_info0 address) k).dirty
          = ((simulate cfg trace).line .D (rowIndexOf cfg.dcache_info0 address) k).dirty) ∧
      (cfg.dcache_info0.write_scheme = .WRITE_BACK →
        ((handle_access cfg .D_WRITE address rand (simulate cfg trace)).line .D
            (rowIndexOf cfg.dcache_info0 address) k).dirty = 1 ∧
        (handle_access cfg .D_WRITE address rand (simulate cfg trace)).g.numWordsWritten
          = (simulate cfg trace).g.numWordsWritten) ∧
      ((handle_access cfg .D_WRITE address rand (simulate cfg trace)).line .D
          (rowIndexOf cfg.dcache_info0 address) k).LRU = 0 ∧
      ∀ i, i < cfg.dcache_info0.associativity → i ≠ k →
        ((handle_access cfg .D_WRITE address rand (simulate cfg trace)).line .D
            (rowIndexOf cfg.dcache_info0 address) i).LRU
          = ((simulate cfg trace).line .D (rowIndexOf cfg.dcache_info0 address) i).LRU + 1 := by
  have hinv := stateInv_simulate cfg hv trace
  generalize simulate cfg trace = s at hp hinv ⊢
  obtain ⟨i0, hi0, hv0, ht0⟩ := hp
  have hpos : cfg.dcache_info0.associativity > 0 := by omega
  have hr := rowIndexOf_lt_of_valid (dValid_of_pos hv hpos) address
  obtain ⟨hs, hb, hpk⟩ := hinv.2.1
  have hin : ∀ j, j < cfg.dcache_info0.associativity →
      s.inb .D (rowIndexOf cfg.dcache_info0 address) j := fun j hj => (hs _ _).mpr ⟨hr, hj⟩
  have hda : s.g.dallocate ≠ 0 := by rw [hinv.2.2, if_pos hpos]; decide
  have hE : handle_access cfg .D_WRITE address rand s = dWrite cfg address rand s := by
    simp only [handle_access, hda, ne_eq, not_false_eq_true, if_true]
  rw [hE]
  have hhit : ∀ k, k < cfg.dcache_info0.associativity →
      (s.line .D (rowIndexOf cfg.dcache_info0 address) k).valid = 1 →
      (s.line .D (rowIndexOf cfg.dcache_info0 address) k).tag = tagOf cfg.dcache_info0 address →
      ∀ X : State,
      X = fixLRU (rowIndexOf cfg.dcache_info0 address) k .D cfg.dcache_info0
          (performWrite cfg (rowIndexOf cfg.dcache_info0 address) k (countWHit (countWrite s))) →
      ∃ k, k < cfg.dcache_info0.associativity ∧
        (s.line .D (rowIndexOf cfg.dcache_info0 address) k).valid = 1 ∧
        (s.line .D (rowIndexOf cfg.dcache_info0 address) k).tag
          = tagOf cfg.dcache_info0 address ∧
        X.g.wHits = s.g.wHits + 1 ∧ X.g.numWordsRead = s.g.numWordsRead ∧
        (cfg.dcache_info0.write_scheme = .WRITE_THROUGH →
          X.g.numWordsWritten = s.g.numWordsWritten + 1 ∧
          (X.line .D (rowIndexOf cfg.dcache_info0 address) k).tag
            = (s.line .D (rowIndexOf cfg.dcache_info0 address) k).tag ∧
          (X.line .D (rowIndexOf cfg.dcache_info0 address) k).valid
            = (s.line .D (rowIndexOf cfg.dcache_info0 address) k).valid ∧
          (X.line .D (rowIndexOf cfg.dcache_info0 address) k).dirty
            = (s.line .D (rowIndexOf cfg.dcache_info0 address) k).dirty) ∧
        (cfg.dcache_info0.write_scheme = .WRITE_BACK →
          (X.line .D (rowIndexOf cfg.dcache_info0 address) k).dirty = 1 ∧
          X.g.numWordsWritten = s.g.numWordsWritten) ∧
        (X.line .D (rowIndexOf cfg.dcache_info0 address) k).LRU = 0 ∧
        ∀ i, i < cfg.dcache_info0.associativity → i ≠ k →
          (X.line .D (rowIndexOf cfg.dcache_info0 address) i).LRU
            = (s.line .D (rowIndexOf cfg.dcache_info0 address) i).LRU + 1 := by
    intro k hk hkv hkt X hX
    obtain ⟨hg, hl⟩ := writeHit_state cfg (rowIndexOf cfg.dcache_info0 address) k s hin hk
    rw [← hX] at hg hl
    refine ⟨k, hk, hkv, hkt, by rw [hg], by rw [hg], ?_, ?_, ?_, ?_⟩
    · intro hws
      rw [hg, hl k hk, hws]
      simp
    · intro hws
      rw [hg, hl k hk, hws]
      simp
    · rw [hl k hk]
      simp
    · intro i hi hik
      rw [hl i hi]
      simp [hik]
  refine dWrite_cases cfg address rand s (fun X =>
      ∃ k, k < cfg.dcache_info0.associativity ∧
        (s.line .D (rowIndexOf cfg.dcache_info0 address) k).valid = 1 ∧
        (s.line .D (rowIndexOf cfg.dcache_info0 address) k).tag
          = tagOf cfg.dcache_info0 address ∧
        X.g.wHits = s.g.wHits + 1 ∧ X.g.numWordsRead = s.g.numWordsRead ∧
        (cfg.dcache_info0.write_scheme = .WRITE_THROUGH →
          X.g.numWordsWritten = s.g.numWordsWritten + 1 ∧
          (X.line .D (rowIndexOf cfg.dcache_info0 address) k).tag
            = (s.line .D (rowIndexOf cfg.dcache_info0 address) k).tag ∧
          (X.line .D (rowIndexOf cfg.dcache_info0 address) k).valid
            = (s.line .D (rowIndexOf cfg.dcache_info0 address) k).valid ∧
          (X.line .D (rowIndexOf cfg.dcache_info0 address) k).dirty
            = (s.line .D (rowIndexOf cfg.dcache_info0 address) k).dirty) ∧
        (cfg.dcache_info0.write_scheme = .WRITE_BACK →
          (X.line .D (rowIndexOf cfg.dcache_info0 address) k).dirty = 1 ∧
          X.g.numWordsWritten = s.g.numWordsWritten) ∧
        (X.line .D (rowIndexOf cfg.dcache_info0 address) k).LRU = 0 ∧
        ∀ i, i < cfg.dcache_info0.associativity → i ≠ k →
          (X.line .D (rowIndexOf cfg.dcache_info0 address) i).LRU
            = (s.line .D (rowIndexOf cfg.dcache_info0 address) i).LRU + 1)
    ?_ ?_ ?_ ?_ ?_ ?_ ?_
  · intro h0 ht
    exact hhit 0 hpos h0 ht _ rfl
  · intro _ ht ha
    have : i0 = 0 := by omega
    subst this
    exact absurd ht0 ht
  · intro i _ _ _ hsc
    obtain ⟨-, hi, hiv, hit⟩ := scanWrite_some hsc
    exact hhit i hi hiv hit _ rfl
  · intro k _ ht _ hsc _
    by_cases hz : i0 = 0
    · subst hz
      exact absurd ht0 ht
    · exact absurd ⟨hv0, ht0⟩ (scanWrite_none hsc i0 (by omega) hi0)
  · intro _ ht _ hsc _ _
    by_cases hz : i0 = 0
    · subst hz
      exact absurd ht0 ht
    · exact absurd ⟨hv0, ht0⟩ (scanWrite_none hsc i0 (by omega) hi0)
  · intro _ ht _ hsc _ _
    by_cases hz : i0 = 0
    · subst hz
      exact absurd ht0 ht
    · exact absurd ⟨hv0, ht0⟩ (scanWrite_none hsc i0 (by omega) hi0)
  · intro h0
    exact absurd (hpk _ 0 i0 (Nat.zero_le _) hv0) h0

theorem write_hit_effect_witness :
    ∃ k, k < cfgLRU2.dcache_info0.associativity ∧
      ((simulate cfgLRU2 (readsABAC .D_READ 0 0 0 0)).line .D (rowIndexOf cfgLRU2.dcache_info0 0xC) k).valid = 1 ∧
      ((simulate cfgLRU2 (readsABAC .D_READ 0 0 0 0)).line .D (rowIndexOf cfgLRU2.dcache_info0 0xC) k).tag
        = tagOf cfgLRU2.dcache_info0 0xC ∧
      (handle_access cfgLRU2 .D_WRITE 0xC 0 (simulate cfgLRU2 (readsABAC .D_READ 0 0 0 0))).g.wHits
        = (simulate cfgLRU2 (readsABAC .D_READ 0 0 0 0)).g.wHits + 1 ∧
      (handle_access cfgLRU2 .D_WRITE 0xC 0 (simulate cfgLRU2 (readsABAC .D_READ 0 0 0 0))).g.numWordsRead
        = (simulate cfgLRU2 (readsABAC .D_READ 0 0 0 0)).g.numWordsRead ∧
      (cfgLRU2.dcache_info0.write_scheme = .WRITE_THROUGH →
        (handle_access cfgLRU2 .D_WRITE 0xC 0 (simulate cfgLRU2 (readsABAC .D_READ 0 0 0 0))).g.numWordsWritten
          = (simulate cfgLRU2 (readsABAC .D_READ 0 0 0 0)).g.numWordsWritten + 1 ∧
        ((handle_access cfgLRU2 .D_WRITE 0xC 0 (simulate cfgLRU2 (readsABAC .D_READ 0 0 0 0))).line .D
            (rowIndexOf cfgLRU2.dcache_info0 0xC) k).tag
          = ((simulate cfgLRU2 (readsABAC .D_READ 0 0 0 0)).line .D (rowIndexOf cfgLRU2.dcache_info0 0xC) k).tag ∧
        ((handle_access cfgLRU2 .D_WRITE 0xC 0 (simulate cfgLRU2 (readsABAC .D_READ 0 0 0 0))).line .D
            (rowIndexOf cfgLRU2.dcache_info0 0xC) k).valid
          = ((simulate cfgLRU2 (readsABAC .D_READ 0 0 0 0)).line .D (rowIndexOf cfgLRU2.dcache_info0 0xC) k).valid ∧
        ((handle_access cfgLRU2 .D_WRITE 0xC 0 (simulate cfgLRU2 (readsABAC .D_READ 0 0 0 0))).line .D
            (rowIndexOf cfgLRU2.dcache_info0 0xC) k).dirty
          = ((simulate cfgLRU2 (readsABAC .D_READ 0 0 0 0)).line .D (rowIndexOf cfgLRU2.dcache_info0 0xC) k).dirty) ∧
      (cfgLRU2.dcache_info0.write_scheme = .WRITE_BACK →
        ((handle_access cfgLRU2 .D_WRITE 0xC 0 (simulate cfgLRU2 (readsABAC .D_READ 0 0 0 0))).line .D
            (rowIndexOf cfgLRU2.dcache_info0 0xC) k).dirty = 1 ∧
        (handle_access cfgLRU2 .D_WRITE 0xC 0 (simulate cfgLRU2 (readsABAC .D_READ 0 0 0 0))).g.numWordsWritten
          = (simulate cfgLRU2 (readsABAC .D_READ 0 0 0 0)).g.numWordsWritten) ∧
      ((handle_access cfgLRU2 .D_WRITE 0xC 0 (simulate cfgLRU2 (readsABAC .D_READ 0 0 0 0))).line .D
          (rowIndexOf cfgLRU2.dcache_info0 0xC) k).LRU = 0 ∧
      ∀ i, i < cfgLRU2.dcache_info0.associativity → i ≠ k →
        ((handle_access cfgLRU2 .D_WRITE 0xC 0 (simulate cfgLRU2 (readsABAC .D_READ 0 0 0 0))).line .D
            (rowIndexOf cfgLRU2.dcache_info0 0xC) i).LRU
          = ((simulate cfgLRU2 (readsABAC .D_READ 0 0 0 0)).line .D (rowIndexOf cfgLRU2.dcache_info0 0xC) i).LRU + 1 :=
  write_hit_effect cfgLRU2
    ⟨⟨by decide, ⟨0, rfl⟩, ⟨0, rfl⟩⟩, Or.inr ⟨by decide, ⟨0, rfl⟩, ⟨0, rfl⟩⟩⟩
    (readsABAC .D_READ 0 0 0 0) 0xC 0 ⟨1, by decide, by decide, by decide⟩

/-! ## Classification of reads -/

theorem readsBy_hit (w : Nat) (s X : State) (h : X.g = (countHit w (countRead w s)).g) :
    X.g.readsBy w = List.zipWith (· + ·) (s.g.readsBy w) [1, 1, 0, 0, 0] := by
  rw [h]
  unfold Globals.readsBy Globals.readsI Globals.readsD countHit countRead
  split_ifs <;> simp

theorem readsBy_compul (w : Nat) (s X : State) (h : X.g = (countCompul w (countRead w s)).g) :
    X.g.readsBy w = List.zipWith (· + ·) (s.g.readsBy w) [1, 0, 1, 0, 0] := by
  rw [h]
  unfold Globals.readsBy Globals.readsI Globals.readsD countCompul countRead
  split_ifs <;> simp

theorem readsBy_conflict (w : Nat) (s X : State)
    (h : X.g = (countConflict w (countRead w s)).g) :
    X.g.readsBy w = List.zipWith (· + ·) (s.g.readsBy w) [1, 0, 0, 1, 0] := by
  rw [h]
  unfold Globals.readsBy Globals.readsI Globals.readsD countConflict countRead
  split_ifs <;> simp

theorem readsBy_capacity (w : Nat) (s X : State)
    (h : X.g = (countCapacity w (countRead w s)).g ∨
      ∃ n, X.g = { (countCapacity w (countRead w s)).g with numWordsWritten := n }) :
    X.g.readsBy w = List.zipWith (· + ·) (s.g.readsBy w) [1, 0, 0, 0, 1] := by
  rcases h with h | ⟨n, h⟩ <;> rw [h] <;>
    unfold Globals.readsBy Globals.readsI Globals.readsD countCapacity countRead <;>
    split_ifs <;> simp

theorem not_present_of_invalid {ci : CacheInfo} {p : CachePtr} {r t : Nat} {s : State}
    (hpk : ∀ r i j, i ≤ j → (s.line p r j).valid = 1 → (s.line p r i).valid = 1)
    {i : Nat} (hi : (s.line p r i).valid = 0)
    (hlow : ∀ j, j < i → ¬ ((s.line p r j).valid = 1 ∧ (s.line p r j).tag = t)) :
    ¬ Present ci p r t s := by
  rintro ⟨j, -, hjv, hjt⟩
  by_cases hji : j < i
  · exact hlow j hji ⟨hjv, hjt⟩
  · have := hpk r i j (by omega) hjv
    omega

theorem installed_line (r k t : Nat) (p : CachePtr) (ci : CacheInfo) (X : State)
    (hin : X.inb p r k) :
    ((fixLRU r k p ci
        (X.setLine p r k { X.line p r k with tag := t, valid := 1 })).line p r k).tag = t ∧
    ((fixLRU r k p ci
        (X.setLine p r k { X.line p r k with tag := t, valid := 1 })).line p r k).valid
      = 1 := by
  obtain ⟨-, h⟩ := fixLRU_frame r k p ci
    (X.setLine p r k { X.line p r k with tag := t, valid := 1 })
  obtain ⟨-, h1, h2, -⟩ := h p r k
  rw [h1, h2, line_setLine_row _ _ _ _ _ _ hin, if_pos rfl]
  exact ⟨rfl, rfl⟩

/-- The counters of a read follow the classification of the specification,
and a compulsory miss installs the tag in the lowest invalid way. -/
theorem cacheAccess_classify (address : Nat) (p : CachePtr) (ci : CacheInfo) (w rand : Nat)
    (s : State) (hwf : WellFormed ci p s)
    (hr : rowIndexOf ci address < ci.num_blocks / ci.associativity)
    (ha : 1 ≤ ci.associativity) :
    (cacheAccess address p ci w rand s).g.readsBy w
      = List.zipWith (· + ·) (s.g.readsBy w)
          (specReadClass ci p (rowIndexOf ci address) (tagOf ci address) s) ∧
    (¬ Present ci p (rowIndexOf ci address) (tagOf ci address) s →
      ∀ k, k < ci.associativity → (s.line p (rowIndexOf ci address) k).valid = 0 →
        (∀ j, j < k → (s.line p (rowIndexOf ci address) j).valid ≠ 0) →
        ((cacheAccess address p ci w rand s).line p (rowIndexOf ci address) k).tag
          = tagOf ci address ∧
        ((cacheAccess address p ci w rand s).line p (rowIndexOf ci address) k).valid = 1) := by
  obtain ⟨hs, hb, hpk⟩ := hwf
  have hin : ∀ k, k < ci.associativity → s.inb p (rowIndexOf ci address) k :=
    fun k hk => (hs _ _).mpr ⟨hr, hk⟩
  have hcompul : ∀ i, i < ci.associativity →
      (s.line p (rowIndexOf ci address) i).valid = 0 →
      (∀ j, j < i → (s.line p (rowIndexOf ci address) j).valid ≠ 0 ∧
        ¬ ((s.line p (rowIndexOf ci address) j).valid = 1 ∧
          (s.line p (rowIndexOf ci address) j).tag = tagOf ci address)) →
      ∀ X : State,
      X = fixLRU (rowIndexOf ci address) i p ci
        ((countCompul w (countRead w s)).setLine p (rowIndexOf ci address) i
          { s.line p (rowIndexOf ci address) i with tag := tagOf ci address, valid := 1 }) →
      X.g.readsBy w = List.zipWith (· + ·) (s.g.readsBy w)
          (specReadClass ci p (rowIndexOf ci address) (tagOf ci address) s) ∧
      (¬ Present ci p (rowIndexOf ci address) (tagOf ci address) s →
        ∀ k, k < ci.associativity → (s.line p (rowIndexOf ci address) k).valid = 0 →
          (∀ j, j < k → (s.line p (rowIndexOf ci address) j).valid ≠ 0) →
          (X.line p (rowIndexOf ci address) k).tag = tagOf ci address ∧
          (X.line p (rowIndexOf ci address) k).valid = 1) := by
    intro i hi hiv hlow X hX
    have hnp : ¬ Present ci p (rowIndexOf ci address) (tagOf ci address) s :=
      not_present_of_invalid hpk hiv (fun j hj => (hlow j hj).2)
    have hcl : specReadClass ci p (rowIndexOf ci address) (tagOf ci address) s
        = [1, 0, 1, 0, 0] := by
      unfold specReadClass
      rw [if_neg hnp, if_pos ⟨i, hi, hiv⟩]
    refine ⟨?_, ?_⟩
    · rw [hcl]
      exact readsBy_compul w s X (by rw [hX, fixLRU_g, g_setLine])
    · intro _ k hk hkv hklow
      have hki : k = i := by
        by_contra hne
        rcases Nat.lt_or_gt_of_ne hne with h | h
        · exact (hlow k h).1 hkv
        · exact hklow i h hiv
      subst hki
      have hinX : (countCompul w (countRead w s)).inb p (rowIndexOf ci address) k :=
        (inb_congr (by simp) (by simp) p _ k).mpr (hin k hk)
      have := installed_line (rowIndexOf ci address) k (tagOf ci address) p ci
        (countCompul w (countRead w s)) hinX
      simp only [line_countCompul, line_countRead] at this
      rw [hX]
      exact this
  have hhit : ∀ i, i < ci.associativity →
      (s.line p (rowIndexOf ci address) i).valid = 1 →
      (s.line p (rowIndexOf ci address) i).tag = tagOf ci address →
      ∀ X : State, X.g = (countHit w (countRead w s)).g →
      X.g.readsBy w = List.zipWith (· + ·) (s.g.readsBy w)
          (specReadClass ci p (rowIndexOf ci address) (tagOf ci address) s) ∧
      (¬ Present ci p (rowIndexOf ci address) (tagOf ci address) s →
        ∀ k, k < ci.associativity → (s.line p (rowIndexOf ci address) k).valid = 0 →
          (∀ j, j < k → (s.line p (rowIndexOf ci address) j).valid ≠ 0) →
          (X.line p (rowIndexOf ci address) k).tag = tagOf ci address ∧
          (X.line p (rowIndexOf ci address) k).valid = 1) := by
    intro i hi hiv hit X hX
    have hp : Present ci p (rowIndexOf ci address) (tagOf ci address) s := ⟨i, hi, hiv, hit⟩
    refine ⟨?_, fun hnp => absurd hp hnp⟩
    unfold specReadClass
    rw [if_pos hp]
    exact readsBy_hit w s X hX
  have hfull : (∀ j, j < ci.associativity →
        (s.line p (rowIndexOf ci address) j).valid ≠ 0 ∧
        ¬ ((s.line p (rowIndexOf ci address) j).valid = 1 ∧
          (s.line p (rowIndexOf ci address) j).tag = tagOf ci address)) →
      ¬ Present ci p (rowIndexOf ci address) (tagOf ci address) s ∧
      ¬ ∃ i, i < ci.associativity ∧ (s.line p (rowIndexOf ci address) i).valid = 0 := by
    intro h
    refine ⟨?_, ?_⟩
    · rintro ⟨j, hj, hjv, hjt⟩
      exact (h j hj).2 ⟨hjv, hjt⟩
    · rintro ⟨j, hj, hjv⟩
      exact (h j hj).1 hjv
  refine cacheAccess_cases address p ci w rand s (fun X =>
      X.g.readsBy w = List.zipWith (· + ·) (s.g.readsBy w)
          (specReadClass ci p (rowIndexOf ci address) (tagOf ci address) s) ∧
      (¬ Present ci p (rowIndexOf ci address) (tagOf ci address) s →
        ∀ k, k < ci.associativity → (s.line p (rowIndexOf ci address) k).valid = 0 →
          (∀ j, j < k → (s.line p (rowIndexOf ci address) j).valid ≠ 0) →
          (X.line p (rowIndexOf ci address) k).tag = tagOf ci address ∧
          (X.line p (rowIndexOf ci address) k).valid = 1))
    ?_ ?_ ?_ ?_ ?_ ?_ ?_
  · intro h0
    exact hcompul 0 ha h0 (fun j hj => absurd hj (by omega)) _ rfl
  · intro h0 ht
    exact hhit 0 ha (valid_eq_one_of_ne_zero hb h0) ht _ (by rw [fixLRU_g])
  · intro h0 ht ha1
    obtain ⟨hnp, hno⟩ := hfull (fun j hj => by
      have : j = 0 := by omega
      subst this
      exact ⟨h0, fun h => ht h.2⟩)
    refine ⟨?_, fun _ k hk hkv _ => absurd ⟨k, hk, hkv⟩ hno⟩
    unfold specReadClass
    rw [if_neg hnp, if_neg hno, if_pos ha1]
    exact readsBy_conflict w s _ (by rw [g_setLine])
  · intro i _ _ _ hsc hiv
    obtain ⟨hi, hor, -⟩ := scanRead_some hsc
    rcases hor with ⟨-, hit⟩ | h
    · refine hhit i hi hiv hit _ ?_
      unfold countHit
      split_ifs <;> simp
    · omega
  · intro i _ _ _ hsc hiv
    obtain ⟨hi, hor, hlow⟩ := scanRead_some hsc
    rcases hor with ⟨h, -⟩ | h
    · exact absurd h hiv
    · exact hcompul i hi h hlow _ rfl
  · intro _ _ ha1 hsc _
    obtain ⟨hnp, hno⟩ := hfull (scanRead_none hsc)
    refine ⟨?_, fun _ k hk hkv _ => absurd ⟨k, hk, hkv⟩ hno⟩
    unfold specReadClass
    rw [if_neg hnp, if_neg hno, if_neg ha1]
    refine readsBy_capacity w s _ ?_
    rw [ranReplace_g]
    split
    · exact Or.inr ⟨_, rfl⟩
    · exact Or.inl rfl
  · intro _ _ ha1 hsc _
    obtain ⟨hnp, hno⟩ := hfull (scanRead_none hsc)
    refine ⟨?_, fun _ k hk hkv _ => absurd ⟨k, hk, hkv⟩ hno⟩
    unfold specReadClass
    rw [if_neg hnp, if_neg hno, if_neg ha1]
    refine readsBy_capacity w s _ ?_
    rw [lruReplace_g]
    split
    · exact Or.inr ⟨_, rfl⟩
    · exact Or.inl rfl

/-- C17. In every state reached by a run of a valid configuration, a read
of cache `p` through `cacheAccess` moves the read counters selected by
`whichCounts` as the classification of the specification says: a hit iff a
valid line of the set holds the tag; otherwise a compulsory miss iff the set
has an invalid way; otherwise a conflict miss iff the associativity is 1;
otherwise a capacity miss. On a compulsory miss the tag is installed, valid,
in the lowest-indexed invalid way. -/
theorem read_classification (cfg : Config) (hv : cfg.Valid) (p : CachePtr)
    (hpos : 1 ≤ (cfg.info p).associativity) (trace : List Access)
    (address w rand : Nat) :
    (cacheAccess address p (cfg.info p) w rand (simulate cfg trace)).g.readsBy w
      = List.zipWith (· + ·) ((simulate cfg trace).g.readsBy w)
          (specReadClass (cfg.info p) p (rowIndexOf (cfg.info p) address)
            (tagOf (cfg.info p) address) (simulate cfg trace)) ∧
    (¬ Present (cfg.info p) p (rowIndexOf (cfg.info p) address)
        (tagOf (cfg.info p) address) (simulate cfg trace) →
      ∀ k, k < (cfg.info p).associativity →
        ((simulate cfg trace).line p (rowIndexOf (cfg.info p) address) k).valid = 0 →
        (∀ j, j < k →
          ((simulate cfg trace).line p (rowIndexOf (cfg.info p) address) j).valid ≠ 0) →
        ((cacheAccess address p (cfg.info p) w rand (simulate cfg trace)).line p
            (rowIndexOf (cfg.info p) address) k).tag = tagOf (cfg.info p) address ∧
        ((cacheAccess address p (cfg.info p) w rand (simulate cfg trace)).line p
            (rowIndexOf (cfg.info p) address) k).valid = 1) := by
  have hinv := stateInv_simulate cfg hv trace
  have hval : (cfg.info p).Valid := by
    cases p
    · exact hv.1
    · exact dValid_of_pos hv hpos
  have hwf : WellFormed (cfg.info p) p (simulate cfg trace) := by
    cases p
    · exact hinv.1
    · exact hinv.2.1
  exact cacheAccess_classify address p (cfg.info p) w rand (simulate cfg trace) hwf
    (rowIndexOf_lt_of_valid hval address) hpos

theorem read_classification_witness :
    (cacheAccess 0xC .D (cfgLRU2.info .D) 0 0
        (simulate cfgLRU2 [⟨.D_READ, 0x4, 0⟩, ⟨.D_READ, 0x8, 0⟩])).g.readsBy 0
      = List.zipWith (· + ·)
          ((simulate cfgLRU2 [⟨.D_READ, 0x4, 0⟩, ⟨.D_READ, 0x8, 0⟩]).g.readsBy 0)
          (specReadClass (cfgLRU2.info .D) .D (rowIndexOf (cfgLRU2.info .D) 0xC)
            (tagOf (cfgLRU2.info .D) 0xC)
            (simulate cfgLRU2 [⟨.D_READ, 0x4, 0⟩, ⟨.D_READ, 0x8, 0⟩])) ∧
    specReadClass (cfgLRU2.info .D) .D (rowIndexOf (cfgLRU2.info .D) 0xC)
        (tagOf (cfgLRU2.info .D) 0xC)
        (simulate cfgLRU2 [⟨.D_READ, 0x4, 0⟩, ⟨.D_READ, 0x8, 0⟩]) = [1, 0, 0, 0, 1] :=
  ⟨(read_classification cfgLRU2
      ⟨⟨by decide, ⟨0, rfl⟩, ⟨0, rfl⟩⟩, Or.inr ⟨by decide, ⟨0, rfl⟩, ⟨0, rfl⟩⟩⟩
      .D (by decide) [⟨.D_READ, 0x4, 0⟩, ⟨.D_READ, 0x8, 0⟩] 0xC 0 0).1,
   by decide⟩

/-! ## Classification of data writes -/

theorem writeCounters_hit (cfg : Config) (r k : Nat) (s : State) :
    (fixLRU r k .D cfg.dcache_info0
        (performWrite cfg r k (countWHit (countWrite s)))).g.writeCounters
      = List.zipWith (· + ·) s.g.writeCounters [1, 0, 0, 0] := by
  rw [fixLRU_g, performWrite_g]
  simp [Globals.writeCounters, countWHit, countWrite]

theorem writeCounters_writeMem (cfg : Config) (r k t : Nat) (s : State) :
    (writeMem cfg r k .D cfg.dcache_info0 t (countWrite s)).g.writeCounters
      = List.zipWith (· + ·) s.g.writeCounters
          (if cfg.dcache_info0.associativity = 1 then [0, 0, 1, 0] else [0, 0, 0, 1]) := by
  rw [writeMem_g]
  by_cases h : cfg.dcache_info0.associativity = 1 <;>
    simp [Globals.writeCounters, countWrite, h]

theorem writeCounters_fill (cfg : Config) (r k n t : Nat) (s : State) :
    (fillOpenSpace cfg r k n t (countWrite s)).g.writeCounters
      = List.zipWith (· + ·) s.g.writeCounters
          (if ¬ (cfg.dcache_info0.write_scheme = .WRITE_THROUGH ∧
              cfg.dcache_info0.allocate_scheme = .NO_ALLOCATE) then [0, 1, 0, 0]
            else if cfg.dcache_info0.associativity = 1 then [0, 0, 1, 0]
            else [0, 0, 0, 1]) := by
  rw [fillOpenSpace_g]
  by_cases h : cfg.dcache_info0.associativity = 1 <;>
    cases cfg.dcache_info0.write_scheme <;> cases cfg.dcache_info0.allocate_scheme <;>
    simp [Globals.writeCounters, countWrite, h]

/-- The class counters of a data write follow `writeClass`. -/
theorem dWrite_classify (cfg : Config) (address rand : Nat) (s : State)
    (hwf : WellFormed cfg.dcache_info0 .D s)
    (ha : 1 ≤ cfg.dcache_info0.associativity) :
    (dWrite cfg address rand s).g.writeCounters
      = List.zipWith (· + ·) s.g.writeCounters
          (writeClass cfg (rowIndexOf cfg.dcache_info0 address)
            (tagOf cfg.dcache_info0 address) s) := by
  obtain ⟨-, hb, hpk⟩ := hwf
  have hhit : ∀ k, k < cfg.dcache_info0.associativity →
      (s.line .D (rowIndexOf cfg.dcache_info0 address) k).valid = 1 →
      (s.line .D (rowIndexOf cfg.dcache_info0 address) k).tag = tagOf cfg.dcache_info0 address →
      writeClass cfg (rowIndexOf cfg.dcache_info0 address) (tagOf cfg.dcache_info0 address) s
        = [1, 0, 0, 0] := by
    intro k hk hkv hkt
    unfold writeClass
    rw [if_pos ⟨k, hk, hkv, hkt⟩]
  have hfill : ∀ k, k < cfg.dcache_info0.associativity →
      (s.line .D (rowIndexOf cfg.dcache_info0 address) k).valid = 0 →
      ¬ Present cfg.dcache_info0 .D (rowIndexOf cfg.dcache_info0 address)
        (tagOf cfg.dcache_info0 address) s →
      writeClass cfg (rowIndexOf cfg.dcache_info0 address) (tagOf cfg.dcache_info0 address) s
        = (if ¬ (cfg.dcache_info0.write_scheme = .WRITE_THROUGH ∧
              cfg.dcache_info0.allocate_scheme = .NO_ALLOCATE) then [0, 1, 0, 0]
            else if cfg.dcache_info0.associativity = 1 then [0, 0, 1, 0]
            else [0, 0, 0, 1]) := by
    intro k hk hkv hnp
    unfold writeClass
    rw [if_neg hnp]
    by_cases hna : cfg.dcache_info0.write_scheme = .WRITE_THROUGH ∧
        cfg.dcache_info0.allocate_scheme = .NO_ALLOCATE
    · have h1 : ¬ ((∃ i, i < cfg.dcache_info0.associativity ∧
          (s.line .D (rowIndexOf cfg.dcache_info0 address) i).valid = 0) ∧
          ¬ (cfg.dcache_info0.write_scheme = .WRITE_THROUGH ∧
            cfg.dcache_info0.allocate_scheme = .NO_ALLOCATE)) := fun h => h.2 hna
      rw [if_neg h1, if_neg (not_not.mpr hna)]
    · rw [if_pos ⟨⟨k, hk, hkv⟩, hna⟩, if_pos hna]
  have hmem : (∀ j, j < cfg.dcache_info0.associativity →
        (s.line .D (rowIndexOf cfg.dcache_info0 address) j).valid ≠ 0) →
      ¬ Present cfg.dcache_info0 .D (rowIndexOf cfg.dcache_info0 address)
        (tagOf cfg.dcache_info0 address) s →
      writeClass cfg (rowIndexOf cfg.dcache_info0 address) (tagOf cfg.dcache_info0 address) s
        = (if cfg.dcache_info0.associativity = 1 then [0, 0, 1, 0] else [0, 0, 0, 1]) := by
    intro hall hnp
    unfold writeClass
    rw [if_neg hnp, if_neg]
    rintro ⟨⟨j, hj, hjv⟩, -⟩
    exact hall j hj hjv
  have hnp : (s.line .D (rowIndexOf cfg.dcache_info0 address) 0).tag
        ≠ tagOf cfg.dcache_info0 address →
      (∀ j, 1 ≤ j → j < cfg.dcache_info0.associativity →
        ¬ ((s.line .D (rowIndexOf cfg.dcache_info0 address) j).valid = 1 ∧
          (s.line .D (rowIndexOf cfg.dcache_info0 address) j).tag
            = tagOf cfg.dcache_info0 address)) →
      ¬ Present cfg.dcache_info0 .D (rowIndexOf cfg.dcache_info0 address)
        (tagOf cfg.dcache_info0 address) s := by
    rintro ht hsc ⟨j, hj, hjv, hjt⟩
    by_cases hz : j = 0
    · subst hz
      exact ht hjt
    · exact hsc j (by omega) hj ⟨hjv, hjt⟩
  refine dWrite_cases cfg address rand s (fun X => X.g.writeCounters
      = List.zipWith (· + ·) s.g.writeCounters
          (writeClass cfg (rowIndexOf cfg.dcache_info0 address)
            (tagOf cfg.dcache_info0 address) s)) ?_ ?_ ?_ ?_ ?_ ?_ ?_
  · intro h0 ht
    rw [hhit 0 ha h0 ht]
    exact writeCounters_hit cfg _ 0 s
  · intro h0 ht ha1
    rw [hmem (fun j hj => by
        have : j = 0 := by omega
        subst this
        omega)
      (hnp ht (fun j h1 hj => by omega))]
    exact writeCounters_writeMem cfg _ 0 _ s
  · intro i _ _ _ hsc
    obtain ⟨-, hi, hiv, hit⟩ := scanWrite_some hsc
    rw [hhit i hi hiv hit]
    exact writeCounters_hit cfg _ i s
  · intro k _ ht _ hsc ho
    obtain ⟨hk, hkv, -⟩ := isOpen_some ho
    rw [hfill k hk hkv (hnp ht (scanWrite_none hsc))]
    exact writeCounters_fill cfg _ k _ _ s
  · intro _ ht _ hsc ho _
    rw [hmem (isOpen_none ho) (hnp ht (scanWrite_none hsc))]
    exact writeCounters_writeMem cfg _ _ _ s
  · intro _ ht _ hsc ho _
    rw [hmem (isOpen_none ho) (hnp ht (scanWrite_none hsc))]
    exact writeCounters_writeMem cfg _ _ _ s
  · intro h0
    have hz : (s.line .D (rowIndexOf cfg.dcache_info0 address) 0).valid = 0 := by
      have := hb (rowIndexOf cfg.dcache_info0 address) 0
      omega
    rw [hfill 0 ha hz (not_present_of_invalid hpk hz (fun j hj => absurd hj (by omega)))]
    exact writeCounters_fill cfg _ 0 _ _ s

/-- The two miss counters that `writeClass` can move besides `compulW`. -/
theorem dWrite_miss_counters (cfg : Config) (address rand : Nat) (s : State)
    (hwf : WellFormed cfg.dcache_info0 .D s)
    (ha : 1 ≤ cfg.dcache_info0.associativity) :
    ((dWrite cfg address rand s).g.capacityW = s.g.capacityW + 1 ↔
      ¬ Present cfg.dcache_info0 .D (rowIndexOf cfg.dcache_info0 address)
          (tagOf cfg.dcache_info0 address) s ∧
      ¬ ((∃ i, i < cfg.dcache_info0.associativity ∧
            (s.line .D (rowIndexOf cfg.dcache_info0 address) i).valid = 0) ∧
          ¬ (cfg.dcache_info0.write_scheme = .WRITE_THROUGH ∧
            cfg.dcache_info0.allocate_scheme = .NO_ALLOCATE)) ∧
      cfg.dcache_info0.associativity ≠ 1) ∧
    ((dWrite cfg address rand s).g.conflictW = s.g.conflictW + 1 ↔
      ¬ Present cfg.dcache_info0 .D (rowIndexOf cfg.dcache_info0 address)
          (tagOf cfg.dcache_info0 address) s ∧
      ¬ ((∃ i, i < cfg.dcache_info0.associativity ∧
            (s.line .D (rowIndexOf cfg.dcache_info0 address) i).valid = 0) ∧
          ¬ (cfg.dcache_info0.write_scheme = .WRITE_THROUGH ∧
            cfg.dcache_info0.allocate_scheme = .NO_ALLOCATE)) ∧
      cfg.dcache_info0.associativity = 1) ∧
    ((dWrite cfg address rand s).g.compulW = s.g.compulW + 1 ↔
      ¬ Present cfg.dcache_info0 .D (rowIndexOf cfg.dcache_info0 address)
          (tagOf cfg.dcache_info0 address) s ∧
      ((∃ i, i < cfg.dcache_info0.associativity ∧
            (s.line .D (rowIndexOf cfg.dcache_info0 address) i).valid = 0) ∧
          ¬ (cfg.dcache_info0.write_scheme = .WRITE_THROUGH ∧
            cfg.dcache_info0.allocate_scheme = .NO_ALLOCATE))) := by
  have hcl := dWrite_classify cfg address rand s hwf ha
  have e2 := congrArg (fun l => l.getD 1 0) hcl
  have e3 := congrArg (fun l => l.getD 2 0) hcl
  have e4 := congrArg (fun l => l.getD 3 0) hcl
  unfold writeClass at e2 e3 e4
  simp only [Globals.writeCounters] at e2 e3 e4
  by_cases h1 : Present cfg.dcache_info0 .D (rowIndexOf cfg.dcache_info0 address)
      (tagOf cfg.dcache_info0 address) s
  · simp [h1] at e2 e3 e4
    exact ⟨⟨fun h => by omega, fun h => absurd h1 h.1⟩,
      ⟨fun h => by omega, fun h => absurd h1 h.1⟩,
      ⟨fun h => by omega, fun h => absurd h1 h.1⟩⟩
  · rw [if_neg h1] at e2 e3 e4
    by_cases h2 : (∃ i, i < cfg.dcache_info0.associativity ∧
          (s.line .D (rowIndexOf cfg.dcache_info0 address) i).valid = 0) ∧
        ¬ (cfg.dcache_info0.write_scheme = .WRITE_THROUGH ∧
          cfg.dcache_info0.allocate_scheme = .NO_ALLOCATE)
    · rw [if_pos h2] at e2 e3 e4
      simp at e2 e3 e4
      exact ⟨⟨fun h => by omega, fun h => absurd h2 h.2.1⟩,
        ⟨fun h => by omega, fun h => absurd h2 h.2.1⟩,
        ⟨fun _ => ⟨h1, h2⟩, fun _ => e2⟩⟩
    · rw [if_neg h2] at e2 e3 e4
      by_cases h3 : cfg.dcache_info0.associativity = 1
      · rw [if_pos h3] at e2 e3 e4
        simp at e2 e3 e4
        exact ⟨⟨fun h => by omega, fun h => absurd h3 h.2.2⟩,
          ⟨fun _ => ⟨h1, h2, h3⟩, fun _ => e3⟩,
          ⟨fun h => by omega, fun h => absurd h.2 h2⟩⟩
      · rw [if_neg h3] at e2 e3 e4
        simp at e2 e3 e4
        exact ⟨⟨fun _ => ⟨h1, h2, h3⟩, fun _ => e4⟩,
          ⟨fun h => by omega, fun h => absurd h.2.2 h3⟩,
          ⟨fun h => by omega, fun h => absurd h.2 h2⟩⟩

/-- C18 (the code departs from the claim). With a write-through, no-allocate
data cache a write to a set that still has an invalid way goes through
`fillOpenSpace`, the path that `dWrite` itself calls a compulsory miss, and is
counted there as a capacity miss (associativity above 1) or a conflict miss
(associativity 1), never in `compulW`: in the empty 2-way cache `cfgWTNA` the
first write increments `capacityW` although no way of its set is valid, and
in the empty direct-mapped cache `cfgDirectWTNA` the first write increments
`conflictW` although the single line is invalid. The sibling branches of
`fillOpenSpace` count the same write in `compulW` (write-through with allocate
`cfgWTA`, write-back `cfgLRU2` and `cfgDirectWB`), and a data read in the same
state is counted as a compulsory miss. -/
theorem write_through_no_allocate_counts_open_set :
    ((dWrite cfgWTNA 0x4 0 (simulate cfgWTNA [])).g.capacityW
        = (simulate cfgWTNA []).g.capacityW + 1 ∧
      ¬ (cfgWTNA.dcache_info0.associativity > 1 ∧
        (∀ i, i < cfgWTNA.dcache_info0.associativity →
          ((simulate cfgWTNA []).line .D (rowIndexOf cfgWTNA.dcache_info0 0x4) i).valid = 1) ∧
        ¬ Present cfgWTNA.dcache_info0 .D (rowIndexOf cfgWTNA.dcache_info0 0x4)
          (tagOf cfgWTNA.dcache_info0 0x4) (simulate cfgWTNA []))) ∧
    ((dWrite cfgDirectWTNA 0x4 0 (simulate cfgDirectWTNA [])).g.conflictW
        = (simulate cfgDirectWTNA []).g.conflictW + 1 ∧
      ¬ (cfgDirectWTNA.dcache_info0.associativity = 1 ∧
        ((simulate cfgDirectWTNA []).line .D
          (rowIndexOf cfgDirectWTNA.dcache_info0 0x4) 0).valid = 1 ∧
        ((simulate cfgDirectWTNA []).line .D
          (rowIndexOf cfgDirectWTNA.dcache_info0 0x4) 0).tag
            ≠ tagOf cfgDirectWTNA.dcache_info0 0x4)) ∧
    (simulate cfgWTNA []).g.writeCounters = [0, 0, 0, 0] ∧
    (handle_access cfgWTNA .D_WRITE 0x4 0 (simulate cfgWTNA [])).g.writeCounters
      = [0, 0, 0, 1] ∧
    (handle_access cfgDirectWTNA .D_WRITE 0x4 0 (simulate cfgDirectWTNA [])).g.writeCounters
      = [0, 0, 1, 0] ∧
    (handle_access cfgWTA .D_WRITE 0x4 0 (simulate cfgWTA [])).g.writeCounters
      = [0, 1, 0, 0] ∧
    (handle_access cfgLRU2 .D_WRITE 0x4 0 (simulate cfgLRU2 [])).g.writeCounters
      = [0, 1, 0, 0] ∧
    (handle_access cfgDirectWB .D_WRITE 0x4 0 (simulate cfgDirectWB [])).g.writeCounters
      = [0, 1, 0, 0] ∧
    (handle_access cfgWTNA .D_READ 0x4 0 (simulate cfgWTNA [])).g.readsD
      = [1, 0, 1, 0, 0] ∧
    (handle_access cfgDirectWTNA .D_READ 0x4 0 (simulate cfgDirectWTNA [])).g.readsD
      = [1, 0, 1, 0, 0] := by
  decide

/-- The classification of write misses that the code implements, in every
state reached by a run of a valid configuration with a data cache. Unless the
cache is write-through with no-allocate, a data write increments `capacityW`
iff the associativity exceeds 1, every way of the set is valid and none holds
the tag, and `conflictW` iff the associativity is 1 and the single line is
valid with another tag. With write-through and no-allocate the two counters
follow the associativity alone for every write that finds its tag in no valid
line, also when the set has an invalid way. -/
theorem write_miss_classification (cfg : Config) (hv : cfg.Valid)
    (hpos : 1 ≤ cfg.dcache_info0.associativity) (trace : List Access)
    (address rand : Nat) :
    (¬ (cfg.dcache_info0.write_scheme = .WRITE_THROUGH ∧
        cfg.dcache_info0.allocate_scheme = .NO_ALLOCATE) →
      ((dWrite cfg address rand (simulate cfg trace)).g.capacityW
          = (simulate cfg trace).g.capacityW + 1 ↔
        1 < cfg.dcache_info0.associativity ∧
        (∀ i, i < cfg.dcache_info0.associativity →
          ((simulate cfg trace).line .D (rowIndexOf cfg.dcache_info0 address) i).valid = 1) ∧
        ¬ Present cfg.dcache_info0 .D (rowIndexOf cfg.dcache_info0 address)
          (tagOf cfg.dcache_info0 address) (simulate cfg trace)) ∧
      ((dWrite cfg address rand (simulate cfg trace)).g.conflictW
          = (simulate cfg trace).g.conflictW + 1 ↔
        cfg.dcache_info0.associativity = 1 ∧
        ((simulate cfg trace).line .D (rowIndexOf cfg.dcache_info0 address) 0).valid = 1 ∧
        ((simulate cfg trace).line .D (rowIndexOf cfg.dcache_info0 address) 0).tag
          ≠ tagOf cfg.dcache_info0 address)) ∧
    (cfg.dcache_info0.write_scheme = .WRITE_THROUGH →
      cfg.dcache_info0.allocate_scheme = .NO_ALLOCATE →
      ((dWrite cfg address rand (simulate cfg trace)).g.capacityW
          = (simulate cfg trace).g.capacityW + 1 ↔
        1 < cfg.dcache_info0.associativity ∧
        ¬ Present cfg.dcache_info0 .D (rowIndexOf cfg.dcache_info0 address)
          (tagOf cfg.dcache_info0 address) (simulate cfg trace)) ∧
      ((dWrite cfg address rand (simulate cfg trace)).g.conflictW
          = (simulate cfg trace).g.conflictW + 1 ↔
        cfg.dcache_info0.associativity = 1 ∧
        ¬ Present cfg.dcache_info0 .D (rowIndexOf cfg.dcache_info0 address)
          (tagOf cfg.dcache_info0 address) (simulate cfg trace))) := by
  have hinv := stateInv_simulate cfg hv trace
  generalize simulate cfg trace = s at hinv ⊢
  obtain ⟨hcap, hcon, -⟩ := dWrite_miss_counters cfg address rand s hinv.2.1 hpos
  obtain ⟨-, hb, -⟩ := hinv.2.1
  refine ⟨fun hna => ⟨?_, ?_⟩, fun hwt hal => ⟨?_, ?_⟩⟩
  · rw [hcap]
    constructor
    · rintro ⟨hnp, hno, h1⟩
      refine ⟨by omega, fun i hi => ?_, hnp⟩
      have h0 : (s.line .D (rowIndexOf cfg.dcache_info0 address) i).valid ≠ 0 :=
        fun h0 => hno ⟨⟨i, hi, h0⟩, hna⟩
      exact valid_eq_one_of_ne_zero hb h0
    · rintro ⟨h1, hall, hnp⟩
      refine ⟨hnp, ?_, by omega⟩
      rintro ⟨⟨i, hi, h0⟩, -⟩
      have := hall i hi
      omega
  · rw [hcon]
    constructor
    · rintro ⟨hnp, hno, h1⟩
      have h0 : (s.line .D (rowIndexOf cfg.dcache_info0 address) 0).valid ≠ 0 :=
        fun h0 => hno ⟨⟨0, hpos, h0⟩, hna⟩
      have hv1 := valid_eq_one_of_ne_zero hb h0
      exact ⟨h1, hv1, fun ht => hnp ⟨0, hpos, hv1, ht⟩⟩
    · rintro ⟨h1, hv1, ht⟩
      refine ⟨?_, ?_, h1⟩
      · rintro ⟨i, hi, -, hit⟩
        have : i = 0 := by omega
        subst this
        exact ht hit
      · rintro ⟨⟨i, hi, h0⟩, -⟩
        have : i = 0 := by omega
        subst this
        omega
  · rw [hcap]
    constructor
    · rintro ⟨hnp, -, h1⟩
      exact ⟨by omega, hnp⟩
    · rintro ⟨h1, hnp⟩
      exact ⟨hnp, fun h => h.2 ⟨hwt, hal⟩, by omega⟩
  · rw [hcon]
    constructor
    · rintro ⟨hnp, -, h1⟩
      exact ⟨h1, hnp⟩
    · rintro ⟨h1, hnp⟩
      exact ⟨hnp, fun h => h.2 ⟨hwt, hal⟩, h1⟩

theorem write_miss_classification_witness :
    ((dWrite cfgLRU2 0x8 0 (simulate cfgLRU2 traceFullyAssoc)).g.capacityW
        = (simulate cfgLRU2 traceFullyAssoc).g.capacityW + 1 ↔
      1 < cfgLRU2.dcache_info0.associativity ∧
      (∀ i, i < cfgLRU2.dcache_info0.associativity →
        ((simulate cfgLRU2 traceFullyAssoc).line .D
          (rowIndexOf cfgLRU2.dcache_info0 0x8) i).valid = 1) ∧
      ¬ Present cfgLRU2.dcache_info0 .D (rowIndexOf cfgLRU2.dcache_info0 0x8)
        (tagOf cfgLRU2.dcache_info0 0x8) (simulate cfgLRU2 traceFullyAssoc)) ∧
    ((dWrite cfgWTNA 0x4 0 (simulate cfgWTNA [])).g.capacityW
        = (simulate cfgWTNA []).g.capacityW + 1 ↔
      1 < cfgWTNA.dcache_info0.associativity ∧
      ¬ Present cfgWTNA.dcache_info0 .D (rowIndexOf cfgWTNA.dcache_info0 0x4)
        (tagOf cfgWTNA.dcache_info0 0x4) (simulate cfgWTNA [])) :=
  ⟨((write_miss_classification cfgLRU2
        ⟨⟨by decide, ⟨0, rfl⟩, ⟨0, rfl⟩⟩, Or.inr ⟨by decide, ⟨0, rfl⟩, ⟨0, rfl⟩⟩⟩
        (by decide) traceFullyAssoc 0x8 0).1 (by decide)).1,
   ((write_miss_classification cfgWTNA
        ⟨⟨by decide, ⟨0, rfl⟩, ⟨0, rfl⟩⟩, Or.inr ⟨by decide, ⟨0, rfl⟩, ⟨0, rfl⟩⟩⟩
        (by decide) [] 0x4 0).2 rfl rfl).1⟩

/-! ## Filling an invalid way of a write-back cache -/

theorem fill_writeBack (cfg : Config) (r k n t : Nat) (s : State)
    (hwb : cfg.dcache_info0.write_scheme = .WRITE_BACK) (hin : s.inb .D r k) :
    ((fillOpenSpace cfg r k n t (countWrite s)).line .D r k).tag = t ∧
    ((fillOpenSpace cfg r k n t (countWrite s)).line .D r k).valid = 1 ∧
    ((fillOpenSpace cfg r k n t (countWrite s)).line .D r k).dirty = 1 ∧
    (fillOpenSpace cfg r k n t (countWrite s)).g.numWordsRead = s.g.numWordsRead + n ∧
    (fillOpenSpace cfg r k n t (countWrite s)).g.compulW = s.g.compulW + 1 ∧
    (fillOpenSpace cfg r k n t (countWrite s)).g.numWordsWritten = s.g.numWordsWritten := by
  have hc := fillOpenSpace_cache cfg r k n t (countWrite s)
  simp only [hwb] at hc
  have hinW : (countWrite s).inb .D r k := hin
  obtain ⟨-, hf⟩ := fixLRU_frame r k .D cfg.dcache_info0
    ((countWrite s).setLine .D r k ⟨t, 1, 1, ((countWrite s).line .D r k).LRU⟩)
  obtain ⟨-, h1, h2, h3⟩ := hf .D r k
  rw [line_of_cache hc, h1, h2, h3, line_setLine_row _ _ _ _ _ _ hinW, if_pos rfl,
    fillOpenSpace_g]
  simp [hwb, countWrite]

/-- C19. In a state reached by a run of a valid configuration whose data
cache is write-back, with either allocation scheme, a data write whose set
has an invalid way and no valid line holding the tag installs the tag in the
lowest-indexed invalid way `k` with `valid = 1` and `dirty = 1`, adds exactly
`words_per_block` to `numWordsRead`, increments `compulW` by 1 and leaves
`numWordsWritten` as it was. -/
theorem write_back_fills_invalid_way (cfg : Config) (hv : cfg.Valid)
    (hwb : cfg.dcache_info0.write_scheme = .WRITE_BACK) (trace : List Access)
    (address rand : Nat)
    (hopen : ∃ i, i < cfg.dcache_info0.associativity ∧
      ((simulate cfg trace).line .D (rowIndexOf cfg.dcache_info0 address) i).valid = 0)
    (hnp : ¬ Present cfg.dcache_info0 .D (rowIndexOf cfg.dcache_info0 address)
      (tagOf cfg.dcache_info0 address) (simulate cfg trace)) :
    ∃ k, k < cfg.dcache_info0.associativity ∧
      ((simulate cfg trace).line .D (rowIndexOf cfg.dcache_info0 address) k).valid = 0 ∧
      (∀ j, j < k →
        ((simulate cfg trace).line .D (rowIndexOf cfg.dcache_info0 address) j).valid = 1) ∧
      ((dWrite cfg address rand (simulate cfg trace)).line .D
          (rowIndexOf cfg.dcache_info0 address) k).tag = tagOf cfg.dcache_info0 address ∧
      ((dWrite cfg address rand (simulate cfg trace)).line .D
          (rowIndexOf cfg.dcache_info0 address) k).valid = 1 ∧
      ((dWrite cfg address rand (simulate cfg trace)).line .D
          (rowIndexOf cfg.dcache_info0 address) k).dirty = 1 ∧
      (dWrite cfg address rand (simulate cfg trace)).g.numWordsRead
        = (simulate cfg trace).g.numWordsRead + cfg.dcache_info0.words_per_block ∧
      (dWrite cfg address rand (simulate cfg trace)).g.compulW
        = (simulate cfg trace).g.compulW + 1 ∧
      (dWrite cfg address rand (simulate cfg trace)).g.numWordsWritten
        = (simulate cfg trace).g.numWordsWritten := by
  have hinv := stateInv_simulate cfg hv trace
  generalize simulate cfg trace = s at hopen hnp hinv ⊢
  obtain ⟨i0, hi0, hv0⟩ := hopen
  have hpos : cfg.dcache_info0.associativity > 0 := by omega
  have hr := rowIndexOf_lt_of_valid (dValid_of_pos hv hpos) address
  obtain ⟨hs, hb, hpk⟩ := hinv.2.1
  have hin : ∀ j, j < cfg.dcache_info0.associativity →
      s.inb .D (rowIndexOf cfg.dcache_info0 address) j := fun j hj => (hs _ _).mpr ⟨hr, hj⟩
  refine dWrite_cases cfg address rand s (fun X =>
    ∃ k, k < cfg.dcache_info0.associativity ∧
      (s.line .D (rowIndexOf cfg.dcache_info0 address) k).valid = 0 ∧
      (∀ j, j < k → (s.line .D (rowIndexOf cfg.dcache_info0 address) j).valid = 1) ∧
      (X.line .D (rowIndexOf cfg.dcache_info0 address) k).tag = tagOf cfg.dcache_info0 address ∧
      (X.line .D (rowIndexOf cfg.dcache_info0 address) k).valid = 1 ∧
      (X.line .D (rowIndexOf cfg.dcache_info0 address) k).dirty = 1 ∧
      X.g.numWordsRead = s.g.numWordsRead + cfg.dcache_info0.words_per_block ∧
      X.g.compulW = s.g.compulW + 1 ∧
      X.g.numWordsWritten = s.g.numWordsWritten) ?_ ?_ ?_ ?_ ?_ ?_ ?_
  · intro h0 ht
    exact absurd ⟨0, hpos, h0, ht⟩ hnp
  · intro h0 _ ha1
    have : i0 = 0 := by omega
    subst this
    omega
  · intro i _ _ _ hsc
    obtain ⟨-, hi, hiv, hit⟩ := scanWrite_some hsc
    exact absurd ⟨i, hi, hiv, hit⟩ hnp
  · intro k _ _ _ _ ho
    obtain ⟨hk, hkv, hlow⟩ := isOpen_some ho
    exact ⟨k, hk, hkv, fun j hj => valid_eq_one_of_ne_zero hb (hlow j hj),
      fill_writeBack cfg _ k _ _ s hwb (hin k hk)⟩
  · intro _ _ _ _ ho _
    exact absurd hv0 (isOpen_none ho i0 hi0)
  · intro _ _ _ _ ho _
    exact absurd hv0 (isOpen_none ho i0 hi0)
  · intro h0
    have hz : (s.line .D (rowIndexOf cfg.dcache_info0 address) 0).valid = 0 := by
      have := hb (rowIndexOf cfg.dcache_info0 address) 0
      omega
    exact ⟨0, hpos, hz, fun j hj => absurd hj (by omega),
      fill_writeBack cfg _ 0 _ _ s hwb (hin 0 hpos)⟩

theorem write_back_fills_invalid_way_witness :
    (∃ k, k < cfgTwoWayWB.dcache_info0.associativity ∧
      ((simulate cfgTwoWayWB [⟨.D_READ, 0x0, 0⟩]).line .D (rowIndexOf cfgTwoWayWB.dcache_info0 0x10) k).valid = 0 ∧
      (∀ j, j < k →
        ((simulate cfgTwoWayWB [⟨.D_READ, 0x0, 0⟩]).line .D (rowIndexOf cfgTwoWayWB.dcache_info0 0x10) j).valid = 1) ∧
      ((dWrite cfgTwoWayWB 0x10 0 (simulate cfgTwoWayWB [⟨.D_READ, 0x0, 0⟩])).line .D
          (rowIndexOf cfgTwoWayWB.dcache_info0 0x10) k).tag = tagOf cfgTwoWayWB.dcache_info0 0x10 ∧
      ((dWrite cfgTwoWayWB 0x10 0 (simulate cfgTwoWayWB [⟨.D_READ, 0x0, 0⟩])).line .D
          (rowIndexOf cfgTwoWayWB.dcache_info0 0x10) k).valid = 1 ∧
      ((dWrite cfgTwoWayWB 0x10 0 (simulate cfgTwoWayWB [⟨.D_READ, 0x0, 0⟩])).line .D
          (rowIndexOf cfgTwoWayWB.dcache_info0 0x10) k).dirty = 1 ∧
      (dWrite cfgTwoWayWB 0x10 0 (simulate cfgTwoWayWB [⟨.D_READ, 0x0, 0⟩])).g.numWordsRead
        = (simulate cfgTwoWayWB [⟨.D_READ, 0x0, 0⟩]).g.numWordsRead + cfgTwoWayWB.dcache_info0.words_per_block ∧
      (dWrite cfgTwoWayWB 0x10 0 (simulate cfgTwoWayWB [⟨.D_READ, 0x0, 0⟩])).g.compulW
        = (simulate cfgTwoWayWB [⟨.D_READ, 0x0, 0⟩]).g.compulW + 1 ∧
      (dWrite cfgTwoWayWB 0x10 0 (simulate cfgTwoWayWB [⟨.D_READ, 0x0, 0⟩])).g.numWordsWritten
        = (simulate cfgTwoWayWB [⟨.D_READ, 0x0, 0⟩]).g.numWordsWritten) ∧
    (∃ k, k < cfgDirectWBNA.dcache_info0.associativity ∧
      ((simulate cfgDirectWBNA []).line .D (rowIndexOf cfgDirectWBNA.dcache_info0 0x0) k).valid = 0 ∧
      (∀ j, j < k →
        ((simulate cfgDirectWBNA []).line .D (rowIndexOf cfgDirectWBNA.dcache_info0 0x0) j).valid = 1) ∧
      ((dWrite cfgDirectWBNA 0x0 0 (simulate cfgDirectWBNA [])).line .D
          (rowIndexOf cfgDirectWBNA.dcache_info0 0x0) k).tag = tagOf cfgDirectWBNA.dcache_info0 0x0 ∧
      ((dWrite cfgDirectWBNA 0x0 0 (simulate cfgDirectWBNA [])).line .D
          (rowIndexOf cfgDirectWBNA.dcache_info0 0x0) k).valid = 1 ∧
      ((dWrite cfgDirectWBNA 0x0 0 (simulate cfgDirectWBNA [])).line .D
          (rowIndexOf cfgDirectWBNA.dcache_info0 0x0) k).dirty = 1 ∧
      (dWrite cfgDirectWBNA 0x0 0 (simulate cfgDirectWBNA [])).g.numWordsRead
        = (simulate cfgDirectWBNA []).g.numWordsRead + cfgDirectWBNA.dcache_info0.words_per_block ∧
      (dWrite cfgDirectWBNA 0x0 0 (simulate cfgDirectWBNA [])).g.compulW
        = (simulate cfgDirectWBNA []).g.compulW + 1 ∧
      (dWrite cfgDirectWBNA 0x0 0 (simulate cfgDirectWBNA [])).g.numWordsWritten
        = (simulate cfgDirectWBNA []).g.numWordsWritten) :=
  ⟨write_back_fills_invalid_way cfgTwoWayWB
      ⟨⟨by decide, ⟨2, rfl⟩, ⟨0, rfl⟩⟩, Or.inr ⟨by decide, ⟨2, rfl⟩, ⟨0, rfl⟩⟩⟩
      rfl [⟨.D_READ, 0x0, 0⟩] 0x10 0 ⟨1, by decide, by decide⟩ (by decide),
   write_back_fills_invalid_way cfgDirectWBNA
      ⟨⟨by decide, ⟨2, rfl⟩, ⟨0, rfl⟩⟩, Or.inr ⟨by decide, ⟨2, rfl⟩, ⟨0, rfl⟩⟩⟩
      rfl [] 0x0 0 ⟨0, by decide, by decide⟩ (by decide)⟩

/-! ## Decoding of addresses below `2 ^ 32` -/

theorem tagOf_eq_div (ci : CacheInfo) (a : Nat) (ha : a < 2 ^ 32) :
    tagOf ci a = a / 2 ^ tagShift ci := by
  rw [tagOf_eq]
  apply Nat.mod_eq_of_lt
  apply Nat.div_lt_of_lt_mul
  rw [← pow_add]
  have h : (2 : Nat) ^ 32 ≤ 2 ^ (tagShift ci + tagBit ci) :=
    Nat.pow_le_pow_right (by decide) (by unfold tagShift tagBit; omega)
  omega

theorem tagOf_eq_row_div (ci : CacheInfo) (a : Nat) (ha : a < 2 ^ 32) :
    tagOf ci a = a / 2 ^ rowShift ci / 2 ^ rowBit ci := by
  rw [tagOf_eq_div ci a ha, Nat.div_div_eq_div_mul, ← pow_add]
  have : tagShift ci = rowShift ci + rowBit ci := by unfold tagShift rowShift; omega
  rw [this]

/-- C21. For every geometry, two addresses below `2 ^ 32` decode to the same
pair of tag and row index iff they agree after their low `wordBit + 2` bits
are discarded; the tag mask `(1 << tagBit) - 1` changes nothing in
`address >> tagShift`; and when `words_per_block` is a power of two,
agreeing above the low `wordBit + 2` bits is lying in the same block of
`4 * words_per_block` bytes. The powers of two are not needed for the first
two parts; `tagBit` is the value of the C expression when
`wordBit + rowBit ≤ 30`. -/
theorem decode_determines_block (ci : CacheInfo) (a b : Nat) (ha : a < 2 ^ 32)
    (hb : b < 2 ^ 32) :
    ((tagOf ci a, rowIndexOf ci a) = (tagOf ci b, rowIndexOf ci b) ↔
      a >>> (wordBit ci + 2) = b >>> (wordBit ci + 2)) ∧
    (a >>> tagShift ci) &&& tagMask ci = a >>> tagShift ci ∧
    (∀ k, ci.words_per_block = 2 ^ k →
      (a >>> (wordBit ci + 2) = b >>> (wordBit ci + 2) ↔
        a / (4 * ci.words_per_block) = b / (4 * ci.words_per_block))) := by
  refine ⟨?_, ?_, ?_⟩
  · rw [Nat.shiftRight_eq_div_pow, Nat.shiftRight_eq_div_pow, Prod.mk.injEq,
      tagOf_eq_row_div ci a ha, tagOf_eq_row_div ci b hb, rowIndexOf_eq, rowIndexOf_eq]
    have hS : rowShift ci = wordBit ci + 2 := rfl
    rw [hS]
    constructor
    · rintro ⟨h1, h2⟩
      rw [← Nat.div_add_mod (a / 2 ^ (wordBit ci + 2)) (2 ^ rowBit ci),
        ← Nat.div_add_mod (b / 2 ^ (wordBit ci + 2)) (2 ^ rowBit ci), h1, h2]
    · intro h
      rw [h]
      exact ⟨rfl, rfl⟩
  · have h := tagOf_eq_div ci a ha
    unfold tagOf at h
    rw [h, Nat.shiftRight_eq_div_pow]
  · intro k hk
    have hw : wordBit ci = k := by unfold wordBit; rw [hk, ceilLog2_two_pow]
    rw [Nat.shiftRight_eq_div_pow, Nat.shiftRight_eq_div_pow, hw, hk]
    have : (2 : Nat) ^ (k + 2) = 4 * 2 ^ k := by rw [pow_add]; omega
    rw [this]

theorem decode_determines_block_witness :
    ((tagOf cfgFourRows.dcache_info0 0x20, rowIndexOf cfgFourRows.dcache_info0 0x20)
        = (tagOf cfgFourRows.dcache_info0 0x24, rowIndexOf cfgFourRows.dcache_info0 0x24) ↔
      0x20 >>> (wordBit cfgFourRows.dcache_info0 + 2)
        = 0x24 >>> (wordBit cfgFourRows.dcache_info0 + 2)) ∧
    (0x20 >>> tagShift cfgFourRows.dcache_info0) &&& tagMask cfgFourRows.dcache_info0
      = 0x20 >>> tagShift cfgFourRows.dcache_info0 ∧
    (∀ k, cfgFourRows.dcache_info0.words_per_block = 2 ^ k →
      (0x20 >>> (wordBit cfgFourRows.dcache_info0 + 2)
          = 0x24 >>> (wordBit cfgFourRows.dcache_info0 + 2) ↔
        0x20 / (4 * cfgFourRows.dcache_info0.words_per_block)
          = 0x24 / (4 * cfgFourRows.dcache_info0.words_per_block))) :=
  decode_determines_block cfgFourRows.dcache_info0 0x20 0x24 (by decide) (by decide)

/-! ## Tags are unique in a row -/

theorem line_of_not_inb {s : State} {p : CachePtr} {r i : Nat} (h : ¬ s.inb p r i) :
    s.line p r i = default := by
  unfold State.inb at h
  unfold State.line
  by_cases hr : r < (s.cache p).length
  · have hi : ((s.cache p).getD r []).length ≤ i := by
      by_contra hc
      exact h ⟨hr, by omega⟩
    rw [List.getD_eq_getElem?_getD ((s.cache p).getD r []), List.getElem?_eq_none hi]
    rfl
  · have : (s.cache p).getD r [] = [] := by
      rw [List.getD_eq_getElem?_getD, List.getElem?_eq_none (Nat.le_of_not_lt hr)]
      rfl
    rw [this]
    rfl

theorem uniqueTags_of_frame {ci : CacheInfo} {p q : CachePtr} {r : Nat} {s s' : State}
    (hu : UniqueTags ci q s) (hne : q ≠ p) (h : FrameOutside p r s s') :
    UniqueTags ci q s' := by
  intro r' i j hi hj
  rw [h.2 q r' i (Or.inl hne), h.2 q r' j (Or.inl hne)]
  exact hu r' i j hi hj

theorem uniqueTags_of_keeps {ci : CacheInfo} {p q : CachePtr} {r : Nat} {s s' : State}
    (hu : UniqueTags ci q s) (h : Keeps p r s s') : UniqueTags ci q s' := by
  have htv : ∀ r' i', (s'.line q r' i').tv = (s.line q r' i').tv := by
    intro r' i'
    by_cases hne : q ≠ p ∨ r' ≠ r
    · rw [h.1.2 q r' i' hne]
    · have hq : q = p := by by_contra hc; exact hne (Or.inl hc)
      have hr' : r' = r := by by_contra hc; exact hne (Or.inr hc)
      subst hq; subst hr'
      exact h.2 i'
  intro r' i j hi hj hvi hvj ht
  have e1 := htv r' i
  have e2 := htv r' j
  simp only [MetaData.tv, Prod.mk.injEq] at e1 e2
  rw [e1.2] at hvi
  rw [e2.2] at hvj
  rw [e1.1, e2.1] at ht
  exact hu r' i j hi hj hvi hvj ht

theorem uniqueTags_of_installs {ci : CacheInfo} {p : CachePtr} {r t : Nat} {s s' : State}
    (hu : UniqueTags ci p s) (h : Installs ci p r t s s')
    (hnp : ¬ Present ci p r t s) : UniqueTags ci p s' := by
  obtain ⟨hf, k, hk, -, htv⟩ := h
  intro r' i j hi hj hvi hvj ht
  by_cases hr' : r' = r
  · subst hr'
    have e1 := htv i
    have e2 := htv j
    by_cases hik : i = k
    · by_cases hjk : j = k
      · rw [hik, hjk]
      · exfalso
        rw [if_neg hjk] at e2
        rw [if_pos hik] at e1
        simp only [MetaData.tv, Prod.mk.injEq] at e1 e2
        exact hnp ⟨j, hj, by rw [← e2.2]; exact hvj, by rw [← e2.1, ← ht]; exact e1.1⟩
    · by_cases hjk : j = k
      · exfalso
        rw [if_neg hik] at e1
        rw [if_pos hjk] at e2
        simp only [MetaData.tv, Prod.mk.injEq] at e1 e2
        exact hnp ⟨i, hi, by rw [← e1.2]; exact hvi, by rw [← e1.1, ht]; exact e2.1⟩
      · rw [if_neg hik] at e1
        rw [if_neg hjk] at e2
        simp only [MetaData.tv, Prod.mk.injEq] at e1 e2
        rw [e1.2] at hvi
        rw [e2.2] at hvj
        rw [e1.1, e2.1] at ht
        exact hu r' i j hi hj hvi hvj ht
  · rw [hf.2 p r' i (Or.inr hr')] at hvi ht
    rw [hf.2 p r' j (Or.inr hr')] at hvj ht
    exact hu r' i j hi hj hvi hvj ht

/-- A read is a hit that keeps every tag and valid flag, or its tag was in
no valid way of the row. -/
theorem cacheAccess_keeps_or_fresh (address : Nat) (p : CachePtr) (ci : CacheInfo)
    (w rand : Nat) (s : State) (hwf : WellFormed ci p s) :
    Keeps p (rowIndexOf ci address) s (cacheAccess address p ci w rand s) ∨
    ¬ Present ci p (rowIndexOf ci address) (tagOf ci address) s := by
  obtain ⟨-, hb, hpk⟩ := hwf
  have hfull : (∀ j, j < ci.associativity →
        (s.line p (rowIndexOf ci address) j).valid ≠ 0 ∧
        ¬ ((s.line p (rowIndexOf ci address) j).valid = 1 ∧
          (s.line p (rowIndexOf ci address) j).tag = tagOf ci address)) →
      ¬ Present ci p (rowIndexOf ci address) (tagOf ci address) s := by
    rintro h ⟨j, hj, hjv, hjt⟩
    exact (h j hj).2 ⟨hjv, hjt⟩
  refine cacheAccess_cases address p ci w rand s (fun X =>
      Keeps p (rowIndexOf ci address) s X ∨
      ¬ Present ci p (rowIndexOf ci address) (tagOf ci address) s) ?_ ?_ ?_ ?_ ?_ ?_ ?_
  · intro h0
    exact Or.inr (not_present_of_invalid hpk h0 (fun j hj => absurd hj (by omega)))
  · intro _ _
    exact Or.inl (keeps_trans (keeps_of_caches (by simp) (by simp) p _)
      (keeps_fixLRU p _ 0 ci _))
  · intro h0 ht ha1
    refine Or.inr (hfull (fun j hj => ?_))
    have : j = 0 := by omega
    subst this
    exact ⟨h0, fun h => ht h.2⟩
  · intro i _ _ _ _ _
    exact Or.inl (keeps_trans (keeps_trans
      (keeps_of_caches (X := countRead w s) (by simp) (by simp) p _)
      (keeps_fixLRU p (rowIndexOf ci address) i ci _))
      (keeps_of_caches (by simp) (by simp) p _))
  · intro i _ _ _ hsc hiv
    obtain ⟨hi, hor, hlow⟩ := scanRead_some hsc
    rcases hor with ⟨h, -⟩ | h
    · exact absurd h hiv
    · exact Or.inr (not_present_of_invalid hpk h (fun j hj => (hlow j hj).2))
  · intro _ _ _ hsc _
    exact Or.inr (hfull (scanRead_none hsc))
  · intro _ _ _ hsc _
    exact Or.inr (hfull (scanRead_none hsc))

/-- A data write is a hit that keeps every tag and valid flag, or its tag was
in no valid way of the row. -/
theorem dWrite_keeps_or_fresh (cfg : Config) (address rand : Nat) (s : State)
    (hwf : WellFormed cfg.dcache_info0 .D s) :
    Keeps .D (rowIndexOf cfg.dcache_info0 address) s (dWrite cfg address rand s) ∨
    ¬ Present cfg.dcache_info0 .D (rowIndexOf cfg.dcache_info0 address)
      (tagOf cfg.dcache_info0 address) s := by
  obtain ⟨-, hb, hpk⟩ := hwf
  have hnp : (s.line .D (rowIndexOf cfg.dcache_info0 address) 0).tag
        ≠ tagOf cfg.dcache_info0 address →
      (∀ j, 1 ≤ j → j < cfg.dcache_info0.associativity →
        ¬ ((s.line .D (rowIndexOf cfg.dcache_info0 address) j).valid = 1 ∧
          (s.line .D (rowIndexOf cfg.dcache_info0 address) j).tag
            = tagOf cfg.dcache_info0 address)) →
      ¬ Present cfg.dcache_info0 .D (rowIndexOf cfg.dcache_info0 address)
        (tagOf cfg.dcache_info0 address) s := by
    rintro ht hsc ⟨j, hj, hjv, hjt⟩
    by_cases hz : j = 0
    · subst hz
      exact ht hjt
    · exact hsc j (by omega) hj ⟨hjv, hjt⟩
  refine dWrite_cases cfg address rand s (fun X =>
      Keeps .D (rowIndexOf cfg.dcache_info0 address) s X ∨
      ¬ Present cfg.dcache_info0 .D (rowIndexOf cfg.dcache_info0 address)
        (tagOf cfg.dcache_info0 address) s) ?_ ?_ ?_ ?_ ?_ ?_ ?_
  · intro _ _
    exact Or.inl (writeHit_keeps cfg _ 0 s)
  · intro _ ht ha1
    exact Or.inr (hnp ht (fun j h1 hj => by omega))
  · intro i _ _ _ _
    exact Or.inl (writeHit_keeps cfg _ i s)
  · intro k _ ht _ hsc _
    exact Or.inr (hnp ht (scanWrite_none hsc))
  · intro _ ht _ hsc _ _
    exact Or.inr (hnp ht (scanWrite_none hsc))
  · intro _ ht _ hsc _ _
    exact Or.inr (hnp ht (scanWrite_none hsc))
  · intro h0
    have hz : (s.line .D (rowIndexOf cfg.dcache_info0 address) 0).valid = 0 := by
      have := hb (rowIndexOf cfg.dcache_info0 address) 0
      omega
    exact Or.inr (not_present_of_invalid hpk hz (fun j hj => absurd hj (by omega)))

theorem uniqueTags_step (cfg : Config) (hv : cfg.Valid) (s : State) (a : Access)
    (h : StateInv cfg s)
    (hu : UniqueTags cfg.icache_info .I s ∧ UniqueTags cfg.dcache_info0 .D s) :
    UniqueTags cfg.icache_info .I (handle_access cfg a.type a.address a.rand s) ∧
    UniqueTags cfg.dcache_info0 .D (handle_access cfg a.type a.address a.rand s) := by
  obtain ⟨hI, hD, hda⟩ := h
  obtain ⟨uI, uD⟩ := hu
  obtain ⟨⟨haI, -, kI, hkI⟩, hvD⟩ := hv
  cases hty : a.type <;> simp only [handle_access]
  · have hi := cacheAccess_installs a.address .I cfg.icache_info 1 a.rand s hI.1 hI.2.1
      (rowIndexOf_lt _ _ kI hkI) haI
    refine ⟨?_, uniqueTags_of_frame uD (by decide) hi.1⟩
    rcases cacheAccess_keeps_or_fresh a.address .I cfg.icache_info 1 a.rand s hI with hk | hn
    · exact uniqueTags_of_keeps uI hk
    · exact uniqueTags_of_installs uI hi hn
  · split
    · rename_i hne
      have hpos : cfg.dcache_info0.associativity > 0 := by
        by_contra hc
        rw [hda, if_neg hc] at hne
        exact hne rfl
      rcases hvD with h0 | ⟨haD, -, kD, hkD⟩
      · omega
      · have hi := cacheAccess_installs a.address .D cfg.dcache_info0 0 a.rand s hD.1 hD.2.1
          (rowIndexOf_lt _ _ kD hkD) haD
        refine ⟨uniqueTags_of_frame uI (by decide) hi.1, ?_⟩
        rcases cacheAccess_keeps_or_fresh a.address .D cfg.dcache_info0 0 a.rand s hD
          with hk | hn
        · exact uniqueTags_of_keeps uD hk
        · exact uniqueTags_of_installs uD hi hn
    · exact ⟨uI, uD⟩
  · split
    · rename_i hne
      have hpos : cfg.dcache_info0.associativity > 0 := by
        by_contra hc
        rw [hda, if_neg hc] at hne
        exact hne rfl
      rcases hvD with h0 | ⟨haD, -, kD, hkD⟩
      · omega
      · have hst := dWrite_step cfg a.address a.rand s hD (rowIndexOf_lt _ _ kD hkD) haD
        rcases hst with hk | hi
        · exact ⟨uniqueTags_of_keeps uI hk, uniqueTags_of_keeps uD hk⟩
        · refine ⟨uniqueTags_of_frame uI (by decide) hi.1, ?_⟩
          rcases dWrite_keeps_or_fresh cfg a.address a.rand s hD with hk | hn
          · exact uniqueTags_of_keeps uD hk
          · exact uniqueTags_of_installs uD hi hn
    · exact ⟨uI, uD⟩

theorem uniqueTags_simulate (cfg : Config) (hv : cfg.Valid) (trace : List Access) :
    StateInv cfg (simulate cfg trace) ∧
    UniqueTags cfg.icache_info .I (simulate cfg trace) ∧
    UniqueTags cfg.dcache_info0 .D (simulate cfg trace) := by
  refine run_induction cfg
    (fun s => StateInv cfg s ∧ UniqueTags cfg.icache_info .I s ∧
      UniqueTags cfg.dcache_info0 .D s) ?_ trace _ ⟨stateInv_setup cfg, ?_, ?_⟩
  · rintro s a ⟨h1, h2⟩
    exact ⟨stateInv_step cfg hv s a h1, uniqueTags_step cfg hv s a h1 h2⟩
  · intro r i j _ _ hvi
    rw [(setup_caches_lines cfg).1 .I r i] at hvi
    exact absurd hvi (by decide)
  · intro r i j _ _ hvi
    rw [(setup_caches_lines cfg).1 .D r i] at hvi
    exact absurd hvi (by decide)

/-- C22. In every state reached from the initial state by a run of
instruction fetches, data reads and data writes of a valid configuration,
whatever its replacement, write and allocation schemes, no row of either
cache has two different ways that are both valid and hold the same tag. -/
theorem no_duplicate_tags (cfg : Config) (hv : cfg.Valid) (trace : List Access) :
    ∀ (p : CachePtr) (r i j : Nat),
      ((simulate cfg trace).line p r i).valid = 1 →
      ((simulate cfg trace).line p r j).valid = 1 →
      ((simulate cfg trace).line p r i).tag = ((simulate cfg trace).line p r j).tag →
      i = j := by
  obtain ⟨hinv, uI, uD⟩ := uniqueTags_simulate cfg hv trace
  intro p r i j hvi hvj ht
  have hsh : Shaped (cfg.info p) p (simulate cfg trace) := by
    cases p
    · exact hinv.1.1
    · exact hinv.2.1.1
  have hlt : ∀ k, ((simulate cfg trace).line p r k).valid = 1 →
      k < (cfg.info p).associativity := by
    intro k hk
    by_contra hc
    have hnin : ¬ (simulate cfg trace).inb p r k := fun hin => hc ((hsh r k).mp hin).2
    rw [line_of_not_inb hnin] at hk
    exact absurd hk (by decide)
  cases p
  · exact uI r i j (hlt i hvi) (hlt j hvj) hvi hvj ht
  · exact uD r i j (hlt i hvi) (hlt j hvj) hvi hvj ht

theorem no_duplicate_tags_witness :
    cfgFourRows.Valid ∧
    ((simulate cfgFourRows traceMid).line .D 1 0).valid = 1 ∧
    (∀ (p : CachePtr) (r i j : Nat),
      ((simulate cfgFourRows traceMid).line p r i).valid = 1 →
      ((simulate cfgFourRows traceMid).line p r j).valid = 1 →
      ((simulate cfgFourRows traceMid).line p r i).tag
        = ((simulate cfgFourRows traceMid).line p r j).tag →
      i = j) :=
  ⟨⟨⟨by decide, ⟨1, rfl⟩, ⟨2, rfl⟩⟩, Or.inr ⟨by decide, ⟨1, rfl⟩, ⟨2, rfl⟩⟩⟩,
   by decide,
   no_duplicate_tags cfgFourRows
     ⟨⟨by decide, ⟨1, rfl⟩, ⟨2, rfl⟩⟩, Or.inr ⟨by decide, ⟨1, rfl⟩, ⟨2, rfl⟩⟩⟩ traceMid⟩

/-! ## Recency counters of the valid ways -/

theorem distinctLRU_of_frame {ci : CacheInfo} {p q : CachePtr} {r : Nat} {s s' : State}
    (hu : DistinctLRU ci q s) (hne : q ≠ p) (h : FrameOutside p r s s') :
    DistinctLRU ci q s' := by
  intro r' i j hi hj
  rw [h.2 q r' i (Or.inl hne), h.2 q r' j (Or.inl hne)]
  exact hu r' i j hi hj

theorem distinctLRU_of_same {ci : CacheInfo} {p : CachePtr} {r : Nat} {s s' : State}
    (hu : DistinctLRU ci p s) (hf : FrameOutside p r s s') (h : SameAge p r s s') :
    DistinctLRU ci p s' := by
  intro r' i j hi hj
  by_cases hr' : r' = r
  · subst hr'
    rw [(h i).1, (h i).2, (h j).1, (h j).2]
    exact hu r' i j hi hj
  · rw [hf.2 p r' i (Or.inr hr'), hf.2 p r' j (Or.inr hr')]
    exact hu r' i j hi hj

theorem distinctLRU_of_ages {ci : CacheInfo} {p : CachePtr} {r : Nat} {s s' : State}
    (hu : DistinctLRU ci p s) (hf : FrameOutside p r s s') (h : Ages ci p r s s') :
    DistinctLRU ci p s' := by
  obtain ⟨k, hk, hk0, hother⟩ := h
  intro r' i j hi hj hvi hvj hl
  by_cases hr' : r' = r
  · subst hr'
    by_cases hik : i = k
    · by_cases hjk : j = k
      · rw [hik, hjk]
      · exfalso
        rw [hik, hk0, (hother j hj hjk).1] at hl
        omega
    · by_cases hjk : j = k
      · exfalso
        rw [hjk, hk0, (hother i hi hik).1] at hl
        omega
      · rw [(hother i hi hik).1, (hother j hj hjk).1] at hl
        rw [(hother i hi hik).2] at hvi
        rw [(hother j hj hjk).2] at hvj
        exact hu r' i j hi hj hvi hvj (by omega)
  · rw [hf.2 p r' i (Or.inr hr')] at hvi hl
    rw [hf.2 p r' j (Or.inr hr')] at hvj hl
    exact hu r' i j hi hj hvi hvj hl

theorem ages_congr {ci : CacheInfo} {p : CachePtr} {r : Nat} {s Y Y' : State}
    (h : Ages ci p r s Y) (hc : ∀ q, Y'.cache q = Y.cache q) : Ages ci p r s Y' := by
  obtain ⟨k, hk, hk0, hother⟩ := h
  refine ⟨k, hk, by rw [line_of_cache hc]; exact hk0, fun i hi hik => ?_⟩
  rw [line_of_cache hc]
  exact hother i hi hik

theorem sameAge_of_cache {p : CachePtr} {r : Nat} {s Y : State}
    (hc : ∀ q, Y.cache q = s.cache q) : SameAge p r s Y :=
  fun i => by rw [line_of_cache hc]; exact ⟨rfl, rfl⟩

/-- Way `k` is touched by `fixLRU`, the lines being those of `s`. -/
theorem ages_touch (r k : Nat) (p : CachePtr) (ci : CacheInfo) (s X : State)
    (hi : X.iCache = s.iCache) (hd : X.dCache = s.dCache)
    (hin : ∀ j, j < ci.associativity → s.inb p r j) (hk : k < ci.associativity) :
    Ages ci p r s (fixLRU r k p ci X) := by
  have hinX : ∀ j, j < ci.associativity → X.inb p r j :=
    fun j hj => (inb_congr hi hd p r j).mpr (hin j hj)
  refine ⟨k, hk, ?_, fun i hi' hik => ?_⟩
  · rw [fixLRU_line r k p ci X k hinX hk hk, if_pos rfl]
  · rw [fixLRU_line r k p ci X i hinX hk hi', if_neg hik, line_congr hi hd]
    exact ⟨rfl, rfl⟩

/-- Way `k` is overwritten and then touched by `fixLRU`. -/
theorem ages_install (r k : Nat) (p : CachePtr) (ci : CacheInfo) (s X : State)
    (m : MetaData) (hi : X.iCache = s.iCache) (hd : X.dCache = s.dCache)
    (hin : ∀ j, j < ci.associativity → s.inb p r j) (hk : k < ci.associativity) :
    Ages ci p r s (fixLRU r k p ci (X.setLine p r k m)) := by
  have hinX : ∀ j, j < ci.associativity → X.inb p r j :=
    fun j hj => (inb_congr hi hd p r j).mpr (hin j hj)
  have hinS : ∀ j, j < ci.associativity → (X.setLine p r k m).inb p r j :=
    fun j hj => (inb_setLine _ _ _ _ _ _ _ _).mpr (hinX j hj)
  refine ⟨k, hk, ?_, fun i hi' hik => ?_⟩
  · rw [fixLRU_line r k p ci _ k hinS hk hk, if_pos rfl]
  · rw [fixLRU_line r k p ci _ i hinS hk hi', if_neg hik,
      line_setLine_row _ _ _ _ _ _ (hinX k hk), if_neg hik, line_congr hi hd]
    exact ⟨rfl, rfl⟩

/-- A read of a cache with associativity other than 1 runs `fixLRU` on its
row, at the way it hits or fills. -/
theorem cacheAccess_ages (address : Nat) (p : CachePtr) (ci : CacheInfo) (w rand : Nat)
    (s : State) (hs : Shaped ci p s)
    (hr : rowIndexOf ci address < ci.num_blocks / ci.associativity)
    (ha : 1 ≤ ci.associativity) (hne : ci.associativity ≠ 1) :
    Ages ci p (rowIndexOf ci address) s (cacheAccess address p ci w rand s) := by
  have hin : ∀ k, k < ci.associativity → s.inb p (rowIndexOf ci address) k :=
    fun k hk => (hs _ _).mpr ⟨hr, hk⟩
  refine cacheAccess_cases address p ci w rand s
    (fun X => Ages ci p (rowIndexOf ci address) s X) ?_ ?_ ?_ ?_ ?_ ?_ ?_
  · intro _
    exact ages_install _ 0 p ci s (countCompul w (countRead w s)) _ (by simp) (by simp) hin ha
  · intro _ _
    exact ages_touch _ 0 p ci s (countHit w (countRead w s)) (by simp) (by simp) hin ha
  · intro _ _ ha1
    exact absurd ha1 hne
  · intro i _ _ _ hsc _
    obtain ⟨hi, -, -⟩ := scanRead_some hsc
    exact ages_congr
      (ages_touch (rowIndexOf ci address) i p ci s (countRead w s) (by simp) (by simp) hin hi)
      (cache_congr (by simp) (by simp))
  · intro i _ _ _ hsc _
    obtain ⟨hi, -, -⟩ := scanRead_some hsc
    exact ages_install _ i p ci s (countCompul w (countRead w s)) _ (by simp) (by simp) hin hi
  · intro _ _ _ _ _
    have hk : rand % (ci.associativity - 1) < ci.associativity := by
      have : rand % (ci.associativity - 1) < ci.associativity - 1 :=
        Nat.mod_lt _ (by omega)
      omega
    unfold ranReplace
    simp only []
    refine ages_install _ _ p ci s _ _ ?_ ?_ hin hk
    · split <;> simp
    · split <;> simp
  · intro _ _ _ _ _
    have hk := lruScan_lt (rowIndexOf ci address) p ci (countCapacity w (countRead w s)) ha
    unfold lruReplace
    simp only []
    refine ages_install _ _ p ci s _ _ ?_ ?_ hin hk
    · split <;> simp
    · split <;> simp

/-- A data write to a cache with associativity other than 1 runs `fixLRU` on
its row, or leaves the recency counters and valid flags of the row alone. -/
theorem dWrite_ages (cfg : Config) (address rand : Nat) (s : State)
    (hs : Shaped cfg.dcache_info0 .D s)
    (hr : rowIndexOf cfg.dcache_info0 address
      < cfg.dcache_info0.num_blocks / cfg.dcache_info0.associativity)
    (ha : 1 ≤ cfg.dcache_info0.associativity) (hne : cfg.dcache_info0.associativity ≠ 1) :
    Ages cfg.dcache_info0 .D (rowIndexOf cfg.dcache_info0 address) s
        (dWrite cfg address rand s) ∨
    SameAge .D (rowIndexOf cfg.dcache_info0 address) s (dWrite cfg address rand s) := by
  have hin : ∀ k, k < cfg.dcache_info0.associativity →
      s.inb .D (rowIndexOf cfg.dcache_info0 address) k :=
    fun k hk => (hs _ _).mpr ⟨hr, hk⟩
  have hhit : ∀ k, k < cfg.dcache_info0.associativity →
      Ages cfg.dcache_info0 .D (rowIndexOf cfg.dcache_info0 address) s
        (fixLRU (rowIndexOf cfg.dcache_info0 address) k .D cfg.dcache_info0
          (performWrite cfg (rowIndexOf cfg.dcache_info0 address) k
            (countWHit (countWrite s)))) := by
    intro k hk
    obtain ⟨-, hl⟩ := writeHit_state cfg (rowIndexOf cfg.dcache_info0 address) k s hin hk
    refine ⟨k, hk, ?_, fun i hi hik => ?_⟩
    · rw [hl k hk]
      simp
    · rw [hl i hi]
      simp [hik]
  have hfill : ∀ k, k < cfg.dcache_info0.associativity →
      Ages cfg.dcache_info0 .D (rowIndexOf cfg.dcache_info0 address) s
        (fillOpenSpace cfg (rowIndexOf cfg.dcache_info0 address) k
          cfg.dcache_info0.words_per_block (tagOf cfg.dcache_info0 address) (countWrite s)) ∨
      SameAge .D (rowIndexOf cfg.dcache_info0 address) s
        (fillOpenSpace cfg (rowIndexOf cfg.dcache_info0 address) k
          cfg.dcache_info0.words_per_block (tagOf cfg.dcache_info0 address) (countWrite s)) := by
    intro k hk
    have hc := fillOpenSpace_cache cfg (rowIndexOf cfg.dcache_info0 address) k
      cfg.dcache_info0.words_per_block (tagOf cfg.dcache_info0 address) (countWrite s)
    cases hws : cfg.dcache_info0.write_scheme <;>
      cases has : cfg.dcache_info0.allocate_scheme <;> simp only [hws, has] at hc
    · exact Or.inl (ages_congr (ages_install _ k .D cfg.dcache_info0 s (countWrite s) _
        rfl rfl hin hk) hc)
    · exact Or.inl (ages_congr (ages_install _ k .D cfg.dcache_info0 s (countWrite s) _
        rfl rfl hin hk) hc)
    · exact Or.inl (ages_congr (ages_install _ k .D cfg.dcache_info0 s (countWrite s) _
        rfl rfl hin hk) hc)
    · exact Or.inr (sameAge_of_cache hc)
  have hmem : ∀ k, k < cfg.dcache_info0.associativity →
      Ages cfg.dcache_info0 .D (rowIndexOf cfg.dcache_info0 address) s
        (writeMem cfg (rowIndexOf cfg.dcache_info0 address) k .D cfg.dcache_info0
          (tagOf cfg.dcache_info0 address) (countWrite s)) ∨
      SameAge .D (rowIndexOf cfg.dcache_info0 address) s
        (writeMem cfg (rowIndexOf cfg.dcache_info0 address) k .D cfg.dcache_info0
          (tagOf cfg.dcache_info0 address) (countWrite s)) := by
    intro k hk
    have hc := writeMem_cache cfg (rowIndexOf cfg.dcache_info0 address) k .D
      cfg.dcache_info0 (tagOf cfg.dcache_info0 address) (countWrite s) (hin k hk)
    cases hws : cfg.dcache_info0.write_scheme <;>
      cases has : cfg.dcache_info0.allocate_scheme <;> simp only [hws, has] at hc
    · by_cases hle : ((countWrite s).line .D (rowIndexOf cfg.dcache_info0 address) k).dirty ≤ 1
      · simp only [hle, if_true] at hc
        exact Or.inl (ages_congr (ages_install _ k .D cfg.dcache_info0 s (countWrite s) _
          rfl rfl hin hk) hc)
      · simp only [hle, if_false] at hc
        exact Or.inr (sameAge_of_cache hc)
    · by_cases hle : ((countWrite s).line .D (rowIndexOf cfg.dcache_info0 address) k).dirty ≤ 1
      · simp only [hle, if_true] at hc
        exact Or.inl (ages_congr (ages_install _ k .D cfg.dcache_info0 s (countWrite s) _
          rfl rfl hin hk) hc)
      · simp only [hle, if_false] at hc
        exact Or.inr (sameAge_of_cache hc)
    · exact Or.inl (ages_congr (ages_install _ k .D cfg.dcache_info0 s (countWrite s) _
        rfl rfl hin hk) hc)
    · exact Or.inr (sameAge_of_cache hc)
  refine dWrite_cases cfg address rand s (fun X =>
      Ages cfg.dcache_info0 .D (rowIndexOf cfg.dcache_info0 address) s X ∨
      SameAge .D (rowIndexOf cfg.dcache_info0 address) s X) ?_ ?_ ?_ ?_ ?_ ?_ ?_
  · intro _ _
    exact Or.inl (hhit 0 ha)
  · intro _ _ ha1
    exact absurd ha1 hne
  · intro i _ _ _ hsc
    exact Or.inl (hhit i (scanWrite_some hsc).2.1)
  · intro k _ _ _ _ ho
    exact hfill k (isOpen_some ho).1
  · intro _ _ _ _ _ _
    have hk : rand % (cfg.dcache_info0.associativity - 1) < cfg.dcache_info0.associativity := by
      have : rand % (cfg.dcache_info0.associativity - 1) < cfg.dcache_info0.associativity - 1 :=
        Nat.mod_lt _ (by omega)
      omega
    exact hmem _ hk
  · intro _ _ _ _ _ _
    exact hmem _ (lruScan_lt (rowIndexOf cfg.dcache_info0 address) .D cfg.dcache_info0
      (countWrite s) ha)
  · intro _
    exact hfill 0 ha

theorem distinctLRU_of_one {ci : CacheInfo} (p : CachePtr) (s : State)
    (h : ci.associativity = 1) : DistinctLRU ci p s := by
  intro r i j hi hj _ _ _
  omega

theorem distinctLRU_step (cfg : Config) (hv : cfg.Valid) (s : State) (a : Access)
    (h : StateInv cfg s)
    (hu : DistinctLRU cfg.icache_info .I s ∧ DistinctLRU cfg.dcache_info0 .D s) :
    DistinctLRU cfg.icache_info .I (handle_access cfg a.type a.address a.rand s) ∧
    DistinctLRU cfg.dcache_info0 .D (handle_access cfg a.type a.address a.rand s) := by
  obtain ⟨hI, hD, hda⟩ := h
  obtain ⟨uI, uD⟩ := hu
  obtain ⟨⟨haI, -, kI, hkI⟩, hvD⟩ := hv
  cases hty : a.type <;> simp only [handle_access]
  · have hi := cacheAccess_installs a.address .I cfg.icache_info 1 a.rand s hI.1 hI.2.1
      (rowIndexOf_lt _ _ kI hkI) haI
    refine ⟨?_, distinctLRU_of_frame uD (by decide) hi.1⟩
    by_cases h1 : cfg.icache_info.associativity = 1
    · exact distinctLRU_of_one .I _ h1
    · exact distinctLRU_of_ages uI hi.1 (cacheAccess_ages a.address .I cfg.icache_info 1
        a.rand s hI.1 (rowIndexOf_lt _ _ kI hkI) haI h1)
  · split
    · rename_i hne
      have hpos : cfg.dcache_info0.associativity > 0 := by
        by_contra hc
        rw [hda, if_neg hc] at hne
        exact hne rfl
      rcases hvD with h0 | ⟨haD, -, kD, hkD⟩
      · omega
      · have hi := cacheAccess_installs a.address .D cfg.dcache_info0 0 a.rand s hD.1 hD.2.1
          (rowIndexOf_lt _ _ kD hkD) haD
        refine ⟨distinctLRU_of_frame uI (by decide) hi.1, ?_⟩
        by_cases h1 : cfg.dcache_info0.associativity = 1
        · exact distinctLRU_of_one .D _ h1
        · exact distinctLRU_of_ages uD hi.1 (cacheAccess_ages a.address .D cfg.dcache_info0 0
            a.rand s hD.1 (rowIndexOf_lt _ _ kD hkD) haD h1)
    · exact ⟨uI, uD⟩
  · split
    · rename_i hne
      have hpos : cfg.dcache_info0.associativity > 0 := by
        by_contra hc
        rw [hda, if_neg hc] at hne
        exact hne rfl
      rcases hvD with h0 | ⟨haD, -, kD, hkD⟩
      · omega
      · have hst := dWrite_step cfg a.address a.rand s hD (rowIndexOf_lt _ _ kD hkD) haD
        have hf : FrameOutside .D (rowIndexOf cfg.dcache_info0 a.address) s
            (dWrite cfg a.address a.rand s) := by
          rcases hst with hk | hi
          · exact hk.1
          · exact hi.1
        refine ⟨distinctLRU_of_frame uI (by decide) hf, ?_⟩
        by_cases h1 : cfg.dcache_info0.associativity = 1
        · exact distinctLRU_of_one .D _ h1
        · rcases dWrite_ages cfg a.address a.rand s hD.1 (rowIndexOf_lt _ _ kD hkD) haD h1
            with hag | hsame
          · exact distinctLRU_of_ages uD hf hag
          · exact distinctLRU_of_same uD hf hsame
    · exact ⟨uI, uD⟩

theorem distinctLRU_simulate (cfg : Config) (hv : cfg.Valid) (trace : List Access) :
    StateInv cfg (simulate cfg trace) ∧
    DistinctLRU cfg.icache_info .I (simulate cfg trace) ∧
    DistinctLRU cfg.dcache_info0 .D (simulate cfg trace) := by
  refine run_induction cfg
    (fun s => StateInv cfg s ∧ DistinctLRU cfg.icache_info .I s ∧
      DistinctLRU cfg.dcache_info0 .D s) ?_ trace _ ⟨stateInv_setup cfg, ?_, ?_⟩
  · rintro s a ⟨h1, h2⟩
    exact ⟨stateInv_step cfg hv s a h1, distinctLRU_step cfg hv s a h1 h2⟩
  · intro r i j _ _ hvi
    rw [(setup_caches_lines cfg).1 .I r i] at hvi
    exact absurd hvi (by decide)
  · intro r i j _ _ hvi
    rw [(setup_caches_lines cfg).1 .D r i] at hvi
    exact absurd hvi (by decide)

/-- C23. In every state reached by a run of a valid configuration the valid
lines of each row of either cache have pairwise different recency counters.
Hence in a full row (every way valid) of a cache that is present, the way
chosen by `lruReplace` and by `lruReplaceD` has a recency counter strictly
larger than that of every other way: the maximum is unique and the choice of
the lowest index among equal counters never decides. -/
theorem valid_lines_have_distinct_recency (cfg : Config) (hv : cfg.Valid)
    (trace : List Access) :
    ∀ (p : CachePtr) (r : Nat),
      (∀ i j, ((simulate cfg trace).line p r i).valid = 1 →
        ((simulate cfg trace).line p r j).valid = 1 →
        ((simulate cfg trace).line p r i).LRU = ((simulate cfg trace).line p r j).LRU →
        i = j) ∧
      (0 < (cfg.info p).associativity →
        (∀ i, i < (cfg.info p).associativity →
          ((simulate cfg trace).line p r i).valid = 1) →
        ∀ tag,
          (lruReplace r p (cfg.info p) tag (simulate cfg trace)).1
            < (cfg.info p).associativity ∧
          (lruReplaceD cfg r p (cfg.info p) tag (simulate cfg trace)).1
            = (lruReplace r p (cfg.info p) tag (simulate cfg trace)).1 ∧
          ∀ i, i < (cfg.info p).associativity →
            i ≠ (lruReplace r p (cfg.info p) tag (simulate cfg trace)).1 →
            ((simulate cfg trace).line p r i).LRU
              < ((simulate cfg trace).line p r
                  (lruReplace r p (cfg.info p) tag (simulate cfg trace)).1).LRU) := by
  obtain ⟨hinv, uI, uD⟩ := distinctLRU_simulate cfg hv trace
  intro p r
  have hu : DistinctLRU (cfg.info p) p (simulate cfg trace) := by
    cases p
    · exact uI
    · exact uD
  have hsh : Shaped (cfg.info p) p (simulate cfg trace) := by
    cases p
    · exact hinv.1.1
    · exact hinv.2.1.1
  have hlt : ∀ k, ((simulate cfg trace).line p r k).valid = 1 →
      k < (cfg.info p).associativity := by
    intro k hk
    by_contra hc
    have hnin : ¬ (simulate cfg trace).inb p r k := fun hin => hc ((hsh r k).mp hin).2
    rw [line_of_not_inb hnin] at hk
    exact absurd hk (by decide)
  refine ⟨fun i j hvi hvj hl => hu r i j (hlt i hvi) (hlt j hvj) hvi hvj hl,
    fun hpos hfull tag => ?_⟩
  obtain ⟨h1, h2, -⟩ := lruScan_spec r p (cfg.info p) (simulate cfg trace) hpos
  refine ⟨h1, rfl, fun i hi hne => ?_⟩
  have hle := h2 i hi
  have hneq : ((simulate cfg trace).line p r i).LRU
      ≠ ((simulate cfg trace).line p r
          (lruScan r p (cfg.info p) (simulate cfg trace)).2).LRU :=
    fun he => hne (hu r i _ hi h1 (hfull i hi) (hfull _ h1) he)
  exact lt_of_le_of_ne hle hneq

theorem valid_lines_have_distinct_recency_witness :
    (∀ i j, ((simulate cfgLRU2 traceFullyAssoc).line .D 0 i).valid = 1 →
      ((simulate cfgLRU2 traceFullyAssoc).line .D 0 j).valid = 1 →
      ((simulate cfgLRU2 traceFullyAssoc).line .D 0 i).LRU
        = ((simulate cfgLRU2 traceFullyAssoc).line .D 0 j).LRU →
      i = j) ∧
    (∀ i, i < (cfgLRU2.info .D).associativity →
      ((simulate cfgLRU2 traceFullyAssoc).line .D 0 i).valid = 1) ∧
    (∀ i, i < (cfgLRU2.info .D).associativity →
      i ≠ (lruReplace 0 .D (cfgLRU2.info .D) 7 (simulate cfgLRU2 traceFullyAssoc)).1 →
      ((simulate cfgLRU2 traceFullyAssoc).line .D 0 i).LRU
        < ((simulate cfgLRU2 traceFullyAssoc).line .D 0
            (lruReplace 0 .D (cfgLRU2.info .D) 7 (simulate cfgLRU2 traceFullyAssoc)).1).LRU) :=
  ⟨(valid_lines_have_distinct_recency cfgLRU2
      ⟨⟨by decide, ⟨0, rfl⟩, ⟨0, rfl⟩⟩, Or.inr ⟨by decide, ⟨0, rfl⟩, ⟨0, rfl⟩⟩⟩
      traceFullyAssoc .D 0).1,
   by decide,
   ((valid_lines_have_distinct_recency cfgLRU2
      ⟨⟨by decide, ⟨0, rfl⟩, ⟨0, rfl⟩⟩, Or.inr ⟨by decide, ⟨0, rfl⟩, ⟨0, rfl⟩⟩⟩
      traceFullyAssoc .D 0).2 (by decide) (by decide) 7).2.2⟩

end CacheSim
